import Mathlib

/-!
Verification of the transaction codec of `electrum_zcash/transaction.py`
(zebra-lucky/electrum-zcash), as a shallow embedding in Lean 4.

Byte strings are modelled as `List Nat`, each element standing for one byte
(so a well-formed byte string has all elements `< 256`; theorems about
parsing arbitrary input carry that hypothesis explicitly, mirroring the
`bytes` type of the source).  Python exceptions are modelled with
`Except Err`, with one `Err` constructor per exception class the relevant
code can raise, so that error *kinds* (e.g. `TransactionVersionError`
versus `SerializationError`) stay distinguishable.  Cryptographic hash
primitives (from the out-of-scope `crypto.py`/`ecc.py`) are abstracted as a
`HashModel` parameter: every claim about the codec is structural in the
hash functions, and theorems quantify over the model.
-/

namespace ZcashTx

/-- A byte string: one `Nat` per byte. -/
abbrev Bytes := List Nat

/-- Every element of the list is a byte value (`< 256`); this is the
invariant Python's `bytes` type provides for free. -/
def bytesWF (bs : Bytes) : Prop := ∀ b ∈ bs, b < 256

instance (bs : Bytes) : Decidable (bytesWF bs) := by
  unfold bytesWF; infer_instance

/-- The number a little-endian byte string stands for. -/
def leVal : Bytes → Nat
  | [] => 0
  | b :: rest => b + 256 * leVal rest

/-- `len` little-endian bytes holding `n` (mod `256 ^ len`).  This is the
byte-level meaning of the source's `int_to_hex`/`struct.pack('<...')`
fixed-width little-endian encodings. -/
def natToLE (n : Nat) : Nat → Bytes
  | 0 => []
  | len + 1 => n % 256 :: natToLE (n / 256) len

theorem natToLE_length (n len : Nat) : (natToLE n len).length = len := by
  induction len generalizing n with
  | zero => rfl
  | succ l ih => simp [natToLE, ih]

theorem bytesWF_natToLE (n len : Nat) : bytesWF (natToLE n len) := by
  induction len generalizing n with
  | zero => intro b hb; simp [natToLE] at hb
  | succ l ih =>
    intro b hb
    simp only [natToLE, List.mem_cons] at hb
    rcases hb with h | h
    · subst h; exact Nat.mod_lt _ (by norm_num)
    · exact ih _ _ h

theorem leVal_natToLE (n len : Nat) : leVal (natToLE n len) = n % 256 ^ len := by
  induction len generalizing n with
  | zero => simp [natToLE, leVal, Nat.mod_one]
  | succ l ih =>
    simp only [natToLE, leVal, ih]
    rw [Nat.pow_succ', Nat.mod_mul]

theorem leVal_natToLE_of_lt {n len : Nat} (h : n < 256 ^ len) :
    leVal (natToLE n len) = n := by
  rw [leVal_natToLE, Nat.mod_eq_of_lt h]

theorem leVal_lt_of_wf {bs : Bytes} (h : bytesWF bs) : leVal bs < 256 ^ bs.length := by
  induction bs with
  | nil => simp [leVal]
  | cons b rest ih =>
    have hb : b < 256 := h b (by simp)
    have hr : leVal rest < 256 ^ rest.length := ih (fun x hx => h x (by simp [hx]))
    simp only [leVal, List.length_cons, Nat.pow_succ]
    calc b + 256 * leVal rest < 256 + 256 * leVal rest := by omega
    _ = 256 * (leVal rest + 1) := by ring
    _ ≤ 256 * 256 ^ rest.length := by
        exact Nat.mul_le_mul_left 256 hr
    _ = 256 ^ rest.length * 256 := by ring

theorem natToLE_leVal {bs : Bytes} (h : bytesWF bs) :
    natToLE (leVal bs) bs.length = bs := by
  induction bs with
  | nil => rfl
  | cons b rest ih =>
    have hb : b < 256 := h b (by simp)
    have hr := ih (fun x hx => h x (by simp [hx]))
    simp only [leVal, List.length_cons, natToLE]
    have h1 : (b + 256 * leVal rest) % 256 = b := by omega
    have h2 : (b + 256 * leVal rest) / 256 = leVal rest := by omega
    rw [h1, h2, hr]

theorem bytesWF_append {a b : Bytes} (ha : bytesWF a) (hb : bytesWF b) :
    bytesWF (a ++ b) := by
  intro x hx
  rcases List.mem_append.mp hx with h | h
  · exact ha x h
  · exact hb x h

theorem bytesWF_of_append_left {a b : Bytes} (h : bytesWF (a ++ b)) : bytesWF a :=
  fun x hx => h x (List.mem_append.mpr (Or.inl hx))

theorem bytesWF_of_append_right {a b : Bytes} (h : bytesWF (a ++ b)) : bytesWF b :=
  fun x hx => h x (List.mem_append.mpr (Or.inr hx))

theorem bytesWF_take {bs : Bytes} (h : bytesWF bs) (n : Nat) : bytesWF (bs.take n) :=
  fun x hx => h x (List.mem_of_mem_take hx)

theorem bytesWF_drop {bs : Bytes} (h : bytesWF bs) (n : Nat) : bytesWF (bs.drop n) :=
  fun x hx => h x (List.mem_of_mem_drop hx)

/-- ASCII bytes of a string literal (used for BLAKE2b personalization tags). -/
def strBytes (s : String) : Bytes := s.toList.map Char.toNat

/-!
## Error model

One constructor per Python exception class reachable from the modelled
code.  `serialization` is `SerializationError` (transaction.py), `txVersion`
is `TransactionVersionError`, `malformedScript` is `MalformedBitcoinScript`,
`unknownTxinType` is `UnknownTxinType`, `missingTxInputAmount` is
`MissingTxInputAmount`, `psbtInputConsistency` is `PSBTInputConsistencyFailure`;
`typeError` and `overflow` are Python's builtin `TypeError`/`OverflowError`
(raised by the integer-encoding helper `int_to_hex` of `bitcoin.py`), and
`generic` covers plain `Exception`, `AssertionError` and `IndexError`. -/
inductive Err where
  | serialization
  | txVersion
  | malformedScript
  | unknownTxinType
  | missingTxInputAmount
  | psbtInputConsistency
  | typeError
  | overflow
  | generic
deriving DecidableEq, Repr

/-- Lift an `Option` into `Except`, failing with `e`. -/
def liftOpt (e : Err) : Option α → Except Err α
  | some a => .ok a
  | none => .error e

theorem except_bind_ok {α β : Type} {e : Except Err α} {f : α → Except Err β} {b : β} :
    e >>= f = .ok b ↔ ∃ a, e = .ok a ∧ f a = .ok b := by
  cases e <;> simp [Bind.bind, Except.bind]

theorem except_bind_err {α β : Type} {e : Except Err α} {f : α → Except Err β} {c : Err} :
    e >>= f = .error c ↔ e = .error c ∨ ∃ a, e = .ok a ∧ f a = .error c := by
  cases e <;> simp [Bind.bind, Except.bind]

/-!
## `BCDataStream`: the binary stream codec (transaction.py lines 243–374)

The source reads from a byte buffer at a cursor; we model a read as a
function from the remaining byte string to `Except Err (value × rest)`.
-/

/-- `BCDataStream.read_bytes`: the next `length` bytes, or
`SerializationError` when fewer remain. -/
def read_bytes (length : Nat) (s : Bytes) : Except Err (Bytes × Bytes) :=
  if length ≤ s.length then .ok (s.take length, s.drop length)
  else .error .serialization

/-- `BCDataStream._read_num` with a `width`-byte little-endian unsigned
format (`<H`, `<I`, `<Q`): `struct.unpack_from` failures become
`SerializationError`. -/
def read_le_num (width : Nat) (s : Bytes) : Except Err (Nat × Bytes) := do
  let (c, r) ← read_bytes width s
  .ok (leVal c, r)

/-- The signed reading of `width` little-endian bytes (two's complement),
as `struct.unpack('<q')` does for `read_int64`. -/
def toSigned (width u : Nat) : Int :=
  if 2 * u < 2 ^ (8 * width) then (u : Int) else (u : Int) - 2 ^ (8 * width)

/-- `BCDataStream.read_int64` (`<q`). -/
def read_int64 (s : Bytes) : Except Err (Int × Bytes) := do
  let (u, r) ← read_le_num 8 s
  .ok (toSigned 8 u, r)

/-- `BCDataStream.read_compact_size`: one tag byte, then `253` ⇒ u16,
`254` ⇒ u32, `255` ⇒ u64; any other tag byte is the value itself.  The
reader accepts non-minimal encodings. -/
def read_compact_size (s : Bytes) : Except Err (Nat × Bytes) :=
  match s with
  | [] => .error .serialization
  | size :: rest =>
    if size = 253 then read_le_num 2 rest
    else if size = 254 then read_le_num 4 rest
    else if size = 255 then read_le_num 8 rest
    else .ok (size, rest)

/-- `BCDataStream.write_compact_size`: negative sizes are a
`SerializationError`; the writer picks the minimal encoding; sizes at or
above `2 ^ 64` raise a plain `Exception`. -/
def write_compact_size (size : Int) : Except Err Bytes :=
  if size < 0 then .error .serialization
  else if size < 253 then .ok [size.toNat]
  else if size < 2 ^ 16 then .ok (253 :: natToLE size.toNat 2)
  else if size < 2 ^ 32 then .ok (254 :: natToLE size.toNat 4)
  else if size < 2 ^ 64 then .ok (255 :: natToLE size.toNat 8)
  else .error .generic

/-!
## Transaction value model (transaction.py lines 106–241, 510–648)
-/

/-- Version-group magic constants (transaction.py lines 63–68). -/
def OVERWINTERED_VERSION_GROUP_ID : Nat := 0x03C48270

def SAPLING_VERSION_GROUP_ID : Nat := 0x892F2085

def CANOPY_BRANCH_ID : Nat := 0xE9FF75A6

def SIGHASH_ALL : Nat := 1

/-- `TxOutpoint`: txid kept in display order (reverse of wire order). -/
structure TxOutpoint where
  txid : Bytes
  out_idx : Nat
deriving DecidableEq, Repr

/-- `TxOutpoint.is_coinbase`: an all-zero 32-byte txid. -/
def TxOutpoint.is_coinbase (p : TxOutpoint) : Bool :=
  p.txid = List.replicate 32 0

/-- `TxInput` (the plain, non-PSBT input): `script_sig = none` means "not
yet known/signed".  The `_is_coinbase_output` maturity flag plays no role in
any modelled code path and is omitted. -/
structure TxInput where
  prevout : TxOutpoint
  script_sig : Option Bytes
  nsequence : Nat
deriving DecidableEq, Repr

def TxInput.is_coinbase_input (txin : TxInput) : Bool := txin.prevout.is_coinbase

/-- `TxOutput`.  The `'!'` "spend-max" sentinel never reaches the codec
paths modelled here (the spec resolves it upstream), so `value` is an
integer. -/
structure TxOutput where
  scriptpubkey : Bytes
  value : Int
deriving DecidableEq, Repr

/-- The fields of a `Transaction`.  `_cached_network_ser`/`_cached_txid`
are a pure-recomputation cache and have no observable content; the parsed
fields are modelled directly. -/
structure TxData where
  version : Nat
  overwintered : Bool
  versionGroupId : Nat
  inputs : List TxInput
  outputs : List TxOutput
  locktime : Nat
  expiryHeight : Nat
  valueBalance : Int
  shieldedSpends : Option Bytes
  shieldedOutputs : Option Bytes
  joinSplits : Option Bytes
  joinSplitPubKey : Option Bytes
  joinSplitSig : Option Bytes
  bindingSig : Option Bytes
deriving DecidableEq, Repr

/-- The field defaults set by `Transaction.__init__` (lines 516–541). -/
def Transaction_init : TxData :=
  { version := 4
    overwintered := true
    versionGroupId := SAPLING_VERSION_GROUP_ID
    inputs := []
    outputs := []
    locktime := 0
    expiryHeight := 0
    valueBalance := 0
    shieldedSpends := none
    shieldedOutputs := none
    joinSplits := none
    joinSplitPubKey := none
    joinSplitSig := none
    bindingSig := none }

/-- `TOTAL_COIN_SUPPLY_LIMIT_IN_BTC * COIN` (imported from the out-of-scope
`bitcoin.py`; 21 million coins of 10^8 satoshis). -/
def TOTAL_COIN_SUPPLY_LIMIT : Int := 21000000 * 100000000

/-- `parse_input` (lines 481–487), with the compact-size reader passed in so
the canonical-encoding variant can reuse the definition verbatim. -/
def parse_input_gen (rcs : Bytes → Except Err (Nat × Bytes)) (s : Bytes) :
    Except Err (TxInput × Bytes) := do
  let (prevout_hash, s) ← read_bytes 32 s
  let (prevout_n, s) ← read_le_num 4 s
  let (slen, s) ← rcs s
  let (script_sig, s) ← read_bytes slen s
  let (nsequence, s) ← read_le_num 4 s
  .ok ({ prevout := { txid := prevout_hash.reverse, out_idx := prevout_n }
         script_sig := some script_sig
         nsequence := nsequence }, s)

/-- `parse_output` (lines 490–497). -/
def parse_output_gen (rcs : Bytes → Except Err (Nat × Bytes)) (s : Bytes) :
    Except Err (TxOutput × Bytes) := do
  let (value, s) ← read_int64 s
  if TOTAL_COIN_SUPPLY_LIMIT < value then .error .serialization
  else if value < 0 then .error .serialization
  else do
    let (slen, s) ← rcs s
    let (scriptpubkey, s) ← read_bytes slen s
    .ok ({ scriptpubkey := scriptpubkey, value := value }, s)

/-- `[f(vds) for i in range(n)]`: parse `n` items in sequence. -/
def parse_list {α : Type} (f : Bytes → Except Err (α × Bytes)) :
    Nat → Bytes → Except Err (List α × Bytes)
  | 0, s => .ok ([], s)
  | n + 1, s => do
    let (x, s) ← f s
    let (xs, s) ← parse_list f n s
    .ok (x :: xs, s)

/-- `tx.read_bytes(len)` but wrapped as `some`/`none` under the guard
`cond` (`if n > 0: tx.x = vds.read_bytes(...)`). -/
def read_opt_blob (cond : Bool) (len : Nat) (s : Bytes) :
    Except Err (Option Bytes × Bytes) :=
  if cond then (read_bytes len s).map (fun p => (some p.1, p.2))
  else .ok (none, s)

/-- The fields the Overwintered tail of `read_vds` assigns (lines
623–644). -/
structure OwTail where
  expiryHeight : Nat
  valueBalance : Int
  shieldedSpends : Option Bytes
  shieldedOutputs : Option Bytes
  joinSplits : Option Bytes
  joinSplitPubKey : Option Bytes
  joinSplitSig : Option Bytes
  bindingSig : Option Bytes
deriving DecidableEq, Repr

/-- The Overwintered tail of `read_vds` (lines 623–644): expiry height;
for version 4 the value balance and the shielded-spend/output blobs; the
join-split blob with its pubkey and signature; and the binding signature
when any shielded spend or output exists. -/
def parse_ow_tail (rcs : Bytes → Except Err (Nat × Bytes)) (version : Nat)
    (s : Bytes) : Except Err (OwTail × Bytes) := do
  let (expiryHeight, s) ← read_le_num 4 s
  let (valueBalance, n_sh_sp, shieldedSpends, n_sh_out, shieldedOutputs, s) ←
    if version = 4 then do
      let (valueBalance, s) ← read_int64 s
      let (n_sh_sp, s) ← rcs s
      let (shieldedSpends, s) ← read_opt_blob (0 < n_sh_sp) (n_sh_sp * 384) s
      let (n_sh_out, s) ← rcs s
      let (shieldedOutputs, s) ← read_opt_blob (0 < n_sh_out) (n_sh_out * 948) s
      .ok (valueBalance, n_sh_sp, shieldedSpends, n_sh_out, shieldedOutputs, s)
    else .ok ((0 : Int), 0, none, 0, none, s)
  let (n_js, s) ← rcs s
  let (joinSplits, joinSplitPubKey, joinSplitSig, s) ←
    if 0 < n_js then do
      let (js, s) ← read_bytes (n_js * (if version = 3 then 1802 else 1698)) s
      let (jpk, s) ← read_bytes 32 s
      let (jsig, s) ← read_bytes 64 s
      .ok (some js, some jpk, some jsig, s)
    else .ok (none, none, none, s)
  let (bindingSig, s) ← read_opt_blob (version = 4 && 0 < n_sh_sp + n_sh_out) 64 s
  .ok ({ expiryHeight := expiryHeight, valueBalance := valueBalance
         shieldedSpends := shieldedSpends, shieldedOutputs := shieldedOutputs
         joinSplits := joinSplits, joinSplitPubKey := joinSplitPubKey
         joinSplitSig := joinSplitSig, bindingSig := bindingSig }, s)

/-- The body of `Transaction.read_vds` after the header/version-group
checks (lines 617–648): input list, output list, locktime and the
Overwintered tail.  Fields not assigned keep their `Transaction.__init__`
defaults. -/
def read_tx_body (rcs : Bytes → Except Err (Nat × Bytes))
    (alone_data overwintered : Bool) (version ver_group_id : Nat) (s : Bytes) :
    Except Err (TxData × Bytes) := do
  let (n_vin, s) ← rcs s
  let (inputs, s) ← parse_list (parse_input_gen rcs) n_vin s
  let (n_vout, s) ← rcs s
  let (outputs, s) ← parse_list (parse_output_gen rcs) n_vout s
  let (locktime, s) ← read_le_num 4 s
  if overwintered then do
    let (t, s) ← parse_ow_tail rcs version s
    if alone_data ∧ s ≠ [] then .error .serialization
    else
      .ok ({ Transaction_init with
              version := version, overwintered := true
              versionGroupId := ver_group_id
              inputs := inputs, outputs := outputs, locktime := locktime
              expiryHeight := t.expiryHeight, valueBalance := t.valueBalance
              shieldedSpends := t.shieldedSpends
              shieldedOutputs := t.shieldedOutputs
              joinSplits := t.joinSplits, joinSplitPubKey := t.joinSplitPubKey
              joinSplitSig := t.joinSplitSig, bindingSig := t.bindingSig }, s)
  else
    if alone_data ∧ s ≠ [] then .error .serialization
    else
      .ok ({ Transaction_init with
              version := version, overwintered := false
              inputs := inputs, outputs := outputs, locktime := locktime }, s)

/-- `Transaction.read_vds` (lines 597–648): the 4-byte header, the
Overwintered bit, the version / version-group-id checks
(`TransactionVersionError`), then the body. -/
def read_vds_gen (rcs : Bytes → Except Err (Nat × Bytes)) (alone_data : Bool)
    (s : Bytes) : Except Err (TxData × Bytes) := do
  let (header, s) ← read_le_num 4 s
  let overwintered : Bool := header &&& 0x80000000 ≠ 0
  let version := header &&& 0x7FFFFFFF
  if overwintered then
    if version ≠ 3 ∧ version ≠ 4 then .error .txVersion
    else do
      let (ver_group_id, s) ← read_le_num 4 s
      if (version = 3 ∧ ver_group_id ≠ OVERWINTERED_VERSION_GROUP_ID)
          ∨ (version = 4 ∧ ver_group_id ≠ SAPLING_VERSION_GROUP_ID) then
        .error .txVersion
      else read_tx_body rcs alone_data true version ver_group_id s
  else read_tx_body rcs alone_data false version SAPLING_VERSION_GROUP_ID s

/-- The source's parser (permissive compact-size reader), reading a
transaction alone as `Transaction.deserialize` does (`alone_data=True`:
trailing bytes are `extra junk`). -/
def read_vds_alone (s : Bytes) : Except Err (TxData × Bytes) :=
  read_vds_gen read_compact_size true s

/-- The same parser restricted to minimally-encoded compact sizes: a
multi-byte encoding of a value that would fit a shorter form is rejected.
Used to state the canonical round-trip property. -/
def read_compact_size_min (s : Bytes) : Except Err (Nat × Bytes) :=
  match s with
  | [] => .error .serialization
  | size :: rest =>
    if size = 253 then do
      let (v, r) ← read_le_num 2 rest
      if v < 253 then .error .serialization else .ok (v, r)
    else if size = 254 then do
      let (v, r) ← read_le_num 4 rest
      if v < 2 ^ 16 then .error .serialization else .ok (v, r)
    else if size = 255 then do
      let (v, r) ← read_le_num 8 rest
      if v < 2 ^ 32 then .error .serialization else .ok (v, r)
    else .ok (size, rest)

/-- `read_vds` over minimally-encoded compact sizes only. -/
def read_vds_min_alone (s : Bytes) : Except Err (TxData × Bytes) :=
  read_vds_gen read_compact_size_min true s

/-!
## Network serialization (transaction.py lines 119–124, 195–196, 741–823)

The helpers `int_to_hex` and `var_int` come from the out-of-scope
`bitcoin.py`; they are modelled from the spec's description of the wire
format (fixed-width little-endian integers, minimal compact-size prefix).
-/

/-- Modelled from the spec: `bitcoin.int_to_hex(i, length)` — `length`
little-endian bytes of `i`, two's complement for negatives; values outside
`[-(256^length)/2, 256^length)` raise `OverflowError` (`none` here). -/
def int_to_bytes (i : Int) (length : Nat) : Option Bytes :=
  let range : Int := (2 : Int) ^ (8 * length)
  if i < -(range / 2) ∨ range ≤ i then none
  else some (natToLE (i % range).toNat length)

/-- Modelled from the spec: `bitcoin.var_int(n)` — the minimal compact-size
encoding of a non-negative count. -/
def var_int (n : Nat) : Bytes :=
  if n < 253 then [n]
  else if n < 2 ^ 16 then 253 :: natToLE n 2
  else if n < 2 ^ 32 then 254 :: natToLE n 4
  else 255 :: natToLE n 8

/-- `TxOutpoint.serialize_to_network` (lines 195–196): txid reversed to
wire order, then the 4-byte output index. -/
def serialize_outpoint (p : TxOutpoint) : Except Err Bytes := do
  let idx ← liftOpt .overflow (int_to_bytes p.out_idx 4)
  .ok (p.txid.reverse ++ idx)

/-- `Transaction.serialize_input` (lines 741–749): prevout, compact-size
script length, script, sequence. -/
def serialize_input (txin : TxInput) (script : Bytes) : Except Err Bytes := do
  let po ← serialize_outpoint txin.prevout
  let seqb ← liftOpt .overflow (int_to_bytes txin.nsequence 4)
  .ok (po ++ var_int script.length ++ script ++ seqb)

/-- `TxOutput.serialize_to_network` (lines 119–124): 8-byte unsigned
little-endian value (`int.to_bytes(..., signed=False)`: negative or too
large values raise `OverflowError`), compact-size script length, script. -/
def serialize_txout (o : TxOutput) : Except Err Bytes :=
  if 0 ≤ o.value ∧ o.value < 2 ^ 64 then
    .ok (natToLE o.value.toNat 8 ++ var_int o.scriptpubkey.length ++ o.scriptpubkey)
  else .error .overflow

/-- `Transaction.input_script` restricted to plain `TxInput`s (lines
694–699): the literal `script_sig` when set, `''` for a coinbase input, and
otherwise the `assert isinstance(txin, PartialTxInput)` fails
(`AssertionError`), since a plain input carries no signing metadata. -/
def input_script_plain (txin : TxInput) : Except Err Bytes :=
  match txin.script_sig with
  | some s => .ok s
  | none =>
    if txin.is_coinbase_input then .ok []
    else .error .generic

/-- Serialize every element and concatenate (`''.join(...)`). -/
def mapMSer {α : Type} (f : α → Except Err Bytes) : List α → Except Err Bytes
  | [] => .ok []
  | x :: xs => do
    let b ← f x
    let rest ← mapMSer f xs
    .ok (b ++ rest)

/-- Python truthiness of an optional byte string (`if self.shieldedSpends:`
is false for both `None` and `b''`). -/
def optTruthy : Option Bytes → Bool
  | some b => b ≠ []
  | none => false

/-- `bh2u(x)` on an optional byte string: `None` raises `TypeError`. -/
def reqBytes : Option Bytes → Except Err Bytes
  | some b => .ok b
  | none => .error .typeError

/-- The `OwTail` fields as a `Transaction` holds them. -/
def TxData.owTail (tx : TxData) : OwTail :=
  { expiryHeight := tx.expiryHeight, valueBalance := tx.valueBalance
    shieldedSpends := tx.shieldedSpends, shieldedOutputs := tx.shieldedOutputs
    joinSplits := tx.joinSplits, joinSplitPubKey := tx.joinSplitPubKey
    joinSplitSig := tx.joinSplitSig, bindingSig := tx.bindingSig }

/-- The Overwintered tail of `Transaction.serialize_to_network` (lines
782–816): the concatenation of the expiry height, the version-4 value
balance and shielded-spend/output arrays, the join-split array (with
pubkey and signature when present) and the binding signature, exactly the
fields the empty-string defaults of the source leave out when absent. -/
def ser_ow_tail (version : Nat) (t : OwTail) : Except Err Bytes := do
  let nExpiryHeight ← liftOpt .overflow (int_to_bytes t.expiryHeight 4)
  if version = 4 then do
    let nValueBalance ← liftOpt .overflow (int_to_bytes t.valueBalance 8)
    let shieldedSpends :=
      if optTruthy t.shieldedSpends then
        var_int ((t.shieldedSpends.getD []).length / 384) ++ t.shieldedSpends.getD []
      else var_int 0
    let shieldedOutputs :=
      if optTruthy t.shieldedOutputs then
        var_int ((t.shieldedOutputs.getD []).length / 948) ++ t.shieldedOutputs.getD []
      else var_int 0
    let joinSplits :=
      if optTruthy t.joinSplits then
        var_int ((t.joinSplits.getD []).length / 1698) ++ t.joinSplits.getD []
      else var_int 0
    let bindingSig ←
      if optTruthy t.shieldedSpends ∨ optTruthy t.shieldedOutputs then
        reqBytes t.bindingSig
      else .ok []
    let joinSplitPubKey ←
      if optTruthy t.joinSplits then reqBytes t.joinSplitPubKey else .ok []
    let joinSplitSig ←
      if optTruthy t.joinSplits then reqBytes t.joinSplitSig else .ok []
    .ok (nExpiryHeight ++ nValueBalance ++ shieldedSpends ++ shieldedOutputs
          ++ joinSplits ++ joinSplitPubKey ++ joinSplitSig ++ bindingSig)
  else do
    let joinSplits :=
      if optTruthy t.joinSplits then
        var_int ((t.joinSplits.getD []).length / 1802) ++ t.joinSplits.getD []
      else var_int 0
    let joinSplitPubKey ←
      if optTruthy t.joinSplits then reqBytes t.joinSplitPubKey else .ok []
    let joinSplitSig ←
      if optTruthy t.joinSplits then reqBytes t.joinSplitSig else .ok []
    .ok (nExpiryHeight ++ joinSplits ++ joinSplitPubKey ++ joinSplitSig)

/-- The tail of `Transaction.serialize_to_network` (lines 779–823): the
version/envelope assembly shared by `Transaction` and `PartialTransaction`
once the input and output byte strings are built. -/
def serialize_envelope (tx : TxData) (txins txouts : Bytes) : Except Err Bytes := do
  let nLocktime ← liftOpt .overflow (int_to_bytes tx.locktime 4)
  if tx.overwintered then do
    let nVersion ← liftOpt .overflow (int_to_bytes (0x80000000 ||| tx.version : Nat) 4)
    let nVersionGroupId ← liftOpt .overflow (int_to_bytes tx.versionGroupId 4)
    let tail ← ser_ow_tail tx.version tx.owTail
    .ok (nVersion ++ nVersionGroupId ++ txins ++ txouts ++ nLocktime ++ tail)
  else do
    let nVersion ← liftOpt .overflow (int_to_bytes tx.version 4)
    .ok (nVersion ++ txins ++ txouts ++ nLocktime)

/-- The `create_script_sig` closure of `serialize_to_network` (lines
772–775), for plain inputs: the scriptSig when `include_sigs`, else `''`. -/
def create_script_sig_plain : Bool → TxInput → Except Err Bytes
  | true, txin => input_script_plain txin
  | false, _ => .ok []

/-- `Transaction.serialize_to_network` for a plain `Transaction` (lines
763–823, with `estimate_size=False`): scriptSigs come from the literal
`script_sig` field (empty when `include_sigs` is false). -/
def serialize_to_network_plain (tx : TxData) (include_sigs : Bool) :
    Except Err Bytes := do
  let txins ← mapMSer
    (fun txin => do
      let script ← create_script_sig_plain include_sigs txin
      serialize_input txin script)
    tx.inputs
  let txouts ← mapMSer serialize_txout tx.outputs
  serialize_envelope tx (var_int tx.inputs.length ++ txins)
    (var_int tx.outputs.length ++ txouts)

/-!
### Round-trip lemmas: each canonical parse step consumes exactly the bytes
its value re-serializes to
-/

theorem pow256_eq (n : Nat) : 256 ^ n = 2 ^ (8 * n) := by
  rw [show (256 : Nat) = 2 ^ 8 from rfl, ← Nat.pow_mul]

theorem read_bytes_ok {n : Nat} {s c r : Bytes} (h : read_bytes n s = .ok (c, r)) :
    s = c ++ r ∧ c.length = n := by
  unfold read_bytes at h
  split at h
  · simp only [Except.ok.injEq, Prod.mk.injEq] at h
    obtain ⟨rfl, rfl⟩ := h
    refine ⟨(List.take_append_drop n s).symm, ?_⟩
    rw [List.length_take]
    omega
  · exact absurd h (by simp)

theorem read_le_num_consumed {w : Nat} {s : Bytes} {v : Nat} {r : Bytes}
    (hwf : bytesWF s) (h : read_le_num w s = .ok (v, r)) :
    s = natToLE v w ++ r ∧ v < 2 ^ (8 * w) ∧ bytesWF r := by
  unfold read_le_num at h
  rw [except_bind_ok] at h
  obtain ⟨⟨c, r'⟩, hrb, hok⟩ := h
  simp only [Except.ok.injEq, Prod.mk.injEq] at hok
  obtain ⟨rfl, rfl⟩ := hok
  obtain ⟨rfl, hlen⟩ := read_bytes_ok hrb
  have hcwf : bytesWF c := bytesWF_of_append_left hwf
  refine ⟨?_, ?_, bytesWF_of_append_right hwf⟩
  · rw [← hlen, natToLE_leVal hcwf]
  · have := leVal_lt_of_wf hcwf
    rwa [hlen, pow256_eq] at this

theorem read_int64_consumed {s : Bytes} {v : Int} {r : Bytes}
    (hwf : bytesWF s) (h : read_int64 s = .ok (v, r)) :
    ∃ u, u < 2 ^ 64 ∧ v = toSigned 8 u ∧ s = natToLE u 8 ++ r ∧ bytesWF r := by
  unfold read_int64 at h
  rw [except_bind_ok] at h
  obtain ⟨⟨u, r'⟩, hrd, hok⟩ := h
  simp only [Except.ok.injEq, Prod.mk.injEq] at hok
  obtain ⟨rfl, rfl⟩ := hok
  obtain ⟨hs, hu, hr⟩ := read_le_num_consumed hwf hrd
  exact ⟨u, by norm_num at hu ⊢; omega, rfl, hs, hr⟩

theorem read_compact_size_min_consumed {s : Bytes} {v : Nat} {r : Bytes}
    (hwf : bytesWF s) (h : read_compact_size_min s = .ok (v, r)) :
    s = var_int v ++ r ∧ bytesWF r := by
  match s with
  | [] => exact absurd h (by simp [read_compact_size_min])
  | size :: rest =>
    have hszlt : size < 256 := hwf size (by simp)
    have hrestwf : bytesWF rest := fun x hx => hwf x (by simp [hx])
    simp only [read_compact_size_min] at h
    split at h
    · case _ h253 =>
      rw [except_bind_ok] at h
      obtain ⟨⟨w, r'⟩, hrd, hok⟩ := h
      obtain ⟨hs, hwlt, hrwf⟩ := read_le_num_consumed hrestwf hrd
      split at hok
      · exact absurd hok (by simp)
      · case _ hw =>
        simp only [Except.ok.injEq, Prod.mk.injEq] at hok
        obtain ⟨rfl, rfl⟩ := hok
        refine ⟨?_, hrwf⟩
        rw [var_int, if_neg hw, if_pos (by norm_num at hwlt ⊢; omega)]
        simp [h253, hs]
    · case _ h253 =>
      split at h
      · case _ h254 =>
        rw [except_bind_ok] at h
        obtain ⟨⟨w, r'⟩, hrd, hok⟩ := h
        obtain ⟨hs, hwlt, hrwf⟩ := read_le_num_consumed hrestwf hrd
        split at hok
        · exact absurd hok (by simp)
        · case _ hw =>
          simp only [Except.ok.injEq, Prod.mk.injEq] at hok
          obtain ⟨rfl, rfl⟩ := hok
          refine ⟨?_, hrwf⟩
          rw [var_int, if_neg (by norm_num at hw ⊢; omega), if_neg hw,
            if_pos (by norm_num at hwlt ⊢; omega)]
          simp [h254, hs]
      · case _ h254 =>
        split at h
        · case _ h255 =>
          rw [except_bind_ok] at h
          obtain ⟨⟨w, r'⟩, hrd, hok⟩ := h
          obtain ⟨hs, hwlt, hrwf⟩ := read_le_num_consumed hrestwf hrd
          split at hok
          · exact absurd hok (by simp)
          · case _ hw =>
            simp only [Except.ok.injEq, Prod.mk.injEq] at hok
            obtain ⟨rfl, rfl⟩ := hok
            refine ⟨?_, hrwf⟩
            rw [var_int, if_neg (by norm_num at hw ⊢; omega),
              if_neg (by norm_num at hw ⊢; omega), if_neg hw]
            simp [h255, hs]
        · case _ h255 =>
          simp only [Except.ok.injEq, Prod.mk.injEq] at h
          obtain ⟨rfl, rfl⟩ := h
          refine ⟨?_, hrestwf⟩
          rw [var_int, if_pos (by omega)]
          rfl

theorem int_to_bytes_of_nat {n len : Nat} (h : n < 2 ^ (8 * len)) :
    int_to_bytes (n : Int) len = some (natToLE n len) := by
  unfold int_to_bytes
  have hnn : (0 : Int) ≤ (n : Int) := Int.ofNat_nonneg n
  have hlt : (n : Int) < (2 : Int) ^ (8 * len) := by exact_mod_cast h
  have hdiv : (0 : Int) ≤ ((2 : Int) ^ (8 * len)) / 2 := by positivity
  rw [if_neg (by push_neg; exact ⟨by omega, by omega⟩)]
  rw [Int.emod_eq_of_lt hnn hlt]
  simp

theorem int_to_bytes_toSigned {u : Nat} (h : u < 2 ^ 64) :
    int_to_bytes (toSigned 8 u) 8 = some (natToLE u 8) := by
  unfold toSigned
  by_cases hc : 2 * u < 2 ^ (8 * 8)
  · rw [if_pos hc]
    exact int_to_bytes_of_nat (by norm_num at hc ⊢; omega)
  · rw [if_neg hc]
    unfold int_to_bytes
    have h1 : ((2 : Int) ^ (8 * 8)) = 2 ^ 64 := by norm_num
    have hub : (u : Int) < 2 ^ 64 := by exact_mod_cast h
    have hlb : 2 ^ 63 ≤ (u : Int) := by
      have : 2 ^ 63 ≤ u := by norm_num at hc ⊢; omega
      exact_mod_cast this
    rw [if_neg (by
      push_neg
      constructor
      · have : ((2 : Int) ^ (8 * 8)) / 2 = 2 ^ 63 := by norm_num
        rw [this, h1]
        omega
      · rw [h1]; omega)]
    have hmod : ((u : Int) - 2 ^ (8 * 8)) % 2 ^ (8 * 8) = (u : Int) := by
      norm_num
      omega
    rw [hmod]
    simp

theorem read_opt_blob_consumed {cond : Bool} {len : Nat} {s : Bytes}
    {ob : Option Bytes} {r : Bytes}
    (hwf : bytesWF s) (h : read_opt_blob cond len s = .ok (ob, r)) :
    bytesWF r ∧
      ((cond = true ∧ ∃ b, ob = some b ∧ b.length = len ∧ s = b ++ r)
        ∨ (cond = false ∧ ob = none ∧ r = s)) := by
  unfold read_opt_blob at h
  split at h
  · case _ hc =>
    cases hrb : read_bytes len s with
    | error e => rw [hrb] at h; exact absurd h (by simp [Except.map])
    | ok p =>
      rw [hrb] at h
      simp only [Except.map, Except.ok.injEq, Prod.mk.injEq] at h
      obtain ⟨rfl, rfl⟩ := h
      obtain ⟨hs, hlen⟩ := read_bytes_ok (c := p.1) (r := p.2) (by rw [hrb])
      exact ⟨bytesWF_of_append_right (hs ▸ hwf),
        Or.inl ⟨hc, p.1, rfl, hlen, hs⟩⟩
  · case _ hc =>
    simp only [Except.ok.injEq, Prod.mk.injEq] at h
    obtain ⟨rfl, rfl⟩ := h
    exact ⟨hwf, Or.inr ⟨by simpa using hc, rfl, rfl⟩⟩

theorem toSigned_nonneg_eq {u : Nat} (hu : u < 2 ^ 64) (hnn : 0 ≤ toSigned 8 u) :
    toSigned 8 u = (u : Int) ∧ u < 2 ^ 63 := by
  by_cases hc : 2 * u < 2 ^ (8 * 8)
  · rw [toSigned, if_pos hc]
    exact ⟨rfl, by norm_num at hc ⊢; omega⟩
  · rw [toSigned, if_neg hc] at hnn
    exfalso
    have hui : (u : Int) < 2 ^ 64 := by exact_mod_cast hu
    norm_num at hnn hc ⊢
    omega

theorem serialize_outpoint_eq {p : TxOutpoint} (h : p.out_idx < 2 ^ 32) :
    serialize_outpoint p = .ok (p.txid.reverse ++ natToLE p.out_idx 4) := by
  unfold serialize_outpoint
  rw [int_to_bytes_of_nat (by norm_num at h ⊢; omega)]
  rfl

theorem serialize_input_eq {txin : TxInput} {script : Bytes}
    (hidx : txin.prevout.out_idx < 2 ^ 32) (hseq : txin.nsequence < 2 ^ 32) :
    serialize_input txin script =
      .ok (txin.prevout.txid.reverse ++ natToLE txin.prevout.out_idx 4
        ++ var_int script.length ++ script ++ natToLE txin.nsequence 4) := by
  unfold serialize_input
  rw [serialize_outpoint_eq hidx,
    int_to_bytes_of_nat (n := txin.nsequence) (by norm_num at hseq ⊢; omega)]
  rfl

/-- A parsed transaction input re-serializes (with its literal scriptSig)
to exactly the bytes the parse consumed. -/
theorem parse_input_min_roundtrip {s : Bytes} {txin : TxInput} {r : Bytes}
    (hwf : bytesWF s) (h : parse_input_gen read_compact_size_min s = .ok (txin, r)) :
    ∃ c, (input_script_plain txin >>= serialize_input txin) = .ok c ∧
      s = c ++ r ∧ bytesWF r := by
  unfold parse_input_gen at h
  rw [except_bind_ok] at h
  obtain ⟨⟨ph, s1⟩, h1, h⟩ := h
  rw [except_bind_ok] at h
  obtain ⟨⟨pn, s2⟩, h2, h⟩ := h
  rw [except_bind_ok] at h
  obtain ⟨⟨slen, s3⟩, h3, h⟩ := h
  rw [except_bind_ok] at h
  obtain ⟨⟨scr, s4⟩, h4, h⟩ := h
  rw [except_bind_ok] at h
  obtain ⟨⟨seqn, s5⟩, h5, h⟩ := h
  simp only [Except.ok.injEq, Prod.mk.injEq] at h
  obtain ⟨rfl, rfl⟩ := h
  obtain ⟨hs, hphlen⟩ := read_bytes_ok h1
  have h1wf : bytesWF s1 := bytesWF_of_append_right (hs ▸ hwf)
  obtain ⟨hs1, hpn, h2wf⟩ := read_le_num_consumed h1wf h2
  obtain ⟨hs2, h3wf⟩ := read_compact_size_min_consumed h2wf h3
  obtain ⟨hs3, hscrlen⟩ := read_bytes_ok h4
  have h4wf : bytesWF s4 := bytesWF_of_append_right (hs3 ▸ h3wf)
  obtain ⟨hs4, hseq, h5wf⟩ := read_le_num_consumed h4wf h5
  refine ⟨ph ++ natToLE pn 4 ++ var_int scr.length ++ scr ++ natToLE seqn 4,
    ?_, ?_, h5wf⟩
  · show serialize_input _ scr = _
    rw [serialize_input_eq (by norm_num at hpn ⊢; omega) (by norm_num at hseq ⊢; omega)]
    rw [List.reverse_reverse]
  · rw [hs, hs1, hs2, hs3, hs4, hscrlen]
    simp [List.append_assoc]

/-- A parsed transaction output re-serializes to exactly the bytes the
parse consumed. -/
theorem parse_output_min_roundtrip {s : Bytes} {o : TxOutput} {r : Bytes}
    (hwf : bytesWF s) (h : parse_output_gen read_compact_size_min s = .ok (o, r)) :
    ∃ c, serialize_txout o = .ok c ∧ s = c ++ r ∧ bytesWF r := by
  unfold parse_output_gen at h
  rw [except_bind_ok] at h
  obtain ⟨⟨v, s1⟩, h1, h⟩ := h
  obtain ⟨u, hu, rfl, hs, h1wf⟩ := read_int64_consumed hwf h1
  dsimp only at h
  by_cases hbig : TOTAL_COIN_SUPPLY_LIMIT < toSigned 8 u
  · rw [if_pos hbig] at h; exact absurd h (by simp)
  · rw [if_neg hbig] at h
    by_cases hneg : toSigned 8 u < 0
    · rw [if_pos hneg] at h; exact absurd h (by simp)
    · rw [if_neg hneg] at h
      rw [except_bind_ok] at h
      obtain ⟨⟨slen, s2⟩, h2, h⟩ := h
      rw [except_bind_ok] at h
      obtain ⟨⟨spk, s3⟩, h3, h⟩ := h
      simp only [Except.ok.injEq, Prod.mk.injEq] at h
      obtain ⟨rfl, rfl⟩ := h
      obtain ⟨hs1, h2wf⟩ := read_compact_size_min_consumed h1wf h2
      obtain ⟨hs2, hspklen⟩ := read_bytes_ok h3
      dsimp only at hs2
      have h3wf : bytesWF s3 := bytesWF_of_append_right (hs2 ▸ h2wf)
      obtain ⟨hveq, hult⟩ := toSigned_nonneg_eq hu (by omega)
      refine ⟨natToLE u 8 ++ var_int spk.length ++ spk, ?_, ?_, h3wf⟩
      · simp only [serialize_txout]
        rw [hveq]
        rw [if_pos ⟨Int.ofNat_nonneg u, by exact_mod_cast (by omega : u < 2 ^ 64)⟩]
        simp
      · rw [hs, hs1, hs2, hspklen]
        simp [List.append_assoc]

/-- Round trip for a counted list: if each parsed item re-serializes to its
consumed bytes, the whole list does. -/
theorem parse_list_roundtrip {α : Type} {f : Bytes → Except Err (α × Bytes)}
    {g : α → Except Err Bytes}
    (hfg : ∀ s x r, bytesWF s → f s = .ok (x, r) →
      ∃ c, g x = .ok c ∧ s = c ++ r ∧ bytesWF r) :
    ∀ {n : Nat} {s : Bytes} {xs : List α} {r : Bytes},
      bytesWF s → parse_list f n s = .ok (xs, r) →
      ∃ c, mapMSer g xs = .ok c ∧ s = c ++ r ∧ bytesWF r ∧ xs.length = n := by
  intro n
  induction n with
  | zero =>
    intro s xs r hwf h
    simp only [parse_list, Except.ok.injEq, Prod.mk.injEq] at h
    obtain ⟨rfl, rfl⟩ := h
    exact ⟨[], rfl, rfl, hwf, rfl⟩
  | succ m ih =>
    intro s xs r hwf h
    simp only [parse_list] at h
    rw [except_bind_ok] at h
    obtain ⟨⟨x, s1⟩, hx, h⟩ := h
    rw [except_bind_ok] at h
    obtain ⟨⟨tl, s2⟩, htl, h⟩ := h
    simp only [Except.ok.injEq, Prod.mk.injEq] at h
    obtain ⟨rfl, rfl⟩ := h
    obtain ⟨c, hgc, hs, h1wf⟩ := hfg s x s1 hwf hx
    obtain ⟨cs, hgcs, hs1, h2wf, hlen⟩ := ih h1wf htl
    refine ⟨c ++ cs, ?_, ?_, h2wf, by simp [hlen]⟩
    · simp only [mapMSer]
      rw [except_bind_ok]
      exact ⟨c, hgc, by rw [except_bind_ok]; exact ⟨cs, hgcs, rfl⟩⟩
    · rw [hs, hs1, List.append_assoc]

/-- The serializer's optional-blob emission (`var_int(count) + blob`, or
`var_int(0)`) reproduces what the parser consumed for that array. -/
theorem blob_emit_eq {n unit : Nat} {ob : Option Bytes} {s r : Bytes}
    (hunit : 0 < unit)
    (hblob : (0 < n ∧ ∃ b, ob = some b ∧ b.length = n * unit ∧ s = b ++ r)
        ∨ (¬ 0 < n ∧ ob = none ∧ r = s)) :
    (if optTruthy ob then var_int ((ob.getD []).length / unit) ++ ob.getD []
      else var_int 0) = var_int n ++ ob.getD [] ∧ s = ob.getD [] ++ r := by
  rcases hblob with ⟨hn, b, rfl, hlen, rfl⟩ | ⟨hn, rfl, rfl⟩
  · have hne : b ≠ [] := by
      intro he
      subst he
      simp only [List.length_nil] at hlen
      have : 0 < n * unit := Nat.mul_pos hn hunit
      omega
    refine ⟨?_, rfl⟩
    simp [optTruthy, hne, hlen, Nat.mul_div_cancel _ hunit]
  · have hn0 : n = 0 := by omega
    subst hn0
    simp [optTruthy]

theorem ok_bind {α β : Type} (a : α) (f : α → Except Err β) :
    (Except.ok a >>= f) = f a := rfl

/-- Evaluation of the version-3 serializer tail from the values of its
fallible pieces. -/
theorem ser_ow_tail_v3_eq {t : OwTail} (e jpkB jsigB : Bytes)
    (hexp : int_to_bytes (t.expiryHeight : Int) 4 = some e)
    (hjpk : (if optTruthy t.joinSplits then reqBytes t.joinSplitPubKey
             else .ok []) = .ok jpkB)
    (hjsig : (if optTruthy t.joinSplits then reqBytes t.joinSplitSig
              else .ok []) = .ok jsigB) :
    ser_ow_tail 3 t = .ok (e
      ++ (if optTruthy t.joinSplits then
            var_int ((t.joinSplits.getD []).length / 1802) ++ t.joinSplits.getD []
          else var_int 0)
      ++ jpkB ++ jsigB) := by
  unfold ser_ow_tail
  rw [hexp]
  simp only [liftOpt, ok_bind]
  split
  · case _ h4 => exact absurd h4 (by decide)
  · case _ h4 =>
    split
    · case _ hJ =>
      rw [if_pos hJ] at hjpk hjsig
      rw [hjpk, ok_bind, hjsig, ok_bind]
    · case _ hJ =>
      rw [if_neg hJ] at hjpk hjsig
      simp only [Except.ok.injEq] at hjpk hjsig
      subst hjpk
      subst hjsig
      rfl

/-- Evaluation of the version-4 serializer tail from the values of its
fallible pieces. -/
theorem ser_ow_tail_v4_eq {t : OwTail} (e vbB bsB jpkB jsigB : Bytes)
    (hexp : int_to_bytes (t.expiryHeight : Int) 4 = some e)
    (hvb : int_to_bytes t.valueBalance 8 = some vbB)
    (hbs : (if optTruthy t.shieldedSpends ∨ optTruthy t.shieldedOutputs
            then reqBytes t.bindingSig else .ok []) = .ok bsB)
    (hjpk : (if optTruthy t.joinSplits then reqBytes t.joinSplitPubKey
             else .ok []) = .ok jpkB)
    (hjsig : (if optTruthy t.joinSplits then reqBytes t.joinSplitSig
              else .ok []) = .ok jsigB) :
    ser_ow_tail 4 t = .ok (e ++ vbB
      ++ (if optTruthy t.shieldedSpends then
            var_int ((t.shieldedSpends.getD []).length / 384) ++ t.shieldedSpends.getD []
          else var_int 0)
      ++ (if optTruthy t.shieldedOutputs then
            var_int ((t.shieldedOutputs.getD []).length / 948) ++ t.shieldedOutputs.getD []
          else var_int 0)
      ++ (if optTruthy t.joinSplits then
            var_int ((t.joinSplits.getD []).length / 1698) ++ t.joinSplits.getD []
          else var_int 0)
      ++ jpkB ++ jsigB ++ bsB) := by
  unfold ser_ow_tail
  rw [hexp]
  simp only [liftOpt, ok_bind]
  split
  · case _ h4 =>
    rw [hvb]
    simp only [liftOpt, ok_bind]
    split
    · case _ hC =>
      rw [if_pos hC] at hbs
      rw [hbs, ok_bind]
      split
      · case _ hJ =>
        rw [if_pos hJ] at hjpk hjsig
        rw [hjpk, ok_bind, hjsig, ok_bind]
      · case _ hJ =>
        rw [if_neg hJ] at hjpk hjsig
        simp only [Except.ok.injEq] at hjpk hjsig
        subst hjpk
        subst hjsig
        rfl
    · case _ hC =>
      rw [if_neg hC] at hbs
      simp only [Except.ok.injEq] at hbs
      subst hbs
      split
      · case _ hJ =>
        rw [if_pos hJ] at hjpk hjsig
        rw [hjpk, ok_bind, hjsig, ok_bind]
      · case _ hJ =>
        rw [if_neg hJ] at hjpk hjsig
        simp only [Except.ok.injEq] at hjpk hjsig
        subst hjpk
        subst hjsig
        rfl
  · case _ h4 => exact absurd (by trivial) h4

/-- A parsed Overwintered tail re-serializes to exactly the bytes the
parse consumed. -/
theorem parse_ow_tail_min_roundtrip {version : Nat} {s : Bytes} {t : OwTail} {r : Bytes}
    (hv : version = 3 ∨ version = 4)
    (hwf : bytesWF s) (h : parse_ow_tail read_compact_size_min version s = .ok (t, r)) :
    ∃ c, ser_ow_tail version t = .ok c ∧ s = c ++ r ∧ bytesWF r := by
  unfold parse_ow_tail at h
  rw [except_bind_ok] at h
  obtain ⟨⟨expiry, s1⟩, h1, h⟩ := h
  obtain ⟨hs, hexp, h1wf⟩ := read_le_num_consumed hwf h1
  dsimp only at h
  rcases hv with rfl | rfl
  · -- version = 3
    rw [if_neg (by decide)] at h
    rw [ok_bind] at h
    dsimp only at h
    rw [except_bind_ok] at h
    obtain ⟨⟨njs, s3⟩, h2, h⟩ := h
    obtain ⟨hs2, h3wf⟩ := read_compact_size_min_consumed h1wf h2
    dsimp only at h
    by_cases hjs : 0 < njs
    · rw [if_pos hjs, if_pos rfl] at h
      rw [except_bind_ok] at h
      obtain ⟨⟨js, s4⟩, h3, h⟩ := h
      try dsimp only at h3 h
      rw [except_bind_ok] at h
      obtain ⟨⟨jpk, s5⟩, h4, h⟩ := h
      try dsimp only at h4 h
      rw [except_bind_ok] at h
      obtain ⟨⟨jsig, s6⟩, h5, h⟩ := h
      try dsimp only at h5 h
      rw [ok_bind] at h
      try dsimp only at h
      rw [except_bind_ok] at h
      obtain ⟨⟨bsig, s7⟩, h6, h⟩ := h
      try dsimp only at h6 h
      simp only [Except.ok.injEq, Prod.mk.injEq] at h
      obtain ⟨rfl, rfl⟩ := h
      obtain ⟨hs3, hjslen⟩ := read_bytes_ok h3
      have h4wf : bytesWF s4 := bytesWF_of_append_right (hs3 ▸ h3wf)
      obtain ⟨hs4, hjpklen⟩ := read_bytes_ok h4
      have h5wf : bytesWF s5 := bytesWF_of_append_right (hs4 ▸ h4wf)
      obtain ⟨hs5, hjsiglen⟩ := read_bytes_ok h5
      have h6wf : bytesWF s6 := bytesWF_of_append_right (hs5 ▸ h5wf)
      obtain ⟨h7wf, hb⟩ := read_opt_blob_consumed h6wf h6
      rcases hb with ⟨hc, _⟩ | ⟨_, rfl, rfl⟩
      · simp at hc
      have hne : js ≠ [] := by
        intro he
        subst he
        simp only [List.length_nil] at hjslen
        omega
      have hjt : optTruthy (some js) = true := by simp [optTruthy, hne]
      refine ⟨natToLE expiry 4 ++ (var_int njs ++ js) ++ jpk ++ jsig, ?_, ?_, h6wf⟩
      · rw [ser_ow_tail_v3_eq (natToLE expiry 4) jpk jsig
          (by dsimp only; exact int_to_bytes_of_nat (by norm_num at hexp ⊢; omega))
          (by dsimp only; rw [if_pos hjt]; rfl)
          (by dsimp only; rw [if_pos hjt]; rfl)]
        dsimp only
        rw [if_pos hjt]
        simp [hjslen, Nat.mul_div_cancel _ (by norm_num : (0:Nat) < 1802),
          List.append_assoc]
      · rw [hs, hs2, hs3, hs4, hs5]
        simp [List.append_assoc]
    · rw [if_neg hjs] at h
      rw [ok_bind] at h
      dsimp only at h
      rw [except_bind_ok] at h
      obtain ⟨⟨bsig, s4⟩, h6, h⟩ := h
      simp only [Except.ok.injEq, Prod.mk.injEq] at h
      obtain ⟨rfl, rfl⟩ := h
      obtain ⟨h4wf, hb⟩ := read_opt_blob_consumed h3wf h6
      rcases hb with ⟨hc, _⟩ | ⟨_, rfl, rfl⟩
      · simp at hc
      have hn0 : njs = 0 := by omega
      subst hn0
      have hjf : ¬ (optTruthy (none : Option Bytes) = true) := by simp [optTruthy]
      refine ⟨natToLE expiry 4 ++ var_int 0, ?_, ?_, h3wf⟩
      · rw [ser_ow_tail_v3_eq (natToLE expiry 4) [] []
          (by dsimp only; exact int_to_bytes_of_nat (by norm_num at hexp ⊢; omega))
          (by dsimp only; rw [if_neg hjf])
          (by dsimp only; rw [if_neg hjf])]
        dsimp only
        rw [if_neg hjf]
        simp
      · rw [hs, hs2]
        simp
  · -- version = 4
    rw [if_pos rfl] at h
    rw [except_bind_ok] at h
    obtain ⟨⟨vb, sA⟩, hvb, h⟩ := h
    try dsimp only at hvb h
    rw [except_bind_ok] at h
    obtain ⟨⟨nsp0, sB⟩, hnsp, h⟩ := h
    try dsimp only at hnsp h
    rw [except_bind_ok] at h
    obtain ⟨⟨sp0, sC⟩, hsp, h⟩ := h
    try dsimp only at hsp h
    rw [except_bind_ok] at h
    obtain ⟨⟨nout0, sD⟩, hnout, h⟩ := h
    try dsimp only at hnout h
    rw [except_bind_ok] at h
    obtain ⟨⟨so0, sE⟩, hso, h⟩ := h
    try dsimp only at hso h
    rw [ok_bind] at h
    try dsimp only at h
    obtain ⟨u, hu, rfl, hsA, hAwf⟩ := read_int64_consumed h1wf hvb
    obtain ⟨hsB, hBwf⟩ := read_compact_size_min_consumed hAwf hnsp
    obtain ⟨hCwf, hbspD⟩ := read_opt_blob_consumed hBwf hsp
    obtain ⟨hsD, hDwf⟩ := read_compact_size_min_consumed hCwf hnout
    obtain ⟨hEwf, hbsoD⟩ := read_opt_blob_consumed hDwf hso
    have hbsp : (0 < nsp0 ∧ ∃ b, sp0 = some b ∧ b.length = nsp0 * 384 ∧ sB = b ++ sC)
        ∨ (¬ 0 < nsp0 ∧ sp0 = none ∧ sC = sB) := by
      rcases hbspD with ⟨hc, hex⟩ | ⟨hc, h2⟩
      · exact Or.inl ⟨of_decide_eq_true hc, hex⟩
      · exact Or.inr ⟨by simpa using hc, h2⟩
    have hbso : (0 < nout0 ∧ ∃ b, so0 = some b ∧ b.length = nout0 * 948 ∧ sD = b ++ sE)
        ∨ (¬ 0 < nout0 ∧ so0 = none ∧ sE = sD) := by
      rcases hbsoD with ⟨hc, hex⟩ | ⟨hc, h2⟩
      · exact Or.inl ⟨of_decide_eq_true hc, hex⟩
      · exact Or.inr ⟨by simpa using hc, h2⟩
    obtain ⟨hspEmit, hspCons⟩ := blob_emit_eq (by norm_num) hbsp
    obtain ⟨hsoEmit, hsoCons⟩ := blob_emit_eq (by norm_num) hbso
    have hspTruthy : optTruthy sp0 = decide (0 < nsp0) := by
      rcases hbsp with ⟨hn, b, rfl, hlen, _⟩ | ⟨hn, rfl, _⟩
      · have hne : b ≠ [] := by
          intro he; subst he
          simp only [List.length_nil] at hlen
          have := Nat.mul_pos hn (by norm_num : (0:Nat) < 384)
          omega
        simp [optTruthy, hne, hn]
      · have hn0 : ¬ (0 < nsp0) := hn
        simp [optTruthy, hn0]
    have hsoTruthy : optTruthy so0 = decide (0 < nout0) := by
      rcases hbso with ⟨hn, b, rfl, hlen, _⟩ | ⟨hn, rfl, _⟩
      · have hne : b ≠ [] := by
          intro he; subst he
          simp only [List.length_nil] at hlen
          have := Nat.mul_pos hn (by norm_num : (0:Nat) < 948)
          omega
        simp [optTruthy, hne, hn]
      · have hn0 : ¬ (0 < nout0) := hn
        simp [optTruthy, hn0]
    rw [except_bind_ok] at h
    obtain ⟨⟨njs, sF⟩, hnjs, h⟩ := h
    try dsimp only at hnjs h
    obtain ⟨hsF, hFwf⟩ := read_compact_size_min_consumed hEwf hnjs
    by_cases hjs : 0 < njs
    · rw [if_pos hjs, if_neg (by decide)] at h
      rw [except_bind_ok] at h
      obtain ⟨⟨js, sG⟩, h3, h⟩ := h
      try dsimp only at h3 h
      rw [except_bind_ok] at h
      obtain ⟨⟨jpk, sH⟩, h4, h⟩ := h
      try dsimp only at h4 h
      rw [except_bind_ok] at h
      obtain ⟨⟨jsig, sI⟩, h5, h⟩ := h
      try dsimp only at h5 h
      rw [ok_bind] at h
      try dsimp only at h
      rw [except_bind_ok] at h
      obtain ⟨⟨bsig, sJ⟩, h6, h⟩ := h
      try dsimp only at h6 h
      simp only [Except.ok.injEq, Prod.mk.injEq] at h
      obtain ⟨rfl, rfl⟩ := h
      obtain ⟨hsG, hjslen⟩ := read_bytes_ok h3
      have hGwf : bytesWF sG := bytesWF_of_append_right (hsG ▸ hFwf)
      obtain ⟨hsH, hjpklen⟩ := read_bytes_ok h4
      have hHwf : bytesWF sH := bytesWF_of_append_right (hsH ▸ hGwf)
      obtain ⟨hsI, hjsiglen⟩ := read_bytes_ok h5
      have hIwf : bytesWF sI := bytesWF_of_append_right (hsI ▸ hHwf)
      obtain ⟨hJwf, hbbs⟩ := read_opt_blob_consumed hIwf h6
      have hne : js ≠ [] := by
        intro he; subst he
        simp only [List.length_nil] at hjslen
        omega
      have hbsCases :
          ((0 < nsp0 + nout0) ∧ ∃ bb, bsig = some bb ∧ sI = bb ++ sJ)
            ∨ (¬ (0 < nsp0 + nout0) ∧ bsig = none ∧ sJ = sI) := by
        rcases hbbs with ⟨hc, bb, rfl, _, hcons⟩ | ⟨hc, rfl, rfl⟩
        · left
          refine ⟨?_, bb, rfl, hcons⟩
          simpa using of_decide_eq_true (by simpa using hc)
        · right
          refine ⟨?_, rfl, rfl⟩
          simpa using hc
      have hjt : optTruthy (some js) = true := by simp [optTruthy, hne]
      rcases hbsCases with ⟨hpos, bb, rfl, hsIc⟩ | ⟨hzero, rfl, rfl⟩
      · have htr : optTruthy sp0 = true ∨ optTruthy so0 = true := by
          rw [hspTruthy, hsoTruthy]
          simp only [decide_eq_true_eq]
          omega
        refine ⟨natToLE expiry 4 ++ natToLE u 8 ++ (var_int nsp0 ++ sp0.getD [])
          ++ (var_int nout0 ++ so0.getD []) ++ (var_int njs ++ js) ++ jpk ++ jsig ++ bb,
          ?_, ?_, hJwf⟩
        · rw [ser_ow_tail_v4_eq (natToLE expiry 4) (natToLE u 8) bb jpk jsig
            (by dsimp only; exact int_to_bytes_of_nat (by norm_num at hexp ⊢; omega))
            (by dsimp only; exact int_to_bytes_toSigned hu)
            (by dsimp only; rw [if_pos htr]; rfl)
            (by dsimp only; rw [if_pos hjt]; rfl)
            (by dsimp only; rw [if_pos hjt]; rfl)]
          dsimp only
          rw [hspEmit, hsoEmit, if_pos hjt]
          simp [hjslen, Nat.mul_div_cancel _ (by norm_num : (0:Nat) < 1698),
            List.append_assoc]
        · rw [hs, hsA, hsB, hspCons, hsD, hsoCons, hsF, hsG, hsH, hsI, hsIc]
          simp [List.append_assoc]
      · have htr : ¬ (optTruthy sp0 = true ∨ optTruthy so0 = true) := by
          rw [hspTruthy, hsoTruthy]
          simp only [decide_eq_true_eq]
          omega
        refine ⟨natToLE expiry 4 ++ natToLE u 8 ++ (var_int nsp0 ++ sp0.getD [])
          ++ (var_int nout0 ++ so0.getD []) ++ (var_int njs ++ js) ++ jpk ++ jsig,
          ?_, ?_, hIwf⟩
        · rw [ser_ow_tail_v4_eq (natToLE expiry 4) (natToLE u 8) [] jpk jsig
            (by dsimp only; exact int_to_bytes_of_nat (by norm_num at hexp ⊢; omega))
            (by dsimp only; exact int_to_bytes_toSigned hu)
            (by dsimp only; rw [if_neg htr])
            (by dsimp only; rw [if_pos hjt]; rfl)
            (by dsimp only; rw [if_pos hjt]; rfl)]
          dsimp only
          rw [hspEmit, hsoEmit, if_pos hjt]
          simp [hjslen, Nat.mul_div_cancel _ (by norm_num : (0:Nat) < 1698),
            List.append_assoc]
        · rw [hs, hsA, hsB, hspCons, hsD, hsoCons, hsF, hsG, hsH, hsI]
          simp [List.append_assoc]
    · rw [if_neg hjs] at h
      rw [ok_bind] at h
      dsimp only at h
      rw [except_bind_ok] at h
      obtain ⟨⟨bsig, sG⟩, h6, h⟩ := h
      simp only [Except.ok.injEq, Prod.mk.injEq] at h
      obtain ⟨rfl, rfl⟩ := h
      obtain ⟨hGwf, hbbs⟩ := read_opt_blob_consumed hFwf h6
      have hbsCases :
          ((0 < nsp0 + nout0) ∧ ∃ bb, bsig = some bb ∧ sF = bb ++ sG)
            ∨ (¬ (0 < nsp0 + nout0) ∧ bsig = none ∧ sG = sF) := by
        rcases hbbs with ⟨hc, bb, rfl, _, hcons⟩ | ⟨hc, rfl, rfl⟩
        · left
          refine ⟨?_, bb, rfl, hcons⟩
          simpa using of_decide_eq_true (by simpa using hc)
        · right
          refine ⟨?_, rfl, rfl⟩
          simpa using hc
      have hjf : ¬ (optTruthy (none : Option Bytes) = true) := by simp [optTruthy]
      have hn0 : njs = 0 := by omega
      subst hn0
      rcases hbsCases with ⟨hpos, bb, rfl, hsFc⟩ | ⟨hzero, rfl, rfl⟩
      · have htr : optTruthy sp0 = true ∨ optTruthy so0 = true := by
          rw [hspTruthy, hsoTruthy]
          simp only [decide_eq_true_eq]
          omega
        refine ⟨natToLE expiry 4 ++ natToLE u 8 ++ (var_int nsp0 ++ sp0.getD [])
          ++ (var_int nout0 ++ so0.getD []) ++ var_int 0 ++ bb,
          ?_, ?_, hGwf⟩
        · rw [ser_ow_tail_v4_eq (natToLE expiry 4) (natToLE u 8) bb [] []
            (by dsimp only; exact int_to_bytes_of_nat (by norm_num at hexp ⊢; omega))
            (by dsimp only; exact int_to_bytes_toSigned hu)
            (by dsimp only; rw [if_pos htr]; rfl)
            (by dsimp only; rw [if_neg hjf])
            (by dsimp only; rw [if_neg hjf])]
          dsimp only
          rw [hspEmit, hsoEmit, if_neg hjf]
          simp [List.append_assoc]
        · rw [hs, hsA, hsB, hspCons, hsD, hsoCons, hsF, hsFc]
          simp [List.append_assoc]
      · have htr : ¬ (optTruthy sp0 = true ∨ optTruthy so0 = true) := by
          rw [hspTruthy, hsoTruthy]
          simp only [decide_eq_true_eq]
          omega
        refine ⟨natToLE expiry 4 ++ natToLE u 8 ++ (var_int nsp0 ++ sp0.getD [])
          ++ (var_int nout0 ++ so0.getD []) ++ var_int 0,
          ?_, ?_, hFwf⟩
        · rw [ser_ow_tail_v4_eq (natToLE expiry 4) (natToLE u 8) [] [] []
            (by dsimp only; exact int_to_bytes_of_nat (by norm_num at hexp ⊢; omega))
            (by dsimp only; exact int_to_bytes_toSigned hu)
            (by dsimp only; rw [if_neg htr])
            (by dsimp only; rw [if_neg hjf])
            (by dsimp only; rw [if_neg hjf])]
          dsimp only
          rw [hspEmit, hsoEmit, if_neg hjf]
          simp [List.append_assoc]
        · rw [hs, hsA, hsB, hspCons, hsD, hsoCons, hsF]
          simp [List.append_assoc]

/-- Evaluation of `serialize_envelope` in the Overwintered case. -/
theorem serialize_envelope_ow_eq {tx : TxData} (lockB verB gidB tailB : Bytes)
    (hov : tx.overwintered = true)
    (hlock : int_to_bytes (tx.locktime : Int) 4 = some lockB)
    (hver : int_to_bytes ((0x80000000 ||| tx.version : Nat) : Int) 4 = some verB)
    (hgid : int_to_bytes (tx.versionGroupId : Int) 4 = some gidB)
    (htail : ser_ow_tail tx.version tx.owTail = .ok tailB)
    (txins txouts : Bytes) :
    serialize_envelope tx txins txouts =
      .ok (verB ++ gidB ++ txins ++ txouts ++ lockB ++ tailB) := by
  unfold serialize_envelope
  rw [hlock]
  simp only [liftOpt, ok_bind]
  split
  · rw [hver]
    simp only [liftOpt, ok_bind]
    rw [hgid]
    simp only [liftOpt, ok_bind]
    rw [htail, ok_bind]
  · case _ hc => exact absurd hov hc

/-- Evaluation of `serialize_envelope` in the legacy case. -/
theorem serialize_envelope_legacy_eq {tx : TxData} (lockB verB : Bytes)
    (hov : tx.overwintered = false)
    (hlock : int_to_bytes (tx.locktime : Int) 4 = some lockB)
    (hver : int_to_bytes (tx.version : Int) 4 = some verB)
    (txins txouts : Bytes) :
    serialize_envelope tx txins txouts = .ok (verB ++ txins ++ txouts ++ lockB) := by
  unfold serialize_envelope
  rw [hlock]
  simp only [liftOpt, ok_bind]
  split
  · case _ hc => rw [hov] at hc; exact absurd hc (by simp)
  · rw [hver]
    simp only [liftOpt, ok_bind]

/-- Evaluation of `serialize_to_network_plain` from its two traversals. -/
theorem serialize_to_network_plain_eq {tx : TxData} {sigsFlag : Bool}
    {insB outsB : Bytes}
    (hins : mapMSer
      (fun txin => do
        let script ← create_script_sig_plain sigsFlag txin
        serialize_input txin script)
      tx.inputs = .ok insB)
    (houts : mapMSer serialize_txout tx.outputs = .ok outsB) :
    serialize_to_network_plain tx sigsFlag =
      serialize_envelope tx (var_int tx.inputs.length ++ insB)
        (var_int tx.outputs.length ++ outsB) := by
  unfold serialize_to_network_plain
  rw [hins, ok_bind, houts, ok_bind]

/-- The bit-fiddled header reassembles: serializing
`0x80000000 | (header & 0x7FFFFFFF)` reproduces a 4-byte header whose
Overwintered bit was set. -/
theorem header_reassemble {h : Nat} (hlt : h < 2 ^ 32)
    (hbit : h &&& 0x80000000 ≠ 0) :
    0x80000000 ||| (h &&& 0x7FFFFFFF) = h := by
  have hmask : h &&& 0x7FFFFFFF = h % 2 ^ 31 := by
    have : (0x7FFFFFFF : Nat) = 2 ^ 31 - 1 := by norm_num
    rw [this, Nat.and_pow_two_sub_one_eq_mod]
  have hbit' : h / 2 ^ 31 = 1 := by
    have h1 : h &&& 0x80000000 = (if h.testBit 31 then 2 ^ 31 else 0) := by
      have : (0x80000000 : Nat) = 2 ^ 31 := by norm_num
      rw [this, Nat.and_two_pow]
      by_cases ht : h.testBit 31 <;> simp [ht]
    rw [h1] at hbit
    by_cases ht : h.testBit 31
    · rw [Nat.testBit_to_div_mod] at ht
      simp only [decide_eq_true_eq] at ht
      omega
    · simp [ht] at hbit
  rw [hmask]
  apply Nat.eq_of_testBit_eq
  intro i
  rw [Nat.testBit_lor]
  rcases Nat.lt_trichotomy i 31 with hi | rfl | hi
  · have h1 : Nat.testBit (0x80000000) i = false := by
      have : (0x80000000 : Nat) = 2 ^ 31 := by norm_num
      rw [this, Nat.testBit_two_pow]
      simp
      omega
    rw [h1, Nat.testBit_mod_two_pow]
    simp [hi]
  · have h1 : Nat.testBit (0x80000000) 31 = true := by
      have : (0x80000000 : Nat) = 2 ^ 31 := by norm_num
      rw [this, Nat.testBit_two_pow]
      simp
    rw [h1]
    simp only [Bool.true_or]
    symm
    rw [Nat.testBit_to_div_mod]
    simp only [decide_eq_true_eq]
    norm_num at hbit' ⊢
    omega
  · have h1 : Nat.testBit (0x80000000) i = false := by
      have : (0x80000000 : Nat) = 2 ^ 31 := by norm_num
      rw [this, Nat.testBit_two_pow]
      simp
      omega
    rw [h1, Nat.testBit_mod_two_pow]
    have h2 : Nat.testBit h i = false := by
      apply Nat.testBit_lt_two_pow
      calc h < 2 ^ 32 := hlt
      _ ≤ 2 ^ i := Nat.pow_le_pow_right (by norm_num) (by omega)
    simp [h2, (show ¬ i < 31 by omega)]

/-- A version-masked header without the Overwintered bit stays below
`2 ^ 31`. -/
theorem version_mask_lt (h : Nat) : h &&& 0x7FFFFFFF < 2 ^ 31 := by
  have : (0x7FFFFFFF : Nat) = 2 ^ 31 - 1 := by norm_num
  rw [this, Nat.and_pow_two_sub_one_eq_mod]
  exact Nat.mod_lt _ (by norm_num)

/-- Legacy header: if the Overwintered bit is clear, the masked version
re-serializes to the original header. -/
theorem header_legacy_eq {h : Nat} (hlt : h < 2 ^ 32)
    (hbit : h &&& 0x80000000 = 0) : h &&& 0x7FFFFFFF = h := by
  have hmask : h &&& 0x7FFFFFFF = h % 2 ^ 31 := by
    have : (0x7FFFFFFF : Nat) = 2 ^ 31 - 1 := by norm_num
    rw [this, Nat.and_pow_two_sub_one_eq_mod]
  have h1 : h &&& 0x80000000 = (if h.testBit 31 then 2 ^ 31 else 0) := by
    have : (0x80000000 : Nat) = 2 ^ 31 := by norm_num
    rw [this, Nat.and_two_pow]
    by_cases ht : h.testBit 31 <;> simp [ht]
  rw [h1] at hbit
  by_cases ht : h.testBit 31
  · simp [ht] at hbit
  · rw [Nat.testBit_to_div_mod] at ht
    simp only [decide_eq_true_eq] at ht
    rw [hmask]
    omega

/-- The body of a canonically-encoded parse re-serializes to the original
bytes once the already-consumed header (and version group id) is prepended. -/
theorem read_tx_body_min_roundtrip (ow : Bool) {version gid : Nat} {s : Bytes}
    {tx : TxData} {r : Bytes}
    (hv : if ow then version = 3 ∨ version = 4 else version < 2 ^ 31)
    (hg : gid < 2 ^ 32)
    (hwf : bytesWF s)
    (h : read_tx_body read_compact_size_min true ow version gid s = .ok (tx, r)) :
    r = [] ∧ serialize_to_network_plain tx true =
      .ok ((if ow then natToLE (0x80000000 ||| version) 4 ++ natToLE gid 4
            else natToLE version 4) ++ s) := by
  unfold read_tx_body at h
  rw [except_bind_ok] at h
  obtain ⟨⟨n_vin, s1⟩, hvin, h⟩ := h
  try dsimp only at hvin h
  rw [except_bind_ok] at h
  obtain ⟨⟨inputs, s2⟩, hins, h⟩ := h
  try dsimp only at hins h
  rw [except_bind_ok] at h
  obtain ⟨⟨n_vout, s3⟩, hvout, h⟩ := h
  try dsimp only at hvout h
  rw [except_bind_ok] at h
  obtain ⟨⟨outputs, s4⟩, houts, h⟩ := h
  try dsimp only at houts h
  rw [except_bind_ok] at h
  obtain ⟨⟨locktime, s5⟩, hlock, h⟩ := h
  try dsimp only at hlock h
  obtain ⟨hs0, h1wf⟩ := read_compact_size_min_consumed hwf hvin
  obtain ⟨cin, hcin, hs1, h2wf, hlenin⟩ := parse_list_roundtrip
    (g := fun txin => do
      let script ← create_script_sig_plain true txin
      serialize_input txin script)
    (fun sx x rx hwfx hx => parse_input_min_roundtrip hwfx hx) h1wf hins
  obtain ⟨hs2, h3wf⟩ := read_compact_size_min_consumed h2wf hvout
  obtain ⟨cout, hcout, hs3, h4wf, hlenout⟩ := parse_list_roundtrip
    (g := serialize_txout)
    (fun sx x rx hwfx hx => parse_output_min_roundtrip hwfx hx) h3wf houts
  obtain ⟨hs4, hlockb, h5wf⟩ := read_le_num_consumed h4wf hlock
  by_cases how : ow = true
  · subst how
    rw [if_pos rfl] at h ⊢
    rw [except_bind_ok] at h
    obtain ⟨⟨t, s6⟩, htail, h⟩ := h
    try dsimp only at htail h
    obtain ⟨ctail, hctail, hs5, h6wf⟩ :=
      parse_ow_tail_min_roundtrip (by simpa using hv) h5wf htail
    split at h
    · exact absurd h (by simp)
    · case _ hend =>
      simp only [Except.ok.injEq, Prod.mk.injEq] at h
      obtain ⟨rfl, rfl⟩ := h
      have hrnil : s6 = [] := by
        by_cases hr : s6 = []
        · exact hr
        · exact absurd ⟨rfl, hr⟩ hend
      subst hrnil
      refine ⟨rfl, ?_⟩
      rw [serialize_to_network_plain_eq hcin hcout]
      rw [serialize_envelope_ow_eq (natToLE locktime 4)
        (natToLE (0x80000000 ||| version) 4) (natToLE gid 4)
        ctail rfl
        (by dsimp only; exact int_to_bytes_of_nat (by norm_num at hlockb ⊢; omega))
        (by
          dsimp only
          refine int_to_bytes_of_nat ?_
          rcases (by simpa using hv : version = 3 ∨ version = 4) with rfl | rfl <;> decide)
        (by dsimp only; exact int_to_bytes_of_nat (by norm_num at hg ⊢; omega))
        (by dsimp only; exact hctail)]
      dsimp only
      rw [hlenin, hlenout, hs0, hs1, hs2, hs3, hs4, hs5]
      simp [List.append_assoc]
  · have how' : ow = false := by
      cases ow
      · rfl
      · exact absurd rfl how
    subst how'
    rw [if_neg (by simp)] at h ⊢
    split at h
    · exact absurd h (by simp)
    · case _ hend =>
      simp only [Except.ok.injEq, Prod.mk.injEq] at h
      obtain ⟨rfl, rfl⟩ := h
      have hrnil : s5 = [] := by
        by_cases hr : s5 = []
        · exact hr
        · exact absurd ⟨rfl, hr⟩ hend
      subst hrnil
      refine ⟨rfl, ?_⟩
      rw [serialize_to_network_plain_eq hcin hcout]
      rw [serialize_envelope_legacy_eq (natToLE locktime 4)
        (natToLE version 4) rfl
        (by dsimp only; exact int_to_bytes_of_nat (by norm_num at hlockb ⊢; omega))
        (by
          dsimp only
          refine int_to_bytes_of_nat ?_
          have hvv : version < 2 ^ 31 := by simpa using hv
          norm_num at hvv ⊢
          omega)]
      dsimp only
      rw [hlenin, hlenout, hs0, hs1, hs2, hs3, hs4]
      simp [List.append_assoc]

/-- Claim C2's amended core: a byte string that parses as a transaction
with every compact size minimally encoded re-serializes to itself, and the
canonical parse agrees with the source's permissive parser. -/
theorem read_vds_min_roundtrip {s : Bytes} {tx : TxData} {r : Bytes}
    (hwf : bytesWF s) (h : read_vds_min_alone s = .ok (tx, r)) :
    r = [] ∧ serialize_to_network_plain tx true = .ok s := by
  unfold read_vds_min_alone read_vds_gen at h
  rw [except_bind_ok] at h
  obtain ⟨⟨header, s1⟩, hh, h⟩ := h
  try dsimp only at hh h
  obtain ⟨hsH, hhdr, h1wf⟩ := read_le_num_consumed hwf hh
  by_cases hbit : header &&& 0x80000000 = 0
  · rw [if_neg (by simp [hbit])] at h
    obtain ⟨hrnil, hser⟩ := read_tx_body_min_roundtrip false
      (by rw [if_neg (by simp)]; exact version_mask_lt header)
      (by norm_num [SAPLING_VERSION_GROUP_ID]) h1wf h
    refine ⟨hrnil, ?_⟩
    rw [hser, if_neg (by simp), header_legacy_eq (by norm_num at hhdr ⊢; omega) hbit]
    rw [hsH]
  · rw [if_pos (by simp [hbit])] at h
    split at h
    · exact absurd h (by simp)
    · case _ hv34 =>
      rw [except_bind_ok] at h
      obtain ⟨⟨gid, s2⟩, hgid, h⟩ := h
      try dsimp only at hgid h
      obtain ⟨hsG, hgidlt, h2wf⟩ := read_le_num_consumed h1wf hgid
      split at h
      · exact absurd h (by simp)
      · case _ hgidok =>
        obtain ⟨hrnil, hser⟩ := read_tx_body_min_roundtrip true
          (by rw [if_pos rfl]; omega)
          (by norm_num at hgidlt ⊢; omega) h2wf h
        refine ⟨hrnil, ?_⟩
        rw [hser, if_pos rfl,
          header_reassemble (by norm_num at hhdr ⊢; omega) hbit]
        rw [hsH, hsG]
        simp [List.append_assoc]

/-!
### The canonical parser refines the source's permissive parser
-/

/-- Every success of `p` is the same success of `q`. -/
def PRefines {α : Type} (p q : Bytes → Except Err (α × Bytes)) : Prop :=
  ∀ s x, p s = .ok x → q s = .ok x

theorem rcs_min_refines : PRefines read_compact_size_min read_compact_size := by
  intro s x h
  match s with
  | [] => simp [read_compact_size_min] at h
  | size :: rest =>
    simp only [read_compact_size_min] at h
    simp only [read_compact_size]
    split at h
    · case _ h253 =>
      rw [if_pos h253]
      rw [except_bind_ok] at h
      obtain ⟨⟨w, r⟩, hrd, hok⟩ := h
      split at hok
      · exact absurd hok (by simp)
      · simp only [Except.ok.injEq] at hok
        rw [hrd, ← hok]
    · case _ h253 =>
      split at h
      · case _ h254 =>
        rw [if_neg h253, if_pos h254]
        rw [except_bind_ok] at h
        obtain ⟨⟨w, r⟩, hrd, hok⟩ := h
        split at hok
        · exact absurd hok (by simp)
        · simp only [Except.ok.injEq] at hok
          rw [hrd, ← hok]
      · case _ h254 =>
        split at h
        · case _ h255 =>
          rw [if_neg h253, if_neg h254, if_pos h255]
          rw [except_bind_ok] at h
          obtain ⟨⟨w, r⟩, hrd, hok⟩ := h
          split at hok
          · exact absurd hok (by simp)
          · simp only [Except.ok.injEq] at hok
            rw [hrd, ← hok]
        · case _ h255 =>
          rw [if_neg h253, if_neg h254, if_neg h255]
          exact h

theorem parse_input_gen_refines {rcs1 rcs2 : Bytes → Except Err (Nat × Bytes)}
    (hr : PRefines rcs1 rcs2) {s : Bytes} {y : TxInput × Bytes}
    (h : parse_input_gen rcs1 s = .ok y) : parse_input_gen rcs2 s = .ok y := by
  unfold parse_input_gen at h ⊢
  rw [except_bind_ok] at h ⊢
  obtain ⟨a, ha, h⟩ := h
  refine ⟨a, ha, ?_⟩
  rw [except_bind_ok] at h ⊢
  obtain ⟨b, hb, h⟩ := h
  refine ⟨b, hb, ?_⟩
  rw [except_bind_ok] at h ⊢
  obtain ⟨c, hc, h⟩ := h
  exact ⟨c, hr _ _ hc, h⟩

theorem parse_output_gen_refines {rcs1 rcs2 : Bytes → Except Err (Nat × Bytes)}
    (hr : PRefines rcs1 rcs2) {s : Bytes} {y : TxOutput × Bytes}
    (h : parse_output_gen rcs1 s = .ok y) : parse_output_gen rcs2 s = .ok y := by
  unfold parse_output_gen at h ⊢
  rw [except_bind_ok] at h ⊢
  obtain ⟨⟨v, s1⟩, ha, h⟩ := h
  refine ⟨⟨v, s1⟩, ha, ?_⟩
  dsimp only at h ⊢
  split at h
  · exact absurd h (by simp)
  · case _ h1 =>
    rw [if_neg h1]
    split at h
    · exact absurd h (by simp)
    · case _ h2 =>
      rw [if_neg h2]
      rw [except_bind_ok] at h ⊢
      obtain ⟨c, hc, h⟩ := h
      exact ⟨c, hr _ _ hc, h⟩

theorem parse_list_refines {α : Type} {f1 f2 : Bytes → Except Err (α × Bytes)}
    (hr : PRefines f1 f2) :
    ∀ {n : Nat} {s : Bytes} {y : List α × Bytes},
      parse_list f1 n s = .ok y → parse_list f2 n s = .ok y := by
  intro n
  induction n with
  | zero => intro s y h; exact h
  | succ m ih =>
    intro s y h
    simp only [parse_list] at h ⊢
    rw [except_bind_ok] at h ⊢
    obtain ⟨a, ha, h⟩ := h
    refine ⟨a, hr _ _ ha, ?_⟩
    rw [except_bind_ok] at h ⊢
    obtain ⟨b, hb, h⟩ := h
    exact ⟨b, ih hb, h⟩

theorem parse_ow_tail_refines {rcs1 rcs2 : Bytes → Except Err (Nat × Bytes)}
    (hr : PRefines rcs1 rcs2) {version : Nat} {s : Bytes} {y : OwTail × Bytes}
    (h : parse_ow_tail rcs1 version s = .ok y) :
    parse_ow_tail rcs2 version s = .ok y := by
  unfold parse_ow_tail at h ⊢
  rw [except_bind_ok] at h ⊢
  obtain ⟨a, ha, h⟩ := h
  refine ⟨a, ha, ?_⟩
  dsimp only at h ⊢
  by_cases h4 : version = 4
  · rw [if_pos h4] at h ⊢
    rw [except_bind_ok] at h ⊢
    obtain ⟨b, hb, h⟩ := h
    refine ⟨b, hb, ?_⟩
    rw [except_bind_ok] at h ⊢
    obtain ⟨c, hc, h⟩ := h
    refine ⟨c, hr _ _ hc, ?_⟩
    rw [except_bind_ok] at h ⊢
    obtain ⟨d, hd, h⟩ := h
    refine ⟨d, hd, ?_⟩
    rw [except_bind_ok] at h ⊢
    obtain ⟨e, he, h⟩ := h
    refine ⟨e, hr _ _ he, ?_⟩
    rw [except_bind_ok] at h ⊢
    obtain ⟨f, hf, h⟩ := h
    refine ⟨f, hf, ?_⟩
    rw [ok_bind] at h ⊢
    rw [except_bind_ok] at h ⊢
    obtain ⟨g, hg, h⟩ := h
    refine ⟨g, hr _ _ hg, ?_⟩
    dsimp only at h ⊢
    split at h
    · case _ hjs =>
      rw [if_pos hjs]
      rw [except_bind_ok] at h ⊢
      obtain ⟨j1, hj1, h⟩ := h
      refine ⟨j1, hj1, ?_⟩
      rw [except_bind_ok] at h ⊢
      obtain ⟨j2, hj2, h⟩ := h
      refine ⟨j2, hj2, ?_⟩
      rw [except_bind_ok] at h ⊢
      obtain ⟨j3, hj3, h⟩ := h
      exact ⟨j3, hj3, h⟩
    · case _ hjs =>
      rw [if_neg hjs]
      exact h
  · rw [if_neg h4] at h ⊢
    rw [ok_bind] at h ⊢
    dsimp only at h ⊢
    rw [except_bind_ok] at h ⊢
    obtain ⟨g, hg, h⟩ := h
    refine ⟨g, hr _ _ hg, ?_⟩
    dsimp only at h ⊢
    split at h
    · case _ hjs =>
      rw [if_pos hjs]
      rw [except_bind_ok] at h ⊢
      obtain ⟨j1, hj1, h⟩ := h
      refine ⟨j1, hj1, ?_⟩
      rw [except_bind_ok] at h ⊢
      obtain ⟨j2, hj2, h⟩ := h
      refine ⟨j2, hj2, ?_⟩
      rw [except_bind_ok] at h ⊢
      obtain ⟨j3, hj3, h⟩ := h
      exact ⟨j3, hj3, h⟩
    · case _ hjs =>
      rw [if_neg hjs]
      exact h

theorem read_tx_body_refines {rcs1 rcs2 : Bytes → Except Err (Nat × Bytes)}
    (hr : PRefines rcs1 rcs2) {alone ow : Bool} {version gid : Nat} {s : Bytes}
    {y : TxData × Bytes}
    (h : read_tx_body rcs1 alone ow version gid s = .ok y) :
    read_tx_body rcs2 alone ow version gid s = .ok y := by
  unfold read_tx_body at h ⊢
  rw [except_bind_ok] at h ⊢
  obtain ⟨a, ha, h⟩ := h
  refine ⟨a, hr _ _ ha, ?_⟩
  rw [except_bind_ok] at h ⊢
  obtain ⟨b, hb, h⟩ := h
  refine ⟨b, parse_list_refines (fun sx yx hx => parse_input_gen_refines hr hx) hb, ?_⟩
  rw [except_bind_ok] at h ⊢
  obtain ⟨c, hc, h⟩ := h
  refine ⟨c, hr _ _ hc, ?_⟩
  rw [except_bind_ok] at h ⊢
  obtain ⟨d, hd, h⟩ := h
  refine ⟨d, parse_list_refines (fun sx yx hx => parse_output_gen_refines hr hx) hd, ?_⟩
  rw [except_bind_ok] at h ⊢
  obtain ⟨e, he, h⟩ := h
  refine ⟨e, he, ?_⟩
  dsimp only at h ⊢
  split at h
  · case _ how =>
    rw [if_pos how]
    rw [except_bind_ok] at h ⊢
    obtain ⟨t, ht, h⟩ := h
    exact ⟨t, parse_ow_tail_refines hr ht, h⟩
  · case _ how =>
    rw [if_neg how]
    exact h

theorem read_vds_gen_refines {rcs1 rcs2 : Bytes → Except Err (Nat × Bytes)}
    (hr : PRefines rcs1 rcs2) {alone : Bool} {s : Bytes} {y : TxData × Bytes}
    (h : read_vds_gen rcs1 alone s = .ok y) : read_vds_gen rcs2 alone s = .ok y := by
  unfold read_vds_gen at h ⊢
  rw [except_bind_ok] at h ⊢
  obtain ⟨a, ha, h⟩ := h
  refine ⟨a, ha, ?_⟩
  dsimp only at h ⊢
  split at h
  · case _ hov =>
    rw [if_pos hov]
    split at h
    · exact absurd h (by simp)
    · case _ hv =>
      rw [if_neg hv]
      rw [except_bind_ok] at h ⊢
      obtain ⟨b, hb, h⟩ := h
      refine ⟨b, hb, ?_⟩
      dsimp only at h ⊢
      split at h
      · exact absurd h (by simp)
      · case _ hg =>
        rw [if_neg hg]
        exact read_tx_body_refines hr h
  · case _ hov =>
    rw [if_neg hov]
    exact read_tx_body_refines hr h

/-- A canonical parse is also a parse by the source's permissive parser. -/
theorem read_vds_min_alone_refines {s : Bytes} {y : TxData × Bytes}
    (h : read_vds_min_alone s = .ok y) : read_vds_alone s = .ok y :=
  read_vds_gen_refines rcs_min_refines h

/-!
### Error kinds: everything after the header checks fails only with
`SerializationError` (needed for claim C5)
-/

/-- Every failure of `p` is a `SerializationError`. -/
def OnlySerial {α : Type} (p : Bytes → Except Err (α × Bytes)) : Prop :=
  ∀ s e, p s = .error e → e = .serialization

theorem errOf_bind {α β : Type} {x : Except Err α} {f : α → Except Err β} {e : Err}
    (hx : ∀ e2, x = .error e2 → e2 = .serialization)
    (hf : ∀ a e2, f a = .error e2 → e2 = .serialization)
    (h : x >>= f = .error e) : e = .serialization := by
  rw [except_bind_err] at h
  rcases h with h | ⟨a, _, h⟩
  · exact hx e h
  · exact hf a e h

theorem read_bytes_onlySerial (n : Nat) : OnlySerial (read_bytes n) := by
  intro s e h
  unfold read_bytes at h
  split at h
  · exact absurd h (by simp)
  · simp only [Except.error.injEq] at h
    exact h.symm

theorem read_le_num_onlySerial (w : Nat) : OnlySerial (read_le_num w) := by
  intro s e h
  unfold read_le_num at h
  refine errOf_bind (fun e2 h2 => read_bytes_onlySerial w s e2 h2)
    (fun a e2 h2 => ?_) h
  obtain ⟨c, r⟩ := a
  exact absurd h2 (by simp)

theorem read_int64_onlySerial : OnlySerial read_int64 := by
  intro s e h
  unfold read_int64 at h
  refine errOf_bind (fun e2 h2 => read_le_num_onlySerial 8 s e2 h2)
    (fun a e2 h2 => ?_) h
  obtain ⟨c, r⟩ := a
  exact absurd h2 (by simp)

theorem read_compact_size_onlySerial : OnlySerial read_compact_size := by
  intro s e h
  match s with
  | [] =>
    simp only [read_compact_size, Except.error.injEq] at h
    exact h.symm
  | b :: rest =>
    simp only [read_compact_size] at h
    split at h
    · exact read_le_num_onlySerial 2 rest e h
    · split at h
      · exact read_le_num_onlySerial 4 rest e h
      · split at h
        · exact read_le_num_onlySerial 8 rest e h
        · exact absurd h (by simp)

theorem read_opt_blob_onlySerial (cond : Bool) (len : Nat) :
    OnlySerial (read_opt_blob cond len) := by
  intro s e h
  unfold read_opt_blob at h
  split at h
  · cases hrb : read_bytes len s with
    | error e2 =>
      rw [hrb] at h
      simp only [Except.map, Except.error.injEq] at h
      exact h ▸ read_bytes_onlySerial len s e2 hrb
    | ok p =>
      rw [hrb] at h
      exact absurd h (by simp [Except.map])
  · exact absurd h (by simp)

theorem parse_input_gen_onlySerial {rcs : Bytes → Except Err (Nat × Bytes)}
    (hrcs : OnlySerial rcs) : OnlySerial (parse_input_gen rcs) := by
  intro s e h
  unfold parse_input_gen at h
  refine errOf_bind (fun e2 h2 => read_bytes_onlySerial 32 s e2 h2)
    (fun a e2 h2 => ?_) h
  obtain ⟨c1, s1⟩ := a
  dsimp only at h2
  refine errOf_bind (fun e3 h3 => read_le_num_onlySerial 4 s1 e3 h3)
    (fun b e3 h3 => ?_) h2
  obtain ⟨c2, s2⟩ := b
  dsimp only at h3
  refine errOf_bind (fun e4 h4 => hrcs s2 e4 h4) (fun c e4 h4 => ?_) h3
  obtain ⟨c3, s3⟩ := c
  dsimp only at h4
  refine errOf_bind (fun e5 h5 => read_bytes_onlySerial c3 s3 e5 h5)
    (fun d e5 h5 => ?_) h4
  obtain ⟨c4, s4⟩ := d
  dsimp only at h5
  refine errOf_bind (fun e6 h6 => read_le_num_onlySerial 4 s4 e6 h6)
    (fun f e6 h6 => ?_) h5
  obtain ⟨c5, s5⟩ := f
  exact absurd h6 (by simp)

theorem parse_output_gen_onlySerial {rcs : Bytes → Except Err (Nat × Bytes)}
    (hrcs : OnlySerial rcs) : OnlySerial (parse_output_gen rcs) := by
  intro s e h
  unfold parse_output_gen at h
  refine errOf_bind (fun e2 h2 => read_int64_onlySerial s e2 h2)
    (fun a e2 h2 => ?_) h
  obtain ⟨v, s1⟩ := a
  dsimp only at h2
  split at h2
  · simp only [Except.error.injEq] at h2
    exact h2.symm
  · split at h2
    · simp only [Except.error.injEq] at h2
      exact h2.symm
    · refine errOf_bind (fun e3 h3 => hrcs s1 e3 h3) (fun b e3 h3 => ?_) h2
      obtain ⟨c2, s2⟩ := b
      dsimp only at h3
      refine errOf_bind (fun e4 h4 => read_bytes_onlySerial c2 s2 e4 h4)
        (fun c e4 h4 => ?_) h3
      obtain ⟨c3, s3⟩ := c
      exact absurd h4 (by simp)

theorem parse_list_onlySerial {α : Type} {f : Bytes → Except Err (α × Bytes)}
    (hf : OnlySerial f) (n : Nat) : OnlySerial (parse_list f n) := by
  induction n with
  | zero =>
    intro s e h
    exact absurd h (by simp [parse_list])
  | succ m ih =>
    intro s e h
    simp only [parse_list] at h
    refine errOf_bind (fun e2 h2 => hf s e2 h2) (fun a e2 h2 => ?_) h
    obtain ⟨x, s1⟩ := a
    dsimp only at h2
    refine errOf_bind (fun e3 h3 => ih s1 e3 h3) (fun b e3 h3 => ?_) h2
    obtain ⟨xs, s2⟩ := b
    exact absurd h3 (by simp)

theorem parse_ow_tail_onlySerial {rcs : Bytes → Except Err (Nat × Bytes)}
    (hrcs : OnlySerial rcs) (version : Nat) :
    OnlySerial (parse_ow_tail rcs version) := by
  intro s e h
  unfold parse_ow_tail at h
  refine errOf_bind (fun e2 h2 => read_le_num_onlySerial 4 s e2 h2)
    (fun a e2 h2 => ?_) h
  obtain ⟨expiry, s1⟩ := a
  dsimp only at h2
  split at h2
  · -- version = 4
    refine errOf_bind (fun e3 h3 => read_int64_onlySerial s1 e3 h3)
      (fun b e3 h3 => ?_) h2
    obtain ⟨vb, sA⟩ := b
    dsimp only at h3
    refine errOf_bind (fun e4 h4 => hrcs sA e4 h4) (fun c e4 h4 => ?_) h3
    obtain ⟨nsp, sB⟩ := c
    dsimp only at h4
    refine errOf_bind (fun e5 h5 => read_opt_blob_onlySerial _ _ sB e5 h5)
      (fun d e5 h5 => ?_) h4
    obtain ⟨sp, sC⟩ := d
    dsimp only at h5
    refine errOf_bind (fun e6 h6 => hrcs sC e6 h6) (fun f e6 h6 => ?_) h5
    obtain ⟨nout, sD⟩ := f
    dsimp only at h6
    refine errOf_bind (fun e7 h7 => read_opt_blob_onlySerial _ _ sD e7 h7)
      (fun g e7 h7 => ?_) h6
    obtain ⟨so, sE⟩ := g
    dsimp only at h7
    rw [ok_bind] at h7
    dsimp only at h7
    refine errOf_bind (fun e8 h8 => hrcs sE e8 h8) (fun j e8 h8 => ?_) h7
    obtain ⟨njs, sF⟩ := j
    dsimp only at h8
    split at h8
    · refine errOf_bind (fun e9 h9 => read_bytes_onlySerial _ sF e9 h9)
        (fun k e9 h9 => ?_) h8
      obtain ⟨js, sG⟩ := k
      dsimp only at h9
      refine errOf_bind (fun eA hA => read_bytes_onlySerial 32 sG eA hA)
        (fun l eA hA => ?_) h9
      obtain ⟨jpk, sH⟩ := l
      dsimp only at hA
      refine errOf_bind (fun eB hB => read_bytes_onlySerial 64 sH eB hB)
        (fun m eB hB => ?_) hA
      obtain ⟨jsig, sI⟩ := m
      dsimp only at hB
      rw [ok_bind] at hB
      dsimp only at hB
      refine errOf_bind (fun eC hC => read_opt_blob_onlySerial _ _ sI eC hC)
        (fun p eC hC => ?_) hB
      obtain ⟨bsig, sJ⟩ := p
      exact absurd hC (by simp)
    · rw [ok_bind] at h8
      dsimp only at h8
      refine errOf_bind (fun eC hC => read_opt_blob_onlySerial _ _ sF eC hC)
        (fun p eC hC => ?_) h8
      obtain ⟨bsig, sG⟩ := p
      exact absurd hC (by simp)
  · -- version = 3
    rw [ok_bind] at h2
    dsimp only at h2
    refine errOf_bind (fun e8 h8 => hrcs s1 e8 h8) (fun j e8 h8 => ?_) h2
    obtain ⟨njs, sF⟩ := j
    dsimp only at h8
    split at h8
    · refine errOf_bind (fun e9 h9 => read_bytes_onlySerial _ sF e9 h9)
        (fun k e9 h9 => ?_) h8
      obtain ⟨js, sG⟩ := k
      dsimp only at h9
      refine errOf_bind (fun eA hA => read_bytes_onlySerial 32 sG eA hA)
        (fun l eA hA => ?_) h9
      obtain ⟨jpk, sH⟩ := l
      dsimp only at hA
      refine errOf_bind (fun eB hB => read_bytes_onlySerial 64 sH eB hB)
        (fun m eB hB => ?_) hA
      obtain ⟨jsig, sI⟩ := m
      dsimp only at hB
      rw [ok_bind] at hB
      dsimp only at hB
      refine errOf_bind (fun eC hC => read_opt_blob_onlySerial _ _ sI eC hC)
        (fun p eC hC => ?_) hB
      obtain ⟨bsig, sJ⟩ := p
      exact absurd hC (by simp)
    · rw [ok_bind] at h8
      dsimp only at h8
      refine errOf_bind (fun eC hC => read_opt_blob_onlySerial _ _ sF eC hC)
        (fun p eC hC => ?_) h8
      obtain ⟨bsig, sG⟩ := p
      exact absurd hC (by simp)

theorem read_tx_body_onlySerial {rcs : Bytes → Except Err (Nat × Bytes)}
    (hrcs : OnlySerial rcs) (alone ow : Bool) (version gid : Nat) :
    OnlySerial (read_tx_body rcs alone ow version gid) := by
  intro s e h
  unfold read_tx_body at h
  refine errOf_bind (fun e2 h2 => hrcs s e2 h2) (fun a e2 h2 => ?_) h
  obtain ⟨n_vin, s1⟩ := a
  dsimp only at h2
  refine errOf_bind
    (fun e3 h3 => parse_list_onlySerial (parse_input_gen_onlySerial hrcs) _ s1 e3 h3)
    (fun b e3 h3 => ?_) h2
  obtain ⟨ins, s2⟩ := b
  dsimp only at h3
  refine errOf_bind (fun e4 h4 => hrcs s2 e4 h4) (fun c e4 h4 => ?_) h3
  obtain ⟨n_vout, s3⟩ := c
  dsimp only at h4
  refine errOf_bind
    (fun e5 h5 => parse_list_onlySerial (parse_output_gen_onlySerial hrcs) _ s3 e5 h5)
    (fun d e5 h5 => ?_) h4
  obtain ⟨outs, s4⟩ := d
  dsimp only at h5
  refine errOf_bind (fun e6 h6 => read_le_num_onlySerial 4 s4 e6 h6)
    (fun f e6 h6 => ?_) h5
  obtain ⟨lock, s5⟩ := f
  dsimp only at h6
  split at h6
  · refine errOf_bind (fun e7 h7 => parse_ow_tail_onlySerial hrcs version s5 e7 h7)
      (fun g e7 h7 => ?_) h6
    obtain ⟨t, s6⟩ := g
    dsimp only at h7
    split at h7
    · simp only [Except.error.injEq] at h7
      exact h7.symm
    · exact absurd h7 (by simp)
  · split at h6
    · simp only [Except.error.injEq] at h6
      exact h6.symm
    · exact absurd h6 (by simp)

/-!
## Claims C2, C4 and C5
-/

/-- C2, as stated, is falsified by non-minimal compact sizes: this byte
string parses (the input count `0` is encoded as `fd 00 00`), but
re-serializing the parsed transaction yields the 10-byte minimal form. -/
def c2cex : Bytes := [1, 0, 0, 0, 253, 0, 0, 0, 0, 0, 0, 0]

/-- C2 counterexample: `c2cex` parses successfully as a network
transaction, yet re-serializing the parse result gives
`[1,0,0,0,0,0,0,0,0,0]`, which differs from the input bytes: the
spec's round-trip `serialize(parse(bytes)) == bytes` fails on well-formed
inputs with non-minimally-encoded compact sizes. -/
theorem C2_counterexample :
    (read_vds_alone c2cex).map (fun p => serialize_to_network_plain p.1 true) =
      .ok (.ok [1, 0, 0, 0, 0, 0, 0, 0, 0, 0]) ∧
    ([1, 0, 0, 0, 0, 0, 0, 0, 0, 0] : Bytes) ≠ c2cex :=
  ⟨rfl, by decide⟩

/-- C2 (amended): for every byte string whose compact sizes are all
minimally encoded and which parses successfully as a network transaction —
legacy or Overwintered, including version-4 transactions with nonzero
shielded-spend, shielded-output, or join-split counts — the source's
(permissive) parser returns the same transaction, the whole input is
consumed, and re-serializing the parsed transaction reproduces the input
bytes exactly, with the opaque shielded byte blobs round-tripped
unchanged. -/
theorem C2_canonical_roundtrip {s : Bytes} {tx : TxData} {r : Bytes}
    (hwf : bytesWF s) (h : read_vds_min_alone s = .ok (tx, r)) :
    read_vds_alone s = .ok (tx, r) ∧ r = [] ∧
      serialize_to_network_plain tx true = .ok s :=
  ⟨read_vds_min_alone_refines h, (read_vds_min_roundtrip hwf h).1,
    (read_vds_min_roundtrip hwf h).2⟩

/-- A version-4 Overwintered transaction with one shielded spend and a
binding signature, in wire form. -/
def c2wbytes : Bytes :=
  [4, 0, 0, 0x80] ++ [0x85, 0x20, 0x2F, 0x89] ++ [0] ++ [0] ++ [0, 0, 0, 0] ++
    [9, 0, 0, 0] ++ [1, 0, 0, 0, 0, 0, 0, 0] ++ [1] ++ List.replicate 384 7 ++
    [0] ++ [0] ++ List.replicate 64 9

/-- The parse of `c2wbytes`. -/
def c2wtx : TxData :=
  { version := 4
    overwintered := true
    versionGroupId := SAPLING_VERSION_GROUP_ID
    inputs := []
    outputs := []
    locktime := 0
    expiryHeight := 9
    valueBalance := 1
    shieldedSpends := some (List.replicate 384 7)
    shieldedOutputs := none
    joinSplits := none
    joinSplitPubKey := none
    joinSplitSig := none
    bindingSig := some (List.replicate 64 9) }

set_option maxRecDepth 40000 in
/-- Witness for C2's amended round-trip at a concrete version-4
transaction carrying an opaque 384-byte shielded-spend blob. -/
theorem C2_canonical_roundtrip_witness :
    read_vds_alone c2wbytes = .ok (c2wtx, []) ∧
      serialize_to_network_plain c2wtx true = .ok c2wbytes := by
  have h := @C2_canonical_roundtrip c2wbytes c2wtx [] (by decide) (by rfl)
  exact ⟨h.1, h.2.2⟩

/-- C4: `write_compact_size`/`read_compact_size` round-trip on the spec's
boundary set, with the writer emitting the minimal encoding (one byte
below 253, `0xfd`+u16 below `2^16`, `0xfe`+u32 below `2^32`, `0xff`+u64
otherwise, as the explicit byte strings show), and failure with
`SerializationError` on every negative size. -/
theorem C4_compact_size_roundtrip :
    (write_compact_size 0 = .ok [0] ∧ read_compact_size [0] = .ok (0, [])) ∧
    (write_compact_size 1 = .ok [1] ∧ read_compact_size [1] = .ok (1, [])) ∧
    (write_compact_size 252 = .ok [252] ∧
      read_compact_size [252] = .ok (252, [])) ∧
    (write_compact_size 253 = .ok [253, 253, 0] ∧
      read_compact_size [253, 253, 0] = .ok (253, [])) ∧
    (write_compact_size (2 ^ 16 - 1) = .ok [253, 255, 255] ∧
      read_compact_size [253, 255, 255] = .ok (2 ^ 16 - 1, [])) ∧
    (write_compact_size (2 ^ 16) = .ok [254, 0, 0, 1, 0] ∧
      read_compact_size [254, 0, 0, 1, 0] = .ok (2 ^ 16, [])) ∧
    (write_compact_size (2 ^ 32 - 1) = .ok [254, 255, 255, 255, 255] ∧
      read_compact_size [254, 255, 255, 255, 255] = .ok (2 ^ 32 - 1, [])) ∧
    (write_compact_size (2 ^ 32) = .ok [255, 0, 0, 0, 0, 1, 0, 0, 0] ∧
      read_compact_size [255, 0, 0, 0, 0, 1, 0, 0, 0] = .ok (2 ^ 32, [])) ∧
    (write_compact_size (2 ^ 64 - 1) =
        .ok [255, 255, 255, 255, 255, 255, 255, 255, 255] ∧
      read_compact_size [255, 255, 255, 255, 255, 255, 255, 255, 255] =
        .ok (2 ^ 64 - 1, [])) ∧
    (∀ n : Int, n < 0 → write_compact_size n = .error .serialization) := by
  refine ⟨⟨rfl, rfl⟩, ⟨rfl, rfl⟩, ⟨rfl, rfl⟩, ⟨rfl, rfl⟩, ⟨rfl, rfl⟩,
    ⟨rfl, rfl⟩, ⟨rfl, rfl⟩, ⟨rfl, rfl⟩, ⟨rfl, rfl⟩, fun n hn => ?_⟩
  unfold write_compact_size
  rw [if_pos hn]

/-- C5: `TransactionVersionError` is an error kind distinct from
`SerializationError`, and parsing fails with it exactly when the 4-byte
header has the Overwintered bit set and either the low-31-bit version is
not 3 or 4, or the following 4-byte version group id differs from
`0x03C48270` (version 3) resp. `0x892F2085` (version 4); for any other
header the parse never raises this error kind. -/
theorem C5_transaction_version_error :
    Err.txVersion ≠ Err.serialization ∧
    ∀ s : Bytes,
      (read_vds_alone s = .error .txVersion ↔
        ∃ header s1, read_le_num 4 s = .ok (header, s1) ∧
          header &&& 0x80000000 ≠ 0 ∧
          ((header &&& 0x7FFFFFFF ≠ 3 ∧ header &&& 0x7FFFFFFF ≠ 4) ∨
            ∃ gid s2, read_le_num 4 s1 = .ok (gid, s2) ∧
              ((header &&& 0x7FFFFFFF = 3 ∧
                  gid ≠ OVERWINTERED_VERSION_GROUP_ID) ∨
                (header &&& 0x7FFFFFFF = 4 ∧
                  gid ≠ SAPLING_VERSION_GROUP_ID)))) := by
  refine ⟨by simp, fun s => ?_⟩
  constructor
  · intro h
    unfold read_vds_alone read_vds_gen at h
    rcases except_bind_err.mp h with h | ⟨⟨header, s1⟩, hok, h⟩
    · exact absurd (read_le_num_onlySerial 4 s _ h) (by simp)
    · try dsimp only at h
      refine ⟨header, s1, hok, ?_⟩
      by_cases hbit : header &&& 0x80000000 = 0
      · rw [if_neg (by simp [hbit])] at h
        exact absurd
          (read_tx_body_onlySerial read_compact_size_onlySerial true false
            _ _ s1 _ h) (by simp)
      · refine ⟨hbit, ?_⟩
        rw [if_pos (by simp [hbit])] at h
        split at h
        · case _ hv34 => exact Or.inl hv34
        · case _ hv34 =>
          rcases except_bind_err.mp h with h | ⟨⟨gid, s2⟩, hgok, h⟩
          · exact absurd (read_le_num_onlySerial 4 s1 _ h) (by simp)
          · try dsimp only at h
            refine Or.inr ⟨gid, s2, hgok, ?_⟩
            split at h
            · case _ hmis => exact hmis
            · case _ hmis =>
              exact absurd
                (read_tx_body_onlySerial read_compact_size_onlySerial true true
                  _ _ s2 _ h) (by simp)
  · rintro ⟨header, s1, hok, hbit, hd⟩
    unfold read_vds_alone read_vds_gen
    rw [hok, ok_bind]
    try dsimp only
    rw [if_pos (by simp [hbit])]
    rcases hd with hv34 | ⟨gid, s2, hgok, hmis⟩
    · rw [if_pos hv34]
    · have hnv : ¬ (header &&& 0x7FFFFFFF ≠ 3 ∧ header &&& 0x7FFFFFFF ≠ 4) := by
        rcases hmis with ⟨hv, _⟩ | ⟨hv, _⟩ <;> simp [hv]
      rw [if_neg hnv]
      rw [hgok, ok_bind]
      try dsimp only
      rw [if_pos hmis]

/-!
## Byte-string ordering

Python compares `bytes` values lexicographically; `sorted(...)` on dict
items and `list.sort(key=...)` below use this order.
-/

/-- Lexicographic `≤` on byte strings, as Python compares `bytes`. -/
def bytesLe : Bytes → Bytes → Bool
  | [], _ => true
  | _ :: _, [] => false
  | a :: as, b :: bs => if a < b then true else if b < a then false else bytesLe as bs

theorem bytesLe_total (a b : Bytes) : bytesLe a b = true ∨ bytesLe b a = true := by
  induction a generalizing b with
  | nil => exact Or.inl rfl
  | cons x xs ih =>
    cases b with
    | nil => exact Or.inr rfl
    | cons y ys =>
      by_cases hxy : x < y
      · exact Or.inl (by simp [bytesLe, hxy])
      · by_cases hyx : y < x
        · exact Or.inr (by simp [bytesLe, hyx])
        · have hx : x = y := Nat.le_antisymm (Nat.le_of_not_lt hyx) (Nat.le_of_not_lt hxy)
          subst hx
          rcases ih ys with h | h
          · exact Or.inl (by simp [bytesLe, h])
          · exact Or.inr (by simp [bytesLe, h])

theorem bytesLe_trans {a b c : Bytes} (h1 : bytesLe a b = true)
    (h2 : bytesLe b c = true) : bytesLe a c = true := by
  induction a generalizing b c with
  | nil => rfl
  | cons x xs ih =>
    cases b with
    | nil => simp [bytesLe] at h1
    | cons y ys =>
      cases c with
      | nil => simp [bytesLe] at h2
      | cons z zs =>
        simp only [bytesLe] at h1 h2 ⊢
        split at h1
        · case _ hxy =>
          split at h2
          · case _ hyz => rw [if_pos (Nat.lt_trans hxy hyz)]
          · case _ hyz =>
            split at h2
            · case _ hzy => simp at h2
            · case _ hzy =>
              have : y = z := Nat.le_antisymm (Nat.le_of_not_lt hzy) (Nat.le_of_not_lt hyz)
              subst this
              rw [if_pos hxy]
        · case _ hxy =>
          split at h1
          · case _ hyx => simp at h1
          · case _ hyx =>
            have hxy2 : x = y := Nat.le_antisymm (Nat.le_of_not_lt hyx) (Nat.le_of_not_lt hxy)
            subst hxy2
            split at h2
            · case _ hxz => rw [if_pos hxz]
            · case _ hxz =>
              split at h2
              · case _ hzx => simp at h2
              · case _ hzx =>
                have : x = z := Nat.le_antisymm (Nat.le_of_not_lt hzx) (Nat.le_of_not_lt hxz)
                subst this
                rw [if_neg (Nat.lt_irrefl x), if_neg (Nat.lt_irrefl x)]
                exact ih h1 h2

theorem bytesLe_antisymm {a b : Bytes} (h1 : bytesLe a b = true)
    (h2 : bytesLe b a = true) : a = b := by
  induction a generalizing b with
  | nil =>
    cases b with
    | nil => rfl
    | cons y ys => simp [bytesLe] at h2
  | cons x xs ih =>
    cases b with
    | nil => simp [bytesLe] at h1
    | cons y ys =>
      simp only [bytesLe] at h1 h2
      split at h1
      · case _ hxy =>
        rw [if_neg (Nat.lt_asymm hxy), if_pos hxy] at h2
        simp at h2
      · case _ hxy =>
        split at h1
        · case _ hyx => simp at h1
        · case _ hyx =>
          have hx : x = y := Nat.le_antisymm (Nat.le_of_not_lt hyx) (Nat.le_of_not_lt hxy)
          subst hx
          rw [if_neg (Nat.lt_irrefl x), if_neg (Nat.lt_irrefl x)] at h2
          rw [ih h1 h2]

/-- `bytesLe` after a common head byte. -/
theorem bytesLe_cons_same {c : Nat} {a b : Bytes} (h : bytesLe a b = true) :
    bytesLe (c :: a) (c :: b) = true := by
  simp [bytesLe, Nat.lt_irrefl, h]

/-- `bytesLe` from a smaller head byte. -/
theorem bytesLe_cons_lt {c d : Nat} (h : c < d) (a b : Bytes) :
    bytesLe (c :: a) (d :: b) = true := by
  simp [bytesLe, h]

/-- Python's `sorted` on dict items (unique keys): sort the association
list by lexicographic key order. -/
def sortPairs (l : List (Bytes × Bytes)) : List (Bytes × Bytes) :=
  List.insertionSort (fun p q => bytesLe p.1 q.1 = true) l

instance : DecidableRel (fun (p q : Bytes × Bytes) => bytesLe p.1 q.1 = true) :=
  fun _ _ => inferInstance

instance : IsTotal (Bytes × Bytes) (fun p q => bytesLe p.1 q.1 = true) :=
  ⟨fun p q => bytesLe_total p.1 q.1⟩

instance : IsTrans (Bytes × Bytes) (fun p q => bytesLe p.1 q.1 = true) :=
  ⟨fun _ _ _ h1 h2 => bytesLe_trans h1 h2⟩

theorem sortPairs_sorted (l : List (Bytes × Bytes)) :
    List.Sorted (fun p q => bytesLe p.1 q.1 = true) (sortPairs l) :=
  List.sorted_insertionSort _ l

theorem sortPairs_perm (l : List (Bytes × Bytes)) : (sortPairs l).Perm l :=
  List.perm_insertionSort _ l

/-!
## Scripts and hashes (transaction.py lines 377–401, 502–506, 650–737)

The cryptographic primitives (`blake2b` with personalization, `sha256d`,
`hash_160`) live outside this component; they enter every statement as an
opaque parameter, so the theorems hold for the real functions. -/

/-- The hash primitives used by signing and txid computation, as opaque
functions: `blake2b` keyed by its 16-byte personalization, double-SHA256
and `ripemd160(sha256(x))`. -/
structure HashModel where
  blake2b_256 : Bytes → Bytes → Bytes
  sha256d : Bytes → Bytes
  hash_160 : Bytes → Bytes

/-- Modelled from the spec: the standard script opcode byte used by the
P2SH multisig template builder (`OP_CHECKMULTISIG`). -/
def OP_CHECKMULTISIG : Nat := 174

/-- Modelled from the spec: `OP_CODESEPARATOR`, rejected in redeem
scripts by the preimage builder. -/
def OP_CODESEPARATOR : Nat := 171

/-- Modelled from the spec: a minimal data push (`push_script`): direct
length byte below `OP_PUSHDATA1`(76), else a 1/2/4-byte length with the
`OP_PUSHDATA1/2/4` prefix. -/
def push_data (d : Bytes) : Bytes :=
  if d.length < 76 then d.length :: d
  else if d.length < 2 ^ 8 then 76 :: d.length :: d
  else if d.length < 2 ^ 16 then 77 :: natToLE d.length 2 ++ d
  else 78 :: natToLE d.length 4 ++ d

/-- Modelled from the spec: a small integer in a script — `OP_0` for zero,
`OP_1`..`OP_16` (bytes `0x51`..`0x60`) for 1–16, as `construct_script`
renders the `m`/`n` of a multisig and the leading `0`. -/
def opNum (m : Nat) : Bytes :=
  if m = 0 then [0] else [0x50 + m]

/-- `multisig_script` (lines 502–506): `m <pubkeys...> n CHECKMULTISIG`
with `assert 1 <= m <= n <= 15` (`AssertionError` otherwise). -/
def multisig_script (public_keys : List Bytes) (m : Nat) : Except Err Bytes :=
  let n := public_keys.length
  if 1 ≤ m ∧ m ≤ n ∧ n ≤ 15 then
    .ok (opNum m ++ (public_keys.map push_data).flatten ++ opNum n ++
      [OP_CHECKMULTISIG])
  else .error .generic

/-- Modelled from the spec: the P2PKH scriptPubKey template
`OP_DUP OP_HASH160 <20-byte push> OP_EQUALVERIFY OP_CHECKSIG` built from a
pubkey hash (`bitcoin.pubkeyhash_to_p2pkh_script`). -/
def pubkeyhash_to_p2pkh_script (pkh : Bytes) : Bytes :=
  [118, 169] ++ push_data pkh ++ [136, 172]

/-- Modelled from the spec: the P2PK script `<pubkey push> OP_CHECKSIG`
(`bitcoin.public_key_to_p2pk_script`). -/
def public_key_to_p2pk_script (pk : Bytes) : Bytes :=
  push_data pk ++ [172]

/-- `script_GetOp` (lines 377–401) collected into a list: each opcode with
its pushed data; truncated `OP_PUSHDATA1/2/4` length fields raise
`MalformedBitcoinScript`, while the pushed data itself silently truncates
at the end of the script, as the Python slicing does. -/
def script_GetOp_list (s : Bytes) : Except Err (List (Nat × Option Bytes)) :=
  match s with
  | [] => .ok []
  | opcode :: rest =>
    if opcode ≤ 78 then
      if opcode = 76 then
        match rest with
        | [] => .error .malformedScript
        | n :: r2 => do
          let tl ← script_GetOp_list (r2.drop n)
          .ok ((opcode, some (r2.take n)) :: tl)
      else if opcode = 77 then
        if 2 ≤ rest.length then do
          let tl ← script_GetOp_list ((rest.drop 2).drop (leVal (rest.take 2)))
          .ok ((opcode, some ((rest.drop 2).take (leVal (rest.take 2)))) :: tl)
        else .error .malformedScript
      else if opcode = 78 then
        if 4 ≤ rest.length then do
          let tl ← script_GetOp_list ((rest.drop 4).drop (leVal (rest.take 4)))
          .ok ((opcode, some ((rest.drop 4).take (leVal (rest.take 4)))) :: tl)
        else .error .malformedScript
      else do
        let tl ← script_GetOp_list (rest.drop opcode)
        .ok ((opcode, some (rest.take opcode)) :: tl)
    else do
      let tl ← script_GetOp_list rest
      .ok ((opcode, none) :: tl)
termination_by s.length
decreasing_by all_goals (simp only [List.length_drop, List.length_cons]; omega)

/-!
## PSBT data model (transaction.py lines 1107–1420)
-/

/-- `PartialTxInput`: a `TxInput` plus the PSBT per-input fields.  Python
dicts (`part_sigs`, `bip32_paths`, `_unknown`) become association lists
with unique keys; the wallet-only bookkeeping (`_trusted_address`,
`block_height`, `spent_height`, `prevout_timestamp`) plays no role in any
modelled code path and is omitted. -/
structure PartialTxInput where
  prevout : TxOutpoint
  script_sig : Option Bytes
  nsequence : Nat
  utxo : Option TxData
  part_sigs : List (Bytes × Bytes)
  sighash : Option Nat
  bip32_paths : List (Bytes × (Bytes × List Nat))
  redeem_script : Option Bytes
  unknown : List (Bytes × Bytes)
  script_type : String
  num_sig : Nat
  pubkeys : List Bytes
  trusted_value_sats : Option Int
deriving DecidableEq, Repr

/-- The `PartialTxInput.__init__` defaults around a prevout. -/
def PartialTxInput.fresh (prevout : TxOutpoint) : PartialTxInput :=
  { prevout := prevout
    script_sig := none
    nsequence := 0xFFFFFFFF
    utxo := none
    part_sigs := []
    sighash := none
    bip32_paths := []
    redeem_script := none
    unknown := []
    script_type := "unknown"
    num_sig := 0
    pubkeys := []
    trusted_value_sats := none }

def PartialTxInput.is_coinbase_input (txin : PartialTxInput) : Bool :=
  txin.prevout.is_coinbase

def PartialTxInput.toTxInput (txin : PartialTxInput) : TxInput :=
  { prevout := txin.prevout, script_sig := txin.script_sig
    nsequence := txin.nsequence }

/-- `PartialTxOutput`: a `TxOutput` plus the PSBT per-output fields.  The
wallet-only fields (`script_type`, `num_sig`, `pubkeys`, `is_mine`,
`is_change`) play no role in any modelled code path and are omitted. -/
structure PartialTxOutput where
  scriptpubkey : Bytes
  value : Int
  redeem_script : Option Bytes
  bip32_paths : List (Bytes × (Bytes × List Nat))
  unknown : List (Bytes × Bytes)
deriving DecidableEq, Repr

def PartialTxOutput.toTxOutput (o : PartialTxOutput) : TxOutput :=
  { scriptpubkey := o.scriptpubkey, value := o.value }

/-- `PartialTransaction`: the `Transaction` envelope fields with
`PartialTxInput`/`PartialTxOutput` lists, the global xpub map (keyed by
the serialized BIP32 node) and the unknown-global-field bag. -/
structure PartialTx where
  version : Nat
  overwintered : Bool
  versionGroupId : Nat
  locktime : Nat
  expiryHeight : Nat
  valueBalance : Int
  shieldedSpends : Option Bytes
  shieldedOutputs : Option Bytes
  joinSplits : Option Bytes
  joinSplitPubKey : Option Bytes
  joinSplitSig : Option Bytes
  bindingSig : Option Bytes
  inputs : List PartialTxInput
  outputs : List PartialTxOutput
  xpubs : List (Bytes × Bytes)
  unknown : List (Bytes × Bytes)
deriving DecidableEq, Repr

/-- `PartialTransaction.__init__`: `Transaction.__init__(None)` defaults
with empty sections. -/
def PartialTx.empty : PartialTx :=
  { version := 4
    overwintered := true
    versionGroupId := SAPLING_VERSION_GROUP_ID
    locktime := 0
    expiryHeight := 0
    valueBalance := 0
    shieldedSpends := none
    shieldedOutputs := none
    joinSplits := none
    joinSplitPubKey := none
    joinSplitSig := none
    bindingSig := none
    inputs := []
    outputs := []
    xpubs := []
    unknown := [] }

/-- The `TxData` view of a `PartialTx` (shared envelope fields; the
input/output lists forget their PSBT extras). -/
def PartialTx.core (tx : PartialTx) : TxData :=
  { version := tx.version
    overwintered := tx.overwintered
    versionGroupId := tx.versionGroupId
    inputs := tx.inputs.map PartialTxInput.toTxInput
    outputs := tx.outputs.map PartialTxOutput.toTxOutput
    locktime := tx.locktime
    expiryHeight := tx.expiryHeight
    valueBalance := tx.valueBalance
    shieldedSpends := tx.shieldedSpends
    shieldedOutputs := tx.shieldedOutputs
    joinSplits := tx.joinSplits
    joinSplitPubKey := tx.joinSplitPubKey
    joinSplitSig := tx.joinSplitSig
    bindingSig := tx.bindingSig }

/-!
## PSBT input behavior (transaction.py lines 650–737, 1244–1316)
-/

/-- `PartialTxInput.value_sats` (lines 1244–1250): the trusted value if
set, else the referenced output's value from the embedded funding
transaction (`IndexError` when the prevout index is out of range), else
`None`. -/
def PartialTxInput.value_sats (txin : PartialTxInput) :
    Except Err (Option Int) :=
  match txin.trusted_value_sats with
  | some v => .ok (some v)
  | none =>
    match txin.utxo with
    | some u =>
      match u.outputs.get? txin.prevout.out_idx with
      | some o => .ok (some o.value)
      | none => .error .generic
    | none => .ok none

/-- `PartialTxInput.is_complete` (lines 1284–1300): coinbase, a set
scriptSig, or enough partial signatures for the recognized script type. -/
def PartialTxInput.is_complete (txin : PartialTxInput) : Bool :=
  if txin.is_coinbase_input then true
  else if txin.script_sig.isSome then true
  else
    let s := txin.part_sigs.length
    if txin.script_type = "p2pk" ∨ txin.script_type = "p2pkh" then 1 ≤ s
    else if txin.script_type = "p2sh" then txin.num_sig ≤ s
    else false

/-- `Transaction.get_siglist` (lines 650–675) with `estimate_size=False`:
the input's pubkeys and, per pubkey, its partial signature or `''`;
for a complete input the empty entries are dropped. -/
def get_siglist (txin : PartialTxInput) : List Bytes × List Bytes :=
  if txin.is_coinbase_input then ([], [])
  else
    let pk_list := txin.pubkeys
    let sig_list := txin.pubkeys.map
      (fun pk => ((txin.part_sigs.lookup pk).getD []))
    if txin.is_complete then (pk_list, sig_list.filter (· ≠ []))
    else (pk_list, sig_list)

/-- `Transaction.input_script` (lines 694–720) with `estimate_size=False`
on a `PartialTxInput`: the literal scriptSig when set, `''` for coinbase,
else the type-directed template; an unrecognized `script_type` raises
`UnknownTxinType`, and an out-of-range `sig_list[0]`/`pubkeys[0]` access
is an `IndexError`. -/
def input_script (txin : PartialTxInput) : Except Err Bytes :=
  match txin.script_sig with
  | some s => .ok s
  | none =>
    if txin.is_coinbase_input then .ok []
    else
      let (pubkeys, sig_list) := get_siglist txin
      if txin.script_type = "p2pk" then
        match sig_list.head? with
        | some sig => .ok (push_data sig)
        | none => .error .generic
      else if txin.script_type = "p2sh" then do
        let redeem ← multisig_script pubkeys txin.num_sig
        .ok (opNum 0 ++ (sig_list.map push_data).flatten ++ push_data redeem)
      else if txin.script_type = "p2pkh" then
        match sig_list.head?, pubkeys.head? with
        | some sig, some pk => .ok (push_data sig ++ push_data pk)
        | _, _ => .error .generic
      else .error .unknownTxinType

/-- `Transaction.get_preimage_script` (lines 722–737): a truthy redeem
script is used directly after the `OP_CODESEPARATOR` scan; otherwise the
template is rebuilt from `script_type` and the pubkeys. -/
def get_preimage_script (H : HashModel) (txin : PartialTxInput) :
    Except Err Bytes :=
  if optTruthy txin.redeem_script then do
    let ops ← script_GetOp_list (txin.redeem_script.getD [])
    if (ops.map Prod.fst).contains OP_CODESEPARATOR then .error .generic
    else .ok (txin.redeem_script.getD [])
  else if txin.script_type = "p2sh" then
    multisig_script txin.pubkeys txin.num_sig
  else if txin.script_type = "p2pkh" then
    match txin.pubkeys.head? with
    | some pk => .ok (pubkeyhash_to_p2pkh_script (H.hash_160 pk))
    | none => .error .generic
  else if txin.script_type = "p2pk" then
    match txin.pubkeys.head? with
    | some pk => .ok (public_key_to_p2pk_script pk)
    | none => .error .generic
  else .error .unknownTxinType

/-- The `clear_fields_when_finalized` closure of `finalize` (lines
1303–1308). -/
def PartialTxInput.clear_when_finalized (txin : PartialTxInput) :
    PartialTxInput :=
  { txin with part_sigs := [], sighash := none, bip32_paths := []
              redeem_script := none }

/-- `PartialTxInput.finalize` (lines 1302–1316): an input that already has
a scriptSig only clears the transient fields; a Complete input first gets
its scriptSig built from the accumulated signatures; any other input is
untouched. -/
def PartialTxInput.finalize (txin : PartialTxInput) :
    Except Err PartialTxInput :=
  if txin.script_sig.isSome then .ok txin.clear_when_finalized
  else if txin.is_complete then do
    let s ← input_script txin
    .ok { txin.clear_when_finalized with script_sig := some s }
  else .ok txin

/-!
## PSBT transaction behavior (transaction.py lines 828–842, 1547–1660,
1743–1744, 1883–1888)
-/

/-- `Transaction.serialize_to_network` (lines 763–823) on a
`PartialTransaction`, `estimate_size=False`: scriptSigs are built by
`input_script` when `include_sigs`, else empty. -/
def serialize_to_network_psbt (tx : PartialTx) (include_sigs : Bool) :
    Except Err Bytes := do
  let txins ← mapMSer
    (fun txin => do
      let script ← if include_sigs then input_script txin else .ok []
      serialize_input txin.toTxInput script)
    tx.inputs
  let txouts ← mapMSer
    (fun o => serialize_txout o.toTxOutput) tx.outputs
  serialize_envelope tx.core (var_int tx.inputs.length ++ txins)
    (var_int tx.outputs.length ++ txouts)

/-- `PartialTransaction.is_complete` (lines 1743–1744). -/
def PartialTx.is_complete (tx : PartialTx) : Bool :=
  tx.inputs.all PartialTxInput.is_complete

/-- `Transaction.txid` (lines 831–842) for a plain parsed transaction:
`Transaction.is_complete` is constantly true, serialization failures of
kind `UnknownTxinType` yield `None`, and otherwise the txid is the
byte-reversed double-SHA256 of the wire serialization. -/
def txid_plain (H : HashModel) (tx : TxData) : Except Err (Option Bytes) :=
  match serialize_to_network_plain tx true with
  | .ok ser => .ok (some ((H.sha256d ser).reverse))
  | .error .unknownTxinType => .ok none
  | .error e => .error e

/-- `Transaction.txid` (lines 831–842) on a `PartialTransaction`:
`None` when some input is not Complete, or when a scriptSig cannot be
constructed (`UnknownTxinType`). -/
def PartialTx.txid (H : HashModel) (tx : PartialTx) :
    Except Err (Option Bytes) :=
  if tx.is_complete then
    match serialize_to_network_psbt tx true with
    | .ok ser => .ok (some ((H.sha256d ser).reverse))
    | .error .unknownTxinType => .ok none
    | .error e => .error e
  else .ok none

/-- `PartialTransaction.input_value` (lines 1648–1652):
`MissingTxInputAmount` as soon as some input's funding value is
unknown. -/
def PartialTx.input_value (tx : PartialTx) : Except Err Int := do
  let vals ← tx.inputs.mapM PartialTxInput.value_sats
  if vals.contains none then .error .missingTxInputAmount
  else .ok ((vals.map (fun v => v.getD 0)).foldr (· + ·) 0)

/-- `PartialTransaction.serialize_preimage` (lines 1663–1707): the ZIP243
digest input for the Overwintered case, the classic
one-scriptSig-substituted serialization for legacy.  The funding value of
the signed input goes through `int_to_hex`, which needs an integer: a
missing value is a `TypeError` (modelled from the spec's description of
`bitcoin.int_to_hex`), not `MissingTxInputAmount`. -/
def serialize_preimage (H : HashModel) (tx : PartialTx) (txin_index : Nat) :
    Except Err Bytes := do
  let nLocktime ← liftOpt .overflow (int_to_bytes tx.locktime 4)
  let txin ← match tx.inputs.get? txin_index with
    | some t => .ok t
    | none => .error .generic
  let preimage_script ← get_preimage_script H txin
  let sighash := txin.sighash.getD SIGHASH_ALL
  if sighash ≠ SIGHASH_ALL then .error .generic
  else do
    let nHashType ← liftOpt .overflow (int_to_bytes sighash 4)
    if tx.overwintered then do
      let nHeader ← liftOpt .overflow
        (int_to_bytes (0x80000000 ||| tx.version : Nat) 4)
      let nVersionGroupId ← liftOpt .overflow (int_to_bytes tx.versionGroupId 4)
      let s_prevouts ← mapMSer (fun txi => serialize_outpoint txi.prevout)
        tx.inputs
      let hashPrevouts := H.blake2b_256 (strBytes "ZcashPrevoutHash") s_prevouts
      let s_sequences ← mapMSer
        (fun txi => liftOpt .overflow (int_to_bytes txi.nsequence 4)) tx.inputs
      let hashSequence := H.blake2b_256 (strBytes "ZcashSequencHash") s_sequences
      let s_outputs ← mapMSer (fun o => serialize_txout o.toTxOutput) tx.outputs
      let hashOutputs := H.blake2b_256 (strBytes "ZcashOutputsHash") s_outputs
      let nExpiryHeight ← liftOpt .overflow (int_to_bytes tx.expiryHeight 4)
      let nValueBalance ← liftOpt .overflow (int_to_bytes tx.valueBalance 8)
      let scriptCode := var_int preimage_script.length ++ preimage_script
      let po ← serialize_outpoint txin.prevout
      let vopt ← txin.value_sats
      let v ← match vopt with
        | some v => .ok v
        | none => .error .typeError
      let vbytes ← liftOpt .overflow (int_to_bytes v 8)
      let seqb ← liftOpt .overflow (int_to_bytes txin.nsequence 4)
      .ok (nHeader ++ nVersionGroupId ++ hashPrevouts ++ hashSequence ++
        hashOutputs ++ List.replicate 32 0 ++ List.replicate 32 0 ++
        List.replicate 32 0 ++ nLocktime ++ nExpiryHeight ++ nValueBalance ++
        nHashType ++ po ++ scriptCode ++ vbytes ++ seqb)
    else do
      let nVersion ← liftOpt .overflow (int_to_bytes tx.version 4)
      let txins ← mapMSer
        (fun (p : Nat × PartialTxInput) =>
          serialize_input p.2.toTxInput
            (if p.1 = txin_index then preimage_script else []))
        tx.inputs.enum
      let txouts ← mapMSer (fun o => serialize_txout o.toTxOutput) tx.outputs
      .ok (nVersion ++ var_int tx.inputs.length ++ txins ++
        var_int tx.outputs.length ++ txouts ++ nLocktime ++ nHashType)

/-!
## PSBT key-value emission (transaction.py lines 1047–1105, 1226–1242,
1393–1401)

A `wr(key_type, val, key)` call of the PSBT writer emits the full key
`var_int(key_type) ++ key` followed by the value; the section is modelled
as the list of (full key, value) pairs in emission order.
-/

/-- `PSBTSection.get_fullkey_from_keytype_and_key` (lines 1090–1092). -/
def full_key (key_type : Nat) (key : Bytes) : Bytes :=
  var_int key_type ++ key

/-- `PSBTSection.get_keytype_and_key_from_fullkey` (lines 1083–1088): the
compact-size key type, the remainder as key; a truncated prefix fails
(`UnexpectedEndOfStream`, here the same serialization error kind as the
other low-level decode failures). -/
def get_keytype_and_key_from_fullkey (k : Bytes) : Except Err (Nat × Bytes) :=
  read_compact_size k

/-- `pack_bip32_root_fingerprint_and_int_path` (lines 1898–1901): the
4-byte root fingerprint then each path element as 4 little-endian bytes
(`int.to_bytes` raises `OverflowError` past 32 bits). -/
def pack_bip32_root_fingerprint_and_int_path (xfp : Bytes) (path : List Nat) :
    Except Err Bytes :=
  if xfp.length = 4 then
    if path.all (· < 2 ^ 32) then
      .ok (xfp ++ (path.map (fun i => natToLE i 4)).flatten)
    else .error .overflow
  else .error .generic

/-- `sorted(...)` over an association list with byte-string keys and
arbitrary values (`for k in sorted(self.bip32_paths)`). -/
def sortByKey {β : Type} (l : List (Bytes × β)) : List (Bytes × β) :=
  List.insertionSort (fun p q => bytesLe p.1 q.1 = true) l

instance {β : Type} : DecidableRel (fun (p q : Bytes × β) => bytesLe p.1 q.1 = true) :=
  fun _ _ => inferInstance

instance {β : Type} : IsTotal (Bytes × β) (fun p q => bytesLe p.1 q.1 = true) :=
  ⟨fun p q => bytesLe_total p.1 q.1⟩

instance {β : Type} : IsTrans (Bytes × β) (fun p q => bytesLe p.1 q.1 = true) :=
  ⟨fun _ _ _ h1 h2 => bytesLe_trans h1 h2⟩

theorem sortByKey_sorted {β : Type} (l : List (Bytes × β)) :
    List.Sorted (fun p q => bytesLe p.1 q.1 = true) (sortByKey l) :=
  List.sorted_insertionSort _ l

theorem sortByKey_perm {β : Type} (l : List (Bytes × β)) :
    (sortByKey l).Perm l :=
  List.perm_insertionSort _ l

/-- The `if self.x is not None: wr(key_type, self.x)` pattern shared by
the optional single-entry fields of a PSBT section. -/
def opt_kv (c : Nat) (o : Option Bytes) : List (Bytes × Bytes) :=
  match o with
  | some b => [(full_key c [], b)]
  | none => []

/-- The `if self.utxo: wr(NON_WITNESS_UTXO, ...)` entry: the embedded
funding transaction serialized with signatures. -/
def utxo_kvs (o : Option TxData) : Except Err (List (Bytes × Bytes)) :=
  match o with
  | some u => do
    let ser ← serialize_to_network_plain u true
    pure [(full_key 0 [], ser)]
  | none => pure []

/-- The `if self.sighash is not None: wr(SIGHASH_TYPE, pack('<I', ...))`
entry (`struct.pack` fails past 32 bits). -/
def sighash_kvs (o : Option Nat) : Except Err (List (Bytes × Bytes)) :=
  match o with
  | some sh =>
    if sh < 2 ^ 32 then pure [(full_key 3 [], natToLE sh 4)]
    else .error .generic
  | none => pure []

/-- `PartialTxInput.serialize_psbt_section_kvs` (lines 1226–1242): the
emission order is UTXO (type 0), partial signatures (type 2, sorted by
pubkey), sighash (3), redeem script (4), BIP32 derivations (6, sorted by
pubkey), final scriptSig (7), then the unknown-field bag sorted by its
stored full keys. -/
def serialize_psbt_input_kvs (txin : PartialTxInput) :
    Except Err (List (Bytes × Bytes)) := do
  let utxoKvs ← utxo_kvs txin.utxo
  let sigKvs := (sortPairs txin.part_sigs).map
    (fun p => (full_key 2 p.1, p.2))
  let shKvs ← sighash_kvs txin.sighash
  let rsKvs := opt_kv 4 txin.redeem_script
  let bipKvs ← (sortByKey txin.bip32_paths).mapM (fun p => do
    let packed ← pack_bip32_root_fingerprint_and_int_path p.2.1 p.2.2
    pure (full_key 6 p.1, packed))
  let fsKvs := opt_kv 7 txin.script_sig
  let unkKvs ← (sortPairs txin.unknown).mapM (fun p => do
    let kk ← get_keytype_and_key_from_fullkey p.1
    pure (full_key kk.1 kk.2, p.2))
  pure (utxoKvs ++ sigKvs ++ shKvs ++ rsKvs ++ bipKvs ++ fsKvs ++ unkKvs)

/-- `PartialTxOutput.serialize_psbt_section_kvs` (lines 1393–1401): redeem
script (type 0), BIP32 derivations (type 2, sorted by pubkey), then the
unknown-field bag sorted by full key. -/
def serialize_psbt_output_kvs (o : PartialTxOutput) :
    Except Err (List (Bytes × Bytes)) := do
  let rsKvs := opt_kv 0 o.redeem_script
  let bipKvs ← (sortByKey o.bip32_paths).mapM (fun p => do
    let packed ← pack_bip32_root_fingerprint_and_int_path p.2.1 p.2.2
    pure (full_key 2 p.1, packed))
  let unkKvs ← (sortPairs o.unknown).mapM (fun p => do
    let kk ← get_keytype_and_key_from_fullkey p.1
    pure (full_key kk.1 kk.2, p.2))
  pure (rsKvs ++ bipKvs ++ unkKvs)

/-- The emitted entries of a PSBT section are in sorted full-key order. -/
def kvsSorted (l : List (Bytes × Bytes)) : Prop :=
  List.Sorted (fun p q => bytesLe p.1 q.1 = true) l

instance (l : List (Bytes × Bytes)) : Decidable (kvsSorted l) :=
  List.instDecidablePairwise l

/-!
## BIP69 sorting and joining (transaction.py lines 1547–1646, 1883–1888)
-/

/-- The input sort key of `BIP69_sort`: the pair
`(prevout.txid, prevout.out_idx)` in Python tuple order. -/
def inputLe (a b : PartialTxInput) : Prop :=
  bytesLe a.prevout.txid b.prevout.txid = true ∧
    (a.prevout.txid = b.prevout.txid → a.prevout.out_idx ≤ b.prevout.out_idx)

/-- The output sort key of `BIP69_sort`: the pair
`(value, scriptpubkey)` in Python tuple order. -/
def outputLe (a b : PartialTxOutput) : Prop :=
  a.value ≤ b.value ∧
    (a.value = b.value → bytesLe a.scriptpubkey b.scriptpubkey = true)

instance : DecidableRel inputLe := fun a b => by
  unfold inputLe; infer_instance

instance : DecidableRel outputLe := fun a b => by
  unfold outputLe; infer_instance

theorem bytesLe_refl (a : Bytes) : bytesLe a a = true := by
  induction a with
  | nil => rfl
  | cons x xs ih => simp [bytesLe, Nat.lt_irrefl, ih]

instance : IsTotal PartialTxInput inputLe := by
  constructor
  intro a b
  rcases bytesLe_total a.prevout.txid b.prevout.txid with h | h
  · by_cases he : a.prevout.txid = b.prevout.txid
    · rcases Nat.le_total a.prevout.out_idx b.prevout.out_idx with hn | hn
      · exact Or.inl ⟨h, fun _ => hn⟩
      · exact Or.inr ⟨he ▸ bytesLe_refl _, fun _ => hn⟩
    · rcases bytesLe_total b.prevout.txid a.prevout.txid with h2 | h2
      · by_cases he2 : b.prevout.txid = a.prevout.txid
        · exact absurd he2.symm he
        · exact Or.inl ⟨h, fun hx => absurd hx he⟩
      · exact Or.inl ⟨h, fun hx => absurd hx he⟩
  · by_cases he : b.prevout.txid = a.prevout.txid
    · rcases Nat.le_total a.prevout.out_idx b.prevout.out_idx with hn | hn
      · exact Or.inl ⟨he ▸ bytesLe_refl _, fun _ => hn⟩
      · exact Or.inr ⟨h, fun _ => hn⟩
    · exact Or.inr ⟨h, fun hx => absurd hx he⟩

instance : IsTrans PartialTxInput inputLe := by
  constructor
  rintro a b c ⟨h1, h1e⟩ ⟨h2, h2e⟩
  refine ⟨bytesLe_trans h1 h2, fun hac => ?_⟩
  have hab : a.prevout.txid = b.prevout.txid :=
    bytesLe_antisymm h1 (hac ▸ h2)
  exact Nat.le_trans (h1e hab) (h2e (hab ▸ hac))

instance : IsTotal PartialTxOutput outputLe := by
  constructor
  intro a b
  rcases Int.le_total a.value b.value with h | h
  · by_cases he : a.value = b.value
    · rcases bytesLe_total a.scriptpubkey b.scriptpubkey with hs | hs
      · exact Or.inl ⟨h, fun _ => hs⟩
      · exact Or.inr ⟨le_of_eq he.symm, fun _ => hs⟩
    · exact Or.inl ⟨h, fun hx => absurd hx he⟩
  · by_cases he : b.value = a.value
    · rcases bytesLe_total a.scriptpubkey b.scriptpubkey with hs | hs
      · exact Or.inl ⟨le_of_eq he.symm, fun _ => hs⟩
      · exact Or.inr ⟨h, fun _ => hs⟩
    · exact Or.inr ⟨h, fun hx => absurd hx he⟩

instance : IsTrans PartialTxOutput outputLe := by
  constructor
  rintro a b c ⟨h1, h1e⟩ ⟨h2, h2e⟩
  refine ⟨le_trans h1 h2, fun hac => ?_⟩
  have hab : a.value = b.value := le_antisymm h1 (hac ▸ h2)
  exact bytesLe_trans (h1e hab) (h2e (hab ▸ hac))

/-- `PartialTransaction.BIP69_sort` (lines 1640–1646) on the inputs. -/
def PartialTx.BIP69_sort_inputs (tx : PartialTx) : PartialTx :=
  { tx with inputs := List.insertionSort inputLe tx.inputs }

/-- `PartialTransaction.BIP69_sort` (lines 1640–1646) on the outputs. -/
def PartialTx.BIP69_sort_outputs (tx : PartialTx) : PartialTx :=
  { tx with outputs := List.insertionSort outputLe tx.outputs }

/-- `PartialTransaction.BIP69_sort` with both defaults. -/
def PartialTx.BIP69_sort (tx : PartialTx) : PartialTx :=
  tx.BIP69_sort_inputs.BIP69_sort_outputs

/-- `PartialTransaction.from_io` (lines 1547–1558): install the given
inputs/outputs (with optional locktime/version overrides) and BIP69-sort
both lists. -/
def PartialTx.from_io (ins : List PartialTxInput) (outs : List PartialTxOutput)
    (locktime : Option Nat) (version : Option Nat) : PartialTx :=
  PartialTx.BIP69_sort
    { PartialTx.empty with
        inputs := ins
        outputs := outs
        locktime := locktime.getD PartialTx.empty.locktime
        version := version.getD PartialTx.empty.version }

/-- `PartialTransaction.add_inputs` (lines 1630–1633): extend, then
BIP69-sort the inputs only. -/
def PartialTx.add_inputs (tx : PartialTx) (ins : List PartialTxInput) :
    PartialTx :=
  PartialTx.BIP69_sort_inputs { tx with inputs := tx.inputs ++ ins }

/-- `PartialTransaction.add_outputs` (lines 1635–1638): extend, then
BIP69-sort the outputs only. -/
def PartialTx.add_outputs (tx : PartialTx) (outs : List PartialTxOutput) :
    PartialTx :=
  PartialTx.BIP69_sort_outputs { tx with outputs := tx.outputs ++ outs }

/-- The per-input effect of `remove_signatures` (lines 1883–1888). -/
def stripSigs (t : PartialTxInput) : PartialTxInput :=
  { t with part_sigs := [], script_sig := none }

/-- `PartialTransaction.remove_signatures` (lines 1883–1888): drop all
partial signatures and scriptSigs; the trailing
`assert not self.is_complete()` fails (`AssertionError`) when the stripped
transaction is still complete — notably when the input list is empty or
every input is a coinbase. -/
def PartialTx.remove_signatures (tx : PartialTx) : Except Err PartialTx :=
  let tx' := { tx with inputs := tx.inputs.map stripSigs }
  if tx'.is_complete then .error .generic else .ok tx'

/-- Python `dict.update`: existing keys keep their position with the new
value, new keys are appended. -/
def dictUpdate (a b : List (Bytes × Bytes)) : List (Bytes × Bytes) :=
  a.map (fun p => (p.1, (b.lookup p.1).getD p.2)) ++
    b.filter (fun q => ! (a.map Prod.fst).contains q.1)

/-- `PartialTransaction.join_with_other_psbt` (lines 1603–1622): fail on a
prevout occurring twice across both input lists (`prevout.to_str` is
injective on prevouts), merge the global section, append and BIP69-sort
the inputs and outputs, then `remove_signatures`. -/
def PartialTx.join_with_other_psbt (tx other : PartialTx) :
    Except Err PartialTx :=
  if ((tx.inputs ++ other.inputs).map (fun t => t.prevout)).Nodup then
    ((({ tx with
          xpubs := dictUpdate tx.xpubs other.xpubs
          unknown := dictUpdate tx.unknown other.unknown
       }).add_inputs other.inputs).add_outputs other.outputs).remove_signatures
  else .error .generic

/-!
### Helper lemmas for the PSBT claims
-/

/-- The computation does not fail with `UnknownTxinType`. -/
def notUTE {α : Type} (r : Except Err α) : Prop := r ≠ .error .unknownTxinType

theorem notUTE_bind {α β : Type} {x : Except Err α} {f : α → Except Err β}
    (hx : notUTE x) (hf : ∀ a, notUTE (f a)) : notUTE (x >>= f) := by
  intro h
  rw [except_bind_err] at h
  rcases h with h | ⟨a, _, h2⟩
  · exact hx h
  · exact hf a h2

theorem notUTE_liftOpt {α : Type} (o : Option α) :
    notUTE (liftOpt .overflow o) := by
  cases o <;> simp [liftOpt, notUTE]

theorem notUTE_reqBytes_typeError (o : Option Bytes) : notUTE (reqBytes o) := by
  cases o <;> simp [reqBytes, notUTE]

theorem notUTE_ite {α : Type} {c : Prop} [Decidable c] {x y : Except Err α}
    (hx : notUTE x) (hy : notUTE y) : notUTE (if c then x else y) := by
  split <;> assumption

theorem notUTE_branch_bind {c : Prop} [Decidable c] {o : Option Bytes}
    {f : Bytes → Except Err Bytes} (hf : ∀ a, notUTE (f a)) :
    notUTE (if c then reqBytes o >>= f else Except.ok [] >>= f) := by
  split
  · exact notUTE_bind (notUTE_reqBytes_typeError o) hf
  · exact notUTE_bind (by simp [notUTE]) hf



theorem notUTE_serialize_outpoint (p : TxOutpoint) :
    notUTE (serialize_outpoint p) := by
  unfold serialize_outpoint
  exact notUTE_bind (notUTE_liftOpt _) (fun a => by simp [notUTE])

theorem notUTE_serialize_input (txin : TxInput) (script : Bytes) :
    notUTE (serialize_input txin script) := by
  unfold serialize_input
  refine notUTE_bind (notUTE_serialize_outpoint _) (fun a => ?_)
  exact notUTE_bind (notUTE_liftOpt _) (fun b => by simp [notUTE])

theorem notUTE_serialize_txout (o : TxOutput) : notUTE (serialize_txout o) := by
  unfold serialize_txout
  split <;> simp [notUTE]

theorem notUTE_mapMSer {α : Type} {f : α → Except Err Bytes} {l : List α}
    (h : ∀ x ∈ l, notUTE (f x)) : notUTE (mapMSer f l) := by
  induction l with
  | nil => simp [mapMSer, notUTE]
  | cons x xs ih =>
    simp only [mapMSer]
    refine notUTE_bind (h x (List.mem_cons_self x xs)) (fun a => ?_)
    refine notUTE_bind (ih (fun y hy => h y (List.mem_cons_of_mem x hy))) (fun b => ?_)
    simp [notUTE]

theorem notUTE_ser_ow_tail (version : Nat) (t : OwTail) :
    notUTE (ser_ow_tail version t) := by
  unfold ser_ow_tail
  refine notUTE_bind (notUTE_liftOpt _) (fun e => ?_)
  dsimp only
  split
  · refine notUTE_bind (notUTE_liftOpt _) (fun vb => ?_)
    dsimp only
    refine notUTE_branch_bind (fun bs => ?_)
    refine notUTE_branch_bind (fun jpk => ?_)
    refine notUTE_branch_bind (fun jsig => ?_)
    simp [notUTE]
  · refine notUTE_branch_bind (fun jpk => ?_)
    refine notUTE_branch_bind (fun jsig => ?_)
    simp [notUTE]

theorem notUTE_serialize_envelope (tx : TxData) (txins txouts : Bytes) :
    notUTE (serialize_envelope tx txins txouts) := by
  unfold serialize_envelope
  refine notUTE_bind (notUTE_liftOpt _) (fun lk => ?_)
  split
  · refine notUTE_bind (notUTE_liftOpt _) (fun v => ?_)
    refine notUTE_bind (notUTE_liftOpt _) (fun g => ?_)
    refine notUTE_bind (notUTE_ser_ow_tail _ _) (fun t => ?_)
    simp [notUTE]
  · refine notUTE_bind (notUTE_liftOpt _) (fun v => ?_)
    simp [notUTE]

theorem notUTE_input_script_plain (txin : TxInput) :
    notUTE (input_script_plain txin) := by
  unfold input_script_plain
  cases txin.script_sig
  · dsimp only
    split <;> simp [notUTE]
  · simp [notUTE]

/-- A Complete PSBT input always admits a scriptSig: the `UnknownTxinType`
branch of `input_script` needs an unrecognized script type, which
`is_complete` rules out. -/
theorem notUTE_input_script {txin : PartialTxInput}
    (hc : txin.is_complete = true) : notUTE (input_script txin) := by
  unfold input_script
  cases hss : txin.script_sig with
  | some s => simp [notUTE]
  | none =>
    dsimp only
    by_cases hcb : txin.is_coinbase_input
    · rw [if_pos hcb]
      simp [notUTE]
    · rw [if_neg hcb]
      unfold PartialTxInput.is_complete at hc
      rw [if_neg hcb] at hc
      rw [hss] at hc
      simp only [Option.isSome_none, Bool.false_eq_true, if_false] at hc
      by_cases h1 : txin.script_type = "p2pk"
      · rw [if_pos h1]
        cases (get_siglist txin).2.head? <;> simp [notUTE]
      · rw [if_neg h1]
        by_cases h2 : txin.script_type = "p2sh"
        · rw [if_pos h2]
          refine notUTE_bind ?_ (fun r => by simp [notUTE])
          unfold multisig_script
          dsimp only
          exact notUTE_ite (by simp [notUTE]) (by simp [notUTE])
        · rw [if_neg h2]
          by_cases h3 : txin.script_type = "p2pkh"
          · rw [if_pos h3]
            cases (get_siglist txin).2.head? <;>
              cases (get_siglist txin).1.head? <;> simp [notUTE]
          · exfalso
            rw [if_neg (by simp [h1, h3]), if_neg h2] at hc
            simp at hc

theorem notUTE_serialize_to_network_plain (tx : TxData) (include_sigs : Bool) :
    notUTE (serialize_to_network_plain tx include_sigs) := by
  unfold serialize_to_network_plain
  refine notUTE_bind (notUTE_mapMSer (fun x _ => ?_)) (fun txins => ?_)
  · refine notUTE_bind ?_ (fun s => notUTE_serialize_input _ _)
    cases include_sigs
    · simp [create_script_sig_plain, notUTE]
    · exact notUTE_input_script_plain x
  · refine notUTE_bind (notUTE_mapMSer (fun x _ => notUTE_serialize_txout x))
      (fun txouts => ?_)
    exact notUTE_serialize_envelope _ _ _

/-- A Complete partial transaction's wire serialization never fails with
`UnknownTxinType`. -/
theorem notUTE_serialize_to_network_psbt {tx : PartialTx}
    (hc : tx.is_complete = true) :
    notUTE (serialize_to_network_psbt tx true) := by
  unfold serialize_to_network_psbt
  unfold PartialTx.is_complete at hc
  rw [List.all_eq_true] at hc
  refine notUTE_bind (notUTE_mapMSer (fun x hx => ?_)) (fun txins => ?_)
  · refine notUTE_bind ?_ (fun s => notUTE_serialize_input _ _)
    exact notUTE_input_script (hc x hx)
  · refine notUTE_bind (notUTE_mapMSer (fun x _ => notUTE_serialize_txout _))
      (fun txouts => ?_)
    exact notUTE_serialize_envelope _ _ _

/-- `all` is invariant under permutation. -/
theorem perm_all_eq {α : Type} {l l' : List α} (h : l.Perm l') (p : α → Bool) :
    l.all p = l'.all p := by
  cases hl : l'.all p with
  | true =>
    rw [List.all_eq_true] at hl ⊢
    exact fun x hx => hl x (h.mem_iff.mp hx)
  | false =>
    cases hx : l.all p with
    | false => rfl
    | true =>
      rw [List.all_eq_true] at hx
      have h2 : l'.all p = true :=
        List.all_eq_true.mpr (fun x hmem => hx x (h.mem_iff.mpr hmem))
      rw [h2] at hl
      exact hl

/-- Membership in a successful `mapM` run comes from a member of the
source list. -/
theorem mapM_ok_mem {α β : Type} {f : α → Except Err β} {l : List α}
    {r : List β} (h : l.mapM f = .ok r) :
    ∀ y ∈ r, ∃ x ∈ l, f x = .ok y := by
  induction l generalizing r with
  | nil =>
    simp only [List.mapM_nil, pure, Except.pure, Except.ok.injEq] at h
    subst h
    intro y hy
    cases hy
  | cons x xs ih =>
    rw [List.mapM_cons] at h
    rw [except_bind_ok] at h
    obtain ⟨b, hb, h⟩ := h
    rw [except_bind_ok] at h
    obtain ⟨bs, hbs, h⟩ := h
    simp only [pure, Except.pure, Except.ok.injEq] at h
    subst h
    intro y hy
    rcases List.mem_cons.mp hy with rfl | hy2
    · exact ⟨x, List.mem_cons_self x xs, hb⟩
    · obtain ⟨x2, hx2, hfx2⟩ := ih hbs y hy2
      exact ⟨x2, List.mem_cons_of_mem x hx2, hfx2⟩

/-- A `Pairwise` relation survives a successful `mapM` when `f` maps it
forward. -/
theorem mapM_pairwise {α β : Type} {f : α → Except Err β} {l : List α}
    {r : List β} {R : α → α → Prop} {S : β → β → Prop}
    (hmap : ∀ x y a b, R x y → f x = .ok a → f y = .ok b → S a b)
    (hl : List.Pairwise R l) (h : l.mapM f = .ok r) : List.Pairwise S r := by
  induction l generalizing r with
  | nil =>
    simp only [List.mapM_nil, pure, Except.pure, Except.ok.injEq] at h
    subst h
    exact List.Pairwise.nil
  | cons x xs ih =>
    rw [List.mapM_cons] at h
    rw [except_bind_ok] at h
    obtain ⟨b, hb, h⟩ := h
    rw [except_bind_ok] at h
    obtain ⟨bs, hbs, h⟩ := h
    simp only [pure, Except.pure, Except.ok.injEq] at h
    subst h
    rcases List.pairwise_cons.mp hl with ⟨hx, hxs⟩
    refine List.pairwise_cons.mpr ⟨?_, ih hxs hbs⟩
    intro y hy
    obtain ⟨x2, hx2, hfx2⟩ := mapM_ok_mem hbs y hy
    exact hmap x x2 b y (hx x2 hx2) hb hfx2

/-!
## Claim C7
-/

/-- C7: `finalize()` frame effects — for an input that is Complete or
already carries a scriptSig, the transient PSBT fields (`part_sigs`,
`sighash`, `bip32_paths`, `redeem_script`) are cleared while the UTXO, the
unknown-field bag, the prevout and the sequence number are untouched; a
pre-existing scriptSig is kept; a Complete input without one receives the
scriptSig built from its accumulated signatures; any other input is left
entirely unchanged. -/
theorem C7_finalize_frame {txin txin' : PartialTxInput}
    (h : txin.finalize = .ok txin') :
    (txin.script_sig.isSome = true ∨ txin.is_complete = true →
      txin'.part_sigs = [] ∧ txin'.sighash = none ∧ txin'.bip32_paths = [] ∧
      txin'.redeem_script = none ∧ txin'.utxo = txin.utxo ∧
      txin'.unknown = txin.unknown ∧ txin'.prevout = txin.prevout ∧
      txin'.nsequence = txin.nsequence) ∧
    (txin.script_sig.isSome = true → txin'.script_sig = txin.script_sig) ∧
    (txin.script_sig = none → txin.is_complete = true →
      ∃ s, input_script txin = .ok s ∧ txin'.script_sig = some s) ∧
    (txin.script_sig = none → txin.is_complete = false → txin' = txin) := by
  unfold PartialTxInput.finalize at h
  split at h
  · case _ hss =>
    simp only [Except.ok.injEq] at h
    subst h
    exact ⟨fun _ => ⟨rfl, rfl, rfl, rfl, rfl, rfl, rfl, rfl⟩, fun _ => rfl,
      fun hn => absurd hss (by simp [hn]),
      fun hn _ => absurd hss (by simp [hn])⟩
  · case _ hss =>
    split at h
    · case _ hcm =>
      rw [except_bind_ok] at h
      obtain ⟨s, hs, h⟩ := h
      simp only [Except.ok.injEq] at h
      subst h
      exact ⟨fun _ => ⟨rfl, rfl, rfl, rfl, rfl, rfl, rfl, rfl⟩,
        fun habs => absurd habs hss,
        fun _ _ => ⟨s, hs, rfl⟩,
        fun _ hnc => absurd hcm (by simp [hnc])⟩
    · case _ hcm =>
      simp only [Except.ok.injEq] at h
      subst h
      exact ⟨fun hd => hd.elim (fun habs => absurd habs hss)
          (fun habs => absurd habs hcm),
        fun habs => absurd habs hss,
        fun _ habs => absurd habs hcm,
        fun _ _ => rfl⟩

/-- A coinbase input with pending transient fields, for the C7 witness. -/
def c7in : PartialTxInput :=
  { PartialTxInput.fresh { txid := List.replicate 32 0, out_idx := 0 } with
      part_sigs := [([5], [6])], sighash := some 1, redeem_script := some [1] }

/-- `c7in` after `finalize()`. -/
def c7out : PartialTxInput :=
  { c7in with part_sigs := [], sighash := none, redeem_script := none
              script_sig := some [] }

/-- Witness for C7 at a Complete (coinbase) input: the transient fields
are cleared, the empty scriptSig is installed, and the UTXO/unknown-bag
frame is preserved. -/
theorem C7_finalize_frame_witness :
    c7out.part_sigs = [] ∧ c7out.sighash = none ∧
      c7out.utxo = c7in.utxo ∧ c7out.unknown = c7in.unknown ∧
      input_script c7in = .ok [] ∧ c7out.script_sig = some [] := by
  have h := @C7_finalize_frame c7in c7out (by rfl)
  obtain ⟨hframe, -, hset, -⟩ := h
  obtain ⟨h1, h2, -, -, h5, h6, -, -⟩ := hframe (Or.inr (by decide))
  obtain ⟨s, hscript, hss⟩ := hset (by decide) (by decide)
  have hsnil : s = [] := by
    have : Except.ok (ε := Err) s = .ok [] := by
      rw [← hscript]; rfl
    simpa using this
  exact ⟨h1, h2, h5, h6, hsnil ▸ hscript, hsnil ▸ hss⟩

/-!
## Claim C9
-/

theorem liftOpt_some {α : Type} (e : Err) (a : α) : liftOpt e (some a) = .ok a :=
  rfl

theorem error_bind {α β : Type} (e : Err) (f : α → Except Err β) :
    (Except.error e >>= f) = Except.error e := rfl

theorem ok_sighash_bytes :
    liftOpt Err.overflow (int_to_bytes (SIGHASH_ALL : Nat) 4) =
      .ok [1, 0, 0, 0] := rfl

/-- An opaque stand-in for the hash primitives, used to instantiate the
hash-parametric theorems at concrete inputs. -/
def dummyHash : HashModel :=
  { blake2b_256 := fun _ _ => List.replicate 32 0
    sha256d := fun _ => List.replicate 32 0
    hash_160 := fun _ => List.replicate 20 0 }

/-- C9 (amended): when input `i` of an Overwintered partial transaction
reaches the funding-value step of `serialize_preimage` with an unknown
value (`value_sats()` returns `None`), the failure is the `TypeError` from
`int_to_hex(None, 8)` — not `MissingTxInputAmount`; `MissingTxInputAmount`
is what `input_value` raises when some input's funding value is
unknown. -/
theorem C9_missing_value_failure (H : HashModel) {tx : PartialTx} {i : Nat}
    {txin : PartialTxInput} {lkB hdB gidB pvB sqB obB exB vbB poB ps : Bytes}
    (hlk : int_to_bytes tx.locktime 4 = some lkB)
    (hget : tx.inputs.get? i = some txin)
    (hps : get_preimage_script H txin = .ok ps)
    (hsh : txin.sighash.getD SIGHASH_ALL = SIGHASH_ALL)
    (hov : tx.overwintered = true)
    (hhd : int_to_bytes (0x80000000 ||| tx.version : Nat) 4 = some hdB)
    (hgid : int_to_bytes tx.versionGroupId 4 = some gidB)
    (hpv : mapMSer (fun txi => serialize_outpoint txi.prevout) tx.inputs =
      .ok pvB)
    (hsq : mapMSer (fun txi => liftOpt .overflow (int_to_bytes txi.nsequence 4))
      tx.inputs = .ok sqB)
    (hob : mapMSer (fun o => serialize_txout o.toTxOutput) tx.outputs = .ok obB)
    (hex : int_to_bytes tx.expiryHeight 4 = some exB)
    (hvb : int_to_bytes tx.valueBalance 8 = some vbB)
    (hpo : serialize_outpoint txin.prevout = .ok poB)
    (hval : txin.value_sats = .ok none) :
    serialize_preimage H tx i = .error .typeError ∧
      ∀ vals, tx.inputs.mapM PartialTxInput.value_sats = .ok vals →
        vals.contains none = true →
        tx.input_value = .error .missingTxInputAmount := by
  constructor
  · unfold serialize_preimage
    rw [hlk, liftOpt_some, ok_bind, hget]
    try dsimp only
    rw [ok_bind, hps, ok_bind]
    try dsimp only
    rw [hsh, if_neg (by decide), ok_sighash_bytes, ok_bind, hov, if_pos rfl]
    rw [hhd, liftOpt_some, ok_bind, hgid, liftOpt_some, ok_bind]
    rw [hpv, ok_bind]
    try dsimp only
    rw [hsq, ok_bind]
    try dsimp only
    rw [hob, ok_bind]
    try dsimp only
    rw [hex, liftOpt_some, ok_bind, hvb, liftOpt_some, ok_bind]
    rw [hpo, ok_bind, hval, ok_bind]
    rfl
  · intro vals hvals hcontains
    unfold PartialTx.input_value
    rw [hvals, ok_bind, if_pos hcontains]

/-- The prevout of the C9 example input. -/
def c9prevout : TxOutpoint := { txid := List.replicate 32 1, out_idx := 0 }

/-- A p2pk input with no trusted value and no embedded funding
transaction. -/
def c9in : PartialTxInput :=
  { PartialTxInput.fresh c9prevout with script_type := "p2pk", pubkeys := [[2]] }

/-- An Overwintered partial transaction whose single input has an unknown
funding value. -/
def c9tx : PartialTx := { PartialTx.empty with inputs := [c9in] }

/-- C9 counterexample: with input 0's funding value unknown,
`serialize_preimage(0)` fails with the `TypeError` of `int_to_hex(None)`,
which is not `MissingTxInputAmount` — the claim names the wrong error for
this code path. -/
theorem C9_counterexample :
    serialize_preimage dummyHash c9tx 0 = .error .typeError ∧
      Err.typeError ≠ Err.missingTxInputAmount :=
  ⟨rfl, by decide⟩

/-- Witness for C9's amended failure modes at the concrete transaction
`c9tx`. -/
theorem C9_missing_value_failure_witness :
    serialize_preimage dummyHash c9tx 0 = .error .typeError ∧
      c9tx.input_value = .error .missingTxInputAmount := by
  have h := @C9_missing_value_failure dummyHash c9tx 0 c9in
    [0, 0, 0, 0] [4, 0, 0, 0x80] [0x85, 0x20, 0x2F, 0x89]
    (List.replicate 32 1 ++ [0, 0, 0, 0]) [255, 255, 255, 255] []
    [0, 0, 0, 0] [0, 0, 0, 0, 0, 0, 0, 0]
    (List.replicate 32 1 ++ [0, 0, 0, 0]) [1, 2, 172]
    (by decide) (by rfl) (by rfl) (by decide) (by decide) (by decide)
    (by decide) (by rfl) (by rfl) (by rfl) (by decide) (by decide) (by rfl)
    (by rfl)
  exact ⟨h.1, h.2 [none] (by rfl) (by rfl)⟩

/-!
## Claim C1
-/

/-- C1: for an Overwintered partial transaction and an input `i` with a
known funding value, a constructible preimage script and effective sighash
type `SIGHASH_ALL`, the ZIP243 preimage is exactly the concatenation of:
the 4-byte header `0x80000000 | version`, the 4-byte version group id, the
BLAKE2b-256 (personalization `ZcashPrevoutHash`) of all serialized
prevouts, the BLAKE2b-256 (`ZcashSequencHash`) of all 4-byte sequence
numbers, the BLAKE2b-256 (`ZcashOutputsHash`) of all serialized outputs,
three all-zero 32-byte placeholders (regardless of any join-split or
shielded data carried by the transaction), the 4-byte locktime, the 4-byte
expiry height, the 8-byte value balance, the 4-byte sighash type
`SIGHASH_ALL`, then for input `i` only: its serialized prevout, its
preimage script with a compact-size length prefix, its 8-byte funding
value and its 4-byte sequence number. -/
theorem C1_zip243_preimage (H : HashModel) {tx : PartialTx} {i : Nat}
    {txin : PartialTxInput} {v : Int}
    {lkB hdB gidB pvB sqB obB exB vbB poB ps vB sB : Bytes}
    (hlk : int_to_bytes tx.locktime 4 = some lkB)
    (hget : tx.inputs.get? i = some txin)
    (hps : get_preimage_script H txin = .ok ps)
    (hsh : txin.sighash.getD SIGHASH_ALL = SIGHASH_ALL)
    (hov : tx.overwintered = true)
    (hhd : int_to_bytes (0x80000000 ||| tx.version : Nat) 4 = some hdB)
    (hgid : int_to_bytes tx.versionGroupId 4 = some gidB)
    (hpv : mapMSer (fun txi => serialize_outpoint txi.prevout) tx.inputs =
      .ok pvB)
    (hsq : mapMSer (fun txi => liftOpt .overflow (int_to_bytes txi.nsequence 4))
      tx.inputs = .ok sqB)
    (hob : mapMSer (fun o => serialize_txout o.toTxOutput) tx.outputs = .ok obB)
    (hex : int_to_bytes tx.expiryHeight 4 = some exB)
    (hvb : int_to_bytes tx.valueBalance 8 = some vbB)
    (hpo : serialize_outpoint txin.prevout = .ok poB)
    (hval : txin.value_sats = .ok (some v))
    (hvB : int_to_bytes v 8 = some vB)
    (hsB : int_to_bytes txin.nsequence 4 = some sB) :
    serialize_preimage H tx i =
      .ok (hdB ++ gidB ++ H.blake2b_256 (strBytes "ZcashPrevoutHash") pvB ++
        H.blake2b_256 (strBytes "ZcashSequencHash") sqB ++
        H.blake2b_256 (strBytes "ZcashOutputsHash") obB ++
        List.replicate 32 0 ++ List.replicate 32 0 ++ List.replicate 32 0 ++
        lkB ++ exB ++ vbB ++ [1, 0, 0, 0] ++ poB ++
        (var_int ps.length ++ ps) ++ vB ++ sB) := by
  unfold serialize_preimage
  rw [hlk, liftOpt_some, ok_bind, hget]
  try dsimp only
  rw [ok_bind, hps, ok_bind]
  try dsimp only
  rw [hsh, if_neg (by decide), ok_sighash_bytes, ok_bind, hov, if_pos rfl]
  rw [hhd, liftOpt_some, ok_bind, hgid, liftOpt_some, ok_bind]
  rw [hpv, ok_bind]
  try dsimp only
  rw [hsq, ok_bind]
  try dsimp only
  rw [hob, ok_bind]
  try dsimp only
  rw [hex, liftOpt_some, ok_bind, hvb, liftOpt_some, ok_bind]
  rw [hpo, ok_bind, hval, ok_bind]
  try dsimp only
  rw [ok_bind, hvB, liftOpt_some, ok_bind, hsB, liftOpt_some, ok_bind]

/-- A 1-input, 1-output Overwintered transaction carrying join-split data,
for the C1 witness. -/
def c1in : PartialTxInput :=
  { PartialTxInput.fresh c9prevout with
      script_type := "p2pk", pubkeys := [[2]], trusted_value_sats := some 5 }

def c1tx : PartialTx :=
  { PartialTx.empty with
      inputs := [c1in]
      outputs := [{ scriptpubkey := [81], value := 3, redeem_script := none
                    bip32_paths := [], unknown := [] }]
      joinSplits := some (List.replicate 1698 8)
      joinSplitPubKey := some (List.replicate 32 1)
      joinSplitSig := some (List.replicate 64 2) }

/-- Witness for C1 at `c1tx`: the preimage is the claimed concatenation —
with the three placeholder hashes all-zero even though the transaction
carries join-split data. -/
theorem C1_zip243_preimage_witness :
    serialize_preimage dummyHash c1tx 0 =
      .ok ([4, 0, 0, 0x80] ++ [0x85, 0x20, 0x2F, 0x89] ++
        List.replicate 32 0 ++ List.replicate 32 0 ++ List.replicate 32 0 ++
        List.replicate 32 0 ++ List.replicate 32 0 ++ List.replicate 32 0 ++
        [0, 0, 0, 0] ++ [0, 0, 0, 0] ++ [0, 0, 0, 0, 0, 0, 0, 0] ++
        [1, 0, 0, 0] ++ (List.replicate 32 1 ++ [0, 0, 0, 0]) ++
        ([3] ++ [1, 2, 172]) ++ [5, 0, 0, 0, 0, 0, 0, 0] ++
        [255, 255, 255, 255]) := by
  have h := @C1_zip243_preimage dummyHash c1tx 0 c1in 5
    [0, 0, 0, 0] [4, 0, 0, 0x80] [0x85, 0x20, 0x2F, 0x89]
    (List.replicate 32 1 ++ [0, 0, 0, 0]) [255, 255, 255, 255]
    ([3, 0, 0, 0, 0, 0, 0, 0] ++ [1] ++ [81])
    [0, 0, 0, 0] [0, 0, 0, 0, 0, 0, 0, 0]
    (List.replicate 32 1 ++ [0, 0, 0, 0]) [1, 2, 172]
    [5, 0, 0, 0, 0, 0, 0, 0] [255, 255, 255, 255]
    (by decide) (by rfl) (by rfl) (by decide) (by decide) (by decide)
    (by decide) (by rfl) (by rfl) (by rfl) (by decide) (by decide) (by rfl)
    (by rfl) (by decide) (by decide)
  rw [h]
  rfl

/-!
## Claim C3
-/

/-- C3: `txid()` is null exactly when the transaction is not complete, and
when defined it is the byte-reversed double-SHA256 of the full network
serialization.  For a partial transaction, "complete" is every input
Complete (the `UnknownTxinType` escape hatch of `txid` is unreachable for
a complete transaction, since every Complete input admits a scriptSig);
for a plain parsed transaction `is_complete` is constantly true, so the
txid is never null: it is the reversed double-SHA256 whenever the
serialization succeeds. -/
theorem C3_txid_null_iff_incomplete (H : HashModel) :
    (∀ tx : PartialTx,
      (PartialTx.txid H tx = .ok none ↔ tx.is_complete = false) ∧
      ∀ t, PartialTx.txid H tx = .ok (some t) →
        tx.is_complete = true ∧
        ∃ ser, serialize_to_network_psbt tx true = .ok ser ∧
          t = (H.sha256d ser).reverse) ∧
    (∀ tx : TxData,
      txid_plain H tx ≠ .ok none ∧
      ∀ t, txid_plain H tx = .ok (some t) →
        ∃ ser, serialize_to_network_plain tx true = .ok ser ∧
          t = (H.sha256d ser).reverse) := by
  constructor
  · intro tx
    constructor
    · constructor
      · intro h
        unfold PartialTx.txid at h
        by_cases hc : tx.is_complete = true
        · rw [if_pos hc] at h
          cases hser : serialize_to_network_psbt tx true with
          | ok ser => rw [hser] at h; simp at h
          | error e =>
            rw [hser] at h
            cases e <;> try simp at h
            exact absurd hser (notUTE_serialize_to_network_psbt hc)
        · rw [if_neg hc] at h
          exact (Bool.not_eq_true _) ▸ hc
      · intro hc
        unfold PartialTx.txid
        rw [if_neg (by simp [hc])]
    · intro t h
      unfold PartialTx.txid at h
      by_cases hc : tx.is_complete = true
      · rw [if_pos hc] at h
        refine ⟨hc, ?_⟩
        cases hser : serialize_to_network_psbt tx true with
        | ok ser =>
          rw [hser] at h
          simp only [Except.ok.injEq, Option.some.injEq] at h
          exact ⟨ser, rfl, h.symm⟩
        | error e =>
          rw [hser] at h
          cases e <;> simp at h
      · rw [if_neg hc] at h
        simp at h
  · intro tx
    constructor
    · intro h
      unfold txid_plain at h
      cases hser : serialize_to_network_plain tx true with
      | ok ser => rw [hser] at h; simp at h
      | error e =>
        rw [hser] at h
        cases e <;> try simp at h
        exact absurd hser (notUTE_serialize_to_network_plain tx true)
    · intro t h
      unfold txid_plain at h
      cases hser : serialize_to_network_plain tx true with
      | ok ser =>
        rw [hser] at h
        simp only [Except.ok.injEq, Option.some.injEq] at h
        exact ⟨ser, rfl, h.symm⟩
      | error e =>
        rw [hser] at h
        cases e <;> simp at h

/-!
## Claims C10 and C8
-/

/-- C10: `from_io` and every later `add_inputs`, `add_outputs` or
successful `join_with_other_psbt` leaves the input list sorted by
`(prevout.txid, prevout.out_idx)` and the output list sorted by
`(value, scriptpubkey)`, with the lists a permutation of what was supplied
— so the caller-supplied order is not preserved. -/
theorem C10_bip69_sort_invariant :
    (∀ ins outs lk v,
      (PartialTx.from_io ins outs lk v).inputs.Perm ins ∧
      List.Sorted inputLe (PartialTx.from_io ins outs lk v).inputs ∧
      (PartialTx.from_io ins outs lk v).outputs.Perm outs ∧
      List.Sorted outputLe (PartialTx.from_io ins outs lk v).outputs) ∧
    (∀ (tx : PartialTx) new,
      (tx.add_inputs new).inputs.Perm (tx.inputs ++ new) ∧
      List.Sorted inputLe (tx.add_inputs new).inputs ∧
      (tx.add_inputs new).outputs = tx.outputs) ∧
    (∀ (tx : PartialTx) new,
      (tx.add_outputs new).outputs.Perm (tx.outputs ++ new) ∧
      List.Sorted outputLe (tx.add_outputs new).outputs ∧
      (tx.add_outputs new).inputs = tx.inputs) ∧
    (∀ tx other res, PartialTx.join_with_other_psbt tx other = .ok res →
      res.inputs.Perm ((tx.inputs ++ other.inputs).map stripSigs) ∧
      List.Sorted inputLe res.inputs ∧
      res.outputs.Perm (tx.outputs ++ other.outputs) ∧
      List.Sorted outputLe res.outputs) := by
  refine ⟨fun ins outs lk v => ?_, fun tx new => ?_, fun tx new => ?_,
    fun tx other res h => ?_⟩
  · simp only [PartialTx.from_io, PartialTx.BIP69_sort,
      PartialTx.BIP69_sort_inputs, PartialTx.BIP69_sort_outputs]
    exact ⟨List.perm_insertionSort _ _, List.sorted_insertionSort _ _,
      List.perm_insertionSort _ _, List.sorted_insertionSort _ _⟩
  · simp only [PartialTx.add_inputs, PartialTx.BIP69_sort_inputs]
    exact ⟨List.perm_insertionSort _ _, List.sorted_insertionSort _ _,
      by trivial⟩
  · simp only [PartialTx.add_outputs, PartialTx.BIP69_sort_outputs]
    exact ⟨List.perm_insertionSort _ _, List.sorted_insertionSort _ _,
      by trivial⟩
  · unfold PartialTx.join_with_other_psbt at h
    split at h
    · unfold PartialTx.add_outputs PartialTx.add_inputs
        PartialTx.BIP69_sort_outputs PartialTx.BIP69_sort_inputs
        PartialTx.remove_signatures at h
      dsimp only at h
      split at h
      · exact absurd h (by simp)
      · simp only [Except.ok.injEq] at h
        subst h
        refine ⟨(List.perm_insertionSort _ _).map _,
          List.Pairwise.map stripSigs (fun a b hab => hab)
            (List.sorted_insertionSort inputLe _),
          List.perm_insertionSort _ _, List.sorted_insertionSort _ _⟩
    · exact absurd h (by simp)

/-- C8 (amended): `join_with_other_psbt` fails exactly when a prevout
occurs twice across the two input lists **or** when the combined,
signature-stripped inputs are all Complete (the trailing
`assert not self.is_complete()` — this also fires for two empty
transactions); a successful join returns the BIP69-sorted union of inputs
(signatures stripped) and outputs, every result input has empty
`part_sigs` and no scriptSig, and the joined transaction is not
complete. -/
theorem C8_join_behavior :
    ∀ tx other : PartialTx,
      ((∃ e, PartialTx.join_with_other_psbt tx other = .error e) ↔
        (¬ ((tx.inputs ++ other.inputs).map (fun t => t.prevout)).Nodup ∨
          ((tx.inputs ++ other.inputs).map stripSigs).all
            PartialTxInput.is_complete = true)) ∧
      (∀ res, PartialTx.join_with_other_psbt tx other = .ok res →
        res.inputs.Perm ((tx.inputs ++ other.inputs).map stripSigs) ∧
        res.outputs.Perm (tx.outputs ++ other.outputs) ∧
        (∀ t ∈ res.inputs, t.part_sigs = [] ∧ t.script_sig = none) ∧
        res.is_complete = false) := by
  intro tx other
  have hkey :
      ((List.insertionSort inputLe (tx.inputs ++ other.inputs)).map
        stripSigs).all PartialTxInput.is_complete =
      ((tx.inputs ++ other.inputs).map stripSigs).all
        PartialTxInput.is_complete :=
    perm_all_eq ((List.perm_insertionSort _ _).map _) _
  constructor
  · constructor
    · rintro ⟨e, he⟩
      unfold PartialTx.join_with_other_psbt at he
      split at he
      · unfold PartialTx.add_outputs PartialTx.add_inputs
          PartialTx.BIP69_sort_outputs PartialTx.BIP69_sort_inputs
          PartialTx.remove_signatures PartialTx.is_complete at he
        dsimp only at he
        split at he
        · case _ hcomp => exact Or.inr (hkey ▸ hcomp)
        · exact absurd he (by simp)
      · case _ hnd => exact Or.inl hnd
    · intro hd
      unfold PartialTx.join_with_other_psbt
      by_cases hnd : ((tx.inputs ++ other.inputs).map
          (fun t => t.prevout)).Nodup
      · rw [if_pos hnd]
        rcases hd with hd | hd
        · exact absurd hnd hd
        · unfold PartialTx.add_outputs PartialTx.add_inputs
            PartialTx.BIP69_sort_outputs PartialTx.BIP69_sort_inputs
            PartialTx.remove_signatures PartialTx.is_complete
          dsimp only
          rw [if_pos (hkey.trans hd)]
          exact ⟨.generic, rfl⟩
      · rw [if_neg hnd]
        exact ⟨.generic, rfl⟩
  · intro res h
    unfold PartialTx.join_with_other_psbt at h
    split at h
    · unfold PartialTx.add_outputs PartialTx.add_inputs
        PartialTx.BIP69_sort_outputs PartialTx.BIP69_sort_inputs
        PartialTx.remove_signatures PartialTx.is_complete at h
      dsimp only at h
      split at h
      · exact absurd h (by simp)
      · case _ hcomp =>
        simp only [Except.ok.injEq] at h
        subst h
        refine ⟨(List.perm_insertionSort _ _).map _,
          List.perm_insertionSort _ _, ?_, ?_⟩
        · intro t ht
          obtain ⟨x, -, rfl⟩ := List.mem_map.mp ht
          exact ⟨rfl, rfl⟩
        · unfold PartialTx.is_complete
          dsimp only
          simp only [Bool.not_eq_true] at hcomp
          exact hcomp
    · exact absurd h (by simp)

/-- C8 counterexample: joining two empty partial transactions fails even
though no prevout occurs in both input lists (`all([]) == True`, so the
`assert not self.is_complete()` in `remove_signatures` fires): the claim's
"otherwise succeeds" is false. -/
theorem C8_counterexample :
    PartialTx.empty.join_with_other_psbt PartialTx.empty = .error .generic ∧
      ((PartialTx.empty.inputs ++ PartialTx.empty.inputs).map
        (fun t => t.prevout)).Nodup :=
  ⟨rfl, by decide⟩

/-!
## Claim C6: section-order scaffolding
-/

/-- Every key of `l` starts with a byte `≤ c`. -/
def keysHeadUB (c : Nat) (l : List (Bytes × Bytes)) : Prop :=
  ∀ kv ∈ l, ∃ d t, kv.1 = d :: t ∧ d ≤ c

/-- Every key of `l` starts with the byte `c`. -/
def keysHead (c : Nat) (l : List (Bytes × Bytes)) : Prop :=
  ∀ kv ∈ l, ∃ t, kv.1 = c :: t

theorem keysHead_UB {c : Nat} {l : List (Bytes × Bytes)} (h : keysHead c l) :
    keysHeadUB c l :=
  fun kv hkv => (h kv hkv).elim (fun t ht => ⟨c, t, ht, Nat.le_refl c⟩)

theorem keysHeadUB_mono {c d : Nat} {l : List (Bytes × Bytes)} (hcd : c ≤ d)
    (h : keysHeadUB c l) : keysHeadUB d l :=
  fun kv hkv => by
    obtain ⟨e, t, ht, he⟩ := h kv hkv
    exact ⟨e, t, ht, Nat.le_trans he hcd⟩

theorem keysHeadUB_append {c : Nat} {l1 l2 : List (Bytes × Bytes)}
    (h1 : keysHeadUB c l1) (h2 : keysHeadUB c l2) : keysHeadUB c (l1 ++ l2) :=
  fun kv hkv => (List.mem_append.mp hkv).elim (h1 kv) (h2 kv)

/-- Appending a region of strictly larger head bytes keeps the kv list
sorted. -/
theorem kvsSorted_append_region {c d : Nat} {l1 l2 : List (Bytes × Bytes)}
    (hcd : c < d) (hub : keysHeadUB c l1) (hhd : keysHead d l2)
    (h1 : kvsSorted l1) (h2 : kvsSorted l2) : kvsSorted (l1 ++ l2) := by
  refine List.pairwise_append.mpr ⟨h1, h2, ?_⟩
  intro a ha b hb
  obtain ⟨e, t, ht, he⟩ := hub a ha
  obtain ⟨t2, ht2⟩ := hhd b hb
  rw [ht, ht2]
  exact bytesLe_cons_lt (Nat.lt_of_le_of_lt he hcd) _ _

theorem kvsSorted_singleton (k v : Bytes) : kvsSorted [(k, v)] := by
  simp [kvsSorted]

theorem kvsSorted_nil : kvsSorted [] := List.Pairwise.nil

/-- The partial-signature region: mapping `full_key 2` over key-sorted
pairs is sorted and 2-headed. -/
theorem sig_region_sorted (l : List (Bytes × Bytes)) :
    kvsSorted ((sortPairs l).map (fun p => (full_key 2 p.1, p.2))) ∧
      keysHead 2 ((sortPairs l).map (fun p => (full_key 2 p.1, p.2))) := by
  constructor
  · exact List.Pairwise.map _ (fun a b hab => bytesLe_cons_same hab)
      (sortPairs_sorted l)
  · intro kv hkv
    obtain ⟨p, -, rfl⟩ := List.mem_map.mp hkv
    exact ⟨p.1, rfl⟩

/-- The BIP32 region of a section: the emitted entries are sorted and all
carry the given key-type head byte (`full_key c k = c :: k` for
`c < 253`). -/
theorem bip_region_sorted {c : Nat} (hc : c < 253)
    {l : List (Bytes × (Bytes × List Nat))} {r : List (Bytes × Bytes)}
    (h : (sortByKey l).mapM (fun p => do
        let packed ← pack_bip32_root_fingerprint_and_int_path p.2.1 p.2.2
        pure ((full_key c p.1, packed) : Bytes × Bytes)) = .ok r) :
    kvsSorted r ∧ keysHead c r := by
  have hfk : ∀ k : Bytes, full_key c k = c :: k := by
    intro k
    unfold full_key var_int
    rw [if_pos hc]
    rfl
  constructor
  · refine mapM_pairwise ?_ (sortByKey_sorted l) h
    intro x y a b hxy hfa hfb
    rcases hpx : pack_bip32_root_fingerprint_and_int_path x.2.1 x.2.2 with e | px
    · rw [hpx] at hfa
      exact absurd hfa (by simp [error_bind])
    · rcases hpy : pack_bip32_root_fingerprint_and_int_path y.2.1 y.2.2 with e | py
      · rw [hpy] at hfb
        exact absurd hfb (by simp [error_bind])
      · rw [hpx, ok_bind] at hfa
        rw [hpy, ok_bind] at hfb
        simp only [pure, Except.pure, Except.ok.injEq] at hfa hfb
        rw [← hfa, ← hfb]
        rw [hfk x.1, hfk y.1]
        exact bytesLe_cons_same hxy
  · intro kv hkv
    obtain ⟨p, -, hp⟩ := mapM_ok_mem h kv hkv
    rcases hpx : pack_bip32_root_fingerprint_and_int_path p.2.1 p.2.2 with e | px
    · rw [hpx] at hp
      exact absurd hp (by simp [error_bind])
    · rw [hpx, ok_bind] at hp
      simp only [pure, Except.pure, Except.ok.injEq] at hp
      rw [← hp, hfk p.1]
      exact ⟨p.1, rfl⟩

/-- When every bag key rebuilds to itself (its compact-size type prefix is
minimal), the emitted unknown region is the bag sorted by key. -/
theorem unk_mapM_id {l r : List (Bytes × Bytes)}
    (hcanon : ∀ p ∈ l, ∀ kk : Nat × Bytes,
      get_keytype_and_key_from_fullkey p.1 = .ok kk →
        full_key kk.1 kk.2 = p.1)
    (h : l.mapM (fun p => do
        let kk ← get_keytype_and_key_from_fullkey p.1
        pure ((full_key kk.1 kk.2, p.2) : Bytes × Bytes)) = .ok r) :
    r = l := by
  induction l generalizing r with
  | nil =>
    simp only [List.mapM_nil, pure, Except.pure, Except.ok.injEq] at h
    exact h.symm
  | cons p ps ih =>
    rw [List.mapM_cons] at h
    rw [except_bind_ok] at h
    obtain ⟨b, hb, h⟩ := h
    rw [except_bind_ok] at h
    obtain ⟨bs, hbs, h⟩ := h
    simp only [pure, Except.pure, Except.ok.injEq] at h
    subst h
    rcases hkk : get_keytype_and_key_from_fullkey p.1 with e | kk
    · rw [hkk] at hb
      exact absurd hb (by simp [error_bind])
    · rw [hkk, ok_bind] at hb
      simp only [pure, Except.pure, Except.ok.injEq] at hb
      have hk1 : b.1 = p.1 := by
        rw [← hb]
        exact hcanon p (List.mem_cons_self p ps) kk hkk
      have hk2 : b = p := by
        rw [← hb]
        rw [hcanon p (List.mem_cons_self p ps) kk hkk]
      rw [hk2, ih (fun q hq => hcanon q (List.mem_cons_of_mem p hq)) hbs]

theorem opt_kv_region {c : Nat} (hc : c < 253) (o : Option Bytes) :
    kvsSorted (opt_kv c o) ∧ keysHead c (opt_kv c o) := by
  cases o with
  | none =>
    exact ⟨kvsSorted_nil, fun kv hkv => absurd hkv (List.not_mem_nil kv)⟩
  | some b =>
    refine ⟨kvsSorted_singleton _ _, ?_⟩
    intro kv hkv
    have hfk : full_key c [] = [c] := by
      unfold full_key var_int
      rw [if_pos hc]
      rfl
    rcases List.mem_singleton.mp hkv with rfl
    exact ⟨[], hfk⟩

/-- Append the next region (strictly larger head byte) of a section. -/
theorem region_step {c d : Nat} {l1 l2 : List (Bytes × Bytes)} (hcd : c < d)
    (h1 : kvsSorted l1 ∧ keysHeadUB c l1)
    (h2 : kvsSorted l2 ∧ keysHead d l2) :
    kvsSorted (l1 ++ l2) ∧ keysHeadUB d (l1 ++ l2) :=
  ⟨kvsSorted_append_region hcd h1.2 h2.2 h1.1 h2.1,
    keysHeadUB_append (keysHeadUB_mono (Nat.le_of_lt hcd) h1.2)
      (keysHead_UB h2.2)⟩

theorem utxo_kvs_region {o : Option TxData} {r : List (Bytes × Bytes)}
    (h : utxo_kvs o = .ok r) : kvsSorted r ∧ keysHead 0 r := by
  cases o with
  | none =>
    simp only [utxo_kvs, pure, Except.pure, Except.ok.injEq] at h
    subst h
    exact ⟨kvsSorted_nil, fun kv hkv => absurd hkv (List.not_mem_nil kv)⟩
  | some u =>
    simp only [utxo_kvs] at h
    rw [except_bind_ok] at h
    obtain ⟨ser, -, h⟩ := h
    simp only [pure, Except.pure, Except.ok.injEq] at h
    subst h
    refine ⟨kvsSorted_singleton _ _, ?_⟩
    intro kv hkv
    rcases List.mem_singleton.mp hkv with rfl
    exact ⟨[], rfl⟩

theorem sighash_kvs_region {o : Option Nat} {r : List (Bytes × Bytes)}
    (h : sighash_kvs o = .ok r) : kvsSorted r ∧ keysHead 3 r := by
  cases o with
  | none =>
    simp only [sighash_kvs, pure, Except.pure, Except.ok.injEq] at h
    subst h
    exact ⟨kvsSorted_nil, fun kv hkv => absurd hkv (List.not_mem_nil kv)⟩
  | some sv =>
    simp only [sighash_kvs] at h
    split at h
    · simp only [pure, Except.pure, Except.ok.injEq] at h
      subst h
      refine ⟨kvsSorted_singleton _ _, ?_⟩
      intro kv hkv
      rcases List.mem_singleton.mp hkv with rfl
      exact ⟨[], rfl⟩
    · exact absurd h (by simp)

/-- The known-field region of a per-input PSBT section is sorted, and the
emitted section is that region followed by the sorted unknown bag. -/
theorem psbt_input_section_split {txin : PartialTxInput}
    {kvs known : List (Bytes × Bytes)}
    (h : serialize_psbt_input_kvs txin = .ok kvs)
    (hk : serialize_psbt_input_kvs { txin with unknown := [] } = .ok known)
    (hcanon : ∀ p ∈ txin.unknown, ∀ kk : Nat × Bytes,
      get_keytype_and_key_from_fullkey p.1 = .ok kk →
        full_key kk.1 kk.2 = p.1) :
    kvs = known ++ sortPairs txin.unknown ∧ kvsSorted known ∧
      kvsSorted (sortPairs txin.unknown) ∧
      (sortPairs txin.unknown).Perm txin.unknown := by
  unfold serialize_psbt_input_kvs at h hk
  dsimp only at h hk
  rw [except_bind_ok] at h
  obtain ⟨u, hu, h⟩ := h
  rw [hu, ok_bind] at hk
  try dsimp only at h hk
  rw [except_bind_ok] at h
  obtain ⟨sh, hsh2, h⟩ := h
  rw [hsh2, ok_bind] at hk
  try dsimp only at h hk
  rw [except_bind_ok] at h
  obtain ⟨bip, hbip, h⟩ := h
  rw [hbip, ok_bind] at hk
  try dsimp only at h hk
  rw [except_bind_ok] at h
  obtain ⟨unk, hunk, h⟩ := h
  rw [show sortPairs ([] : List (Bytes × Bytes)) = [] from rfl,
    List.mapM_nil] at hk
  simp only [pure, Except.pure, Except.ok.injEq] at h
  subst h
  simp only [pure, Except.pure] at hk
  rw [ok_bind] at hk
  simp only [Except.ok.injEq] at hk
  subst hk
  have hunkid : unk = sortPairs txin.unknown :=
    unk_mapM_id
      (fun p hp => hcanon p ((sortPairs_perm txin.unknown).mem_iff.mp hp)) hunk
  have hureg := utxo_kvs_region hu
  have hshreg := sighash_kvs_region hsh2
  have hsigreg := sig_region_sorted txin.part_sigs
  have hbipreg := bip_region_sorted (by norm_num) hbip
  have hrsreg := opt_kv_region (by norm_num : (4 : Nat) < 253)
    txin.redeem_script
  have hfsreg := opt_kv_region (by norm_num : (7 : Nat) < 253) txin.script_sig
  have hknown :
      kvsSorted (u ++ (sortPairs txin.part_sigs).map
          (fun p => (full_key 2 p.1, p.2)) ++ sh ++
        opt_kv 4 txin.redeem_script ++ bip ++ opt_kv 7 txin.script_sig) ∧
      keysHeadUB 7 (u ++ (sortPairs txin.part_sigs).map
          (fun p => (full_key 2 p.1, p.2)) ++ sh ++
        opt_kv 4 txin.redeem_script ++ bip ++ opt_kv 7 txin.script_sig) := by
    refine region_step (c := 6) (by norm_num) ?_ hfsreg
    refine region_step (c := 4) (by norm_num) ?_ hbipreg
    refine region_step (c := 3) (by norm_num) ?_ hrsreg
    refine region_step (c := 2) (by norm_num) ?_ hshreg
    refine region_step (c := 0) (by norm_num) ?_ hsigreg
    exact ⟨hureg.1, keysHead_UB hureg.2⟩
  refine ⟨?_, ?_, sortPairs_sorted _, sortPairs_perm _⟩
  · rw [hunkid, List.append_nil]
  · rw [List.append_nil]
    exact hknown.1

/-- The known-field region of a per-output PSBT section is sorted, and
the emitted section is that region followed by the sorted unknown bag. -/
theorem psbt_output_section_split {o : PartialTxOutput}
    {kvs known : List (Bytes × Bytes)}
    (h : serialize_psbt_output_kvs o = .ok kvs)
    (hk : serialize_psbt_output_kvs { o with unknown := [] } = .ok known)
    (hcanon : ∀ p ∈ o.unknown, ∀ kk : Nat × Bytes,
      get_keytype_and_key_from_fullkey p.1 = .ok kk →
        full_key kk.1 kk.2 = p.1) :
    kvs = known ++ sortPairs o.unknown ∧ kvsSorted known ∧
      kvsSorted (sortPairs o.unknown) ∧
      (sortPairs o.unknown).Perm o.unknown := by
  unfold serialize_psbt_output_kvs at h hk
  dsimp only at h hk
  rw [except_bind_ok] at h
  obtain ⟨bip, hbip, h⟩ := h
  rw [hbip, ok_bind] at hk
  try dsimp only at h hk
  rw [except_bind_ok] at h
  obtain ⟨unk, hunk, h⟩ := h
  rw [show sortPairs ([] : List (Bytes × Bytes)) = [] from rfl,
    List.mapM_nil] at hk
  simp only [pure, Except.pure, Except.ok.injEq] at h
  subst h
  simp only [pure, Except.pure] at hk
  rw [ok_bind] at hk
  simp only [Except.ok.injEq] at hk
  subst hk
  have hunkid : unk = sortPairs o.unknown :=
    unk_mapM_id
      (fun p hp => hcanon p ((sortPairs_perm o.unknown).mem_iff.mp hp)) hunk
  have hbipreg := bip_region_sorted (by norm_num) hbip
  have hrsreg := opt_kv_region (by norm_num : (0 : Nat) < 253) o.redeem_script
  have hknown :
      kvsSorted (opt_kv 0 o.redeem_script ++ bip) ∧
      keysHeadUB 2 (opt_kv 0 o.redeem_script ++ bip) := by
    refine region_step (c := 0) (by norm_num) ?_ hbipreg
    exact ⟨hrsreg.1, keysHead_UB hrsreg.2⟩
  refine ⟨?_, ?_, sortPairs_sorted _, sortPairs_perm _⟩
  · rw [hunkid, List.append_nil]
  · rw [List.append_nil]
    exact hknown.1

/-- C6 (amended): each per-input and per-output PSBT section is emitted as
a sorted known-field region (key types 0,2,3,4,6,7 for inputs; 0,2 for
outputs, multi-entry fields sorted by key) followed by the unknown-field
bag sorted among itself — the concatenation as a whole is **not** in
sorted full-key order in general, because the bag is always emitted last
even when its key types are smaller than the known ones. -/
theorem C6_psbt_section_order :
    (∀ (txin : PartialTxInput) kvs known,
      serialize_psbt_input_kvs txin = .ok kvs →
      serialize_psbt_input_kvs { txin with unknown := [] } = .ok known →
      (∀ p ∈ txin.unknown, ∀ kk : Nat × Bytes,
        get_keytype_and_key_from_fullkey p.1 = .ok kk →
          full_key kk.1 kk.2 = p.1) →
      kvs = known ++ sortPairs txin.unknown ∧ kvsSorted known ∧
        kvsSorted (sortPairs txin.unknown) ∧
        (sortPairs txin.unknown).Perm txin.unknown) ∧
    (∀ (o : PartialTxOutput) kvs known,
      serialize_psbt_output_kvs o = .ok kvs →
      serialize_psbt_output_kvs { o with unknown := [] } = .ok known →
      (∀ p ∈ o.unknown, ∀ kk : Nat × Bytes,
        get_keytype_and_key_from_fullkey p.1 = .ok kk →
          full_key kk.1 kk.2 = p.1) →
      kvs = known ++ sortPairs o.unknown ∧ kvsSorted known ∧
        kvsSorted (sortPairs o.unknown) ∧
        (sortPairs o.unknown).Perm o.unknown) :=
  ⟨fun _ _ _ h hk hcanon => psbt_input_section_split h hk hcanon,
    fun _ _ _ h hk hcanon => psbt_output_section_split h hk hcanon⟩

/-- An input whose section exhibits the unsorted emission: a sighash entry
(full key `[3]`) followed by an unknown-bag entry with full key `[1]`. -/
def c6in : PartialTxInput :=
  { PartialTxInput.fresh c9prevout with
      sighash := some 1, unknown := [([1], [42])] }

/-- C6 counterexample: the per-input section of `c6in` is emitted as the
key `[3]` entry followed by the key `[1]` entry — not in sorted order of
the full key bytes, because unknown-bag entries always come last. -/
theorem C6_counterexample :
    serialize_psbt_input_kvs c6in =
      .ok [([3], [1, 0, 0, 0]), ([1], [42])] ∧
    ¬ kvsSorted [(([3] : Bytes), ([1, 0, 0, 0] : Bytes)), ([1], [42])] :=
  ⟨rfl, by decide⟩

end ZcashTx
